import Mathlib

/-!
# limalloc and hmalloc: shallow embeddings of `src/src/limalloc.c` and `src/src/hmalloc.c`

The allocator state (the static `arenas` array, the thread-local `__arena` and
`__bucket`, the flag `FISRT_RUN`) is an explicit record; the heap is a map from
byte addresses to byte values; a pointer is a natural number and `0` is `NULL`.
The C types are those of an LP64 target: `size_t` and pointers are 64 bits,
`int` is 32 bits, so `sizeof(chunk) = sizeof(page) = 8` and `sizeof(block) = 16`.

A failed `assert` is the result `Fault.assertion`.  The two `while` loops that
follow links stored in the heap (`__find_bucket`, `pop_big_block`) take a fuel
argument and answer `Fault.out_of_fuel` when it is used up.

The namespace `Limalloc` holds the arena allocator; the namespace `Hmalloc` holds
the single-list allocator of `hmalloc.c` (there `sizeof(chunk) = 16`), on the same
heap model, with fuel for the walks of `push_chunk`, `pop_chunk` and
`chunk_list_coalesce`.
-/

namespace Limalloc

/-! ## Constants -/

/-- The constant `CHUNK_SIZE = sizeof(chunk)`: one pointer. -/
def CHUNK_SIZE : Nat := 8

/-- The constant `BLOCK_SIZE = sizeof(block)`: a `size_t` and a pointer. -/
def BLOCK_SIZE : Nat := 16

/-- The constant `OVERHEAD_SIZE = sizeof(size_t)`. -/
def OVERHEAD_SIZE : Nat := 8

/-- The constant `MEM_PAGE_SIZE`: the length of a slab mapping. -/
def MEM_PAGE_SIZE : Nat := 1024 * 1024

/-- The constant `PAGE_SIZE`. -/
def PAGE_SIZE : Nat := 4096

/-- The constant `MAX_BUCKET_SIZE` (declared in the source, never read). -/
def MAX_BUCKET_SIZE : Nat := 8192

/-- The constant `BUCKET_COUNT`. -/
def BUCKET_COUNT : Nat := 11

/-- The constant `ARENA_COUNT`. -/
def ARENA_COUNT : Nat := 8

/-- The value of `sizeof(page)`: one pointer. -/
def SIZEOF_PAGE : Nat := 8

/-! ## Machine integers -/

/-- Conversion to `size_t`: reduction modulo `2^64`. -/
def toSizeT (v : Int) : Nat := (v % 18446744073709551616).toNat

/-- Conversion to `int`: the low 32 bits read in two's complement. -/
def toInt32 (v : Int) : Int :=
  let w := v % 4294967296
  if w < 2147483648 then w else w - 4294967296

/-- Pointer plus a signed byte offset, as in `((char*)p) + d`. -/
def ptrAdd (p : Nat) (d : Int) : Nat := ((p : Int) + d).toNat

/-! ## The heap -/

/-- The heap: the byte stored at each address. -/
abbrev Mem := Nat → Nat

/-- Read one byte. -/
def load8 (m : Mem) (a : Nat) : Nat := m a % 256

/-- Write one byte. -/
def store8 (m : Mem) (a v : Nat) : Mem := fun x => if x = a then v % 256 else m x

/-- Read a 64-bit little-endian word (a `size_t` or a pointer field). -/
def load64 (m : Mem) (a : Nat) : Nat :=
  load8 m a + 256 * (load8 m (a + 1) + 256 * (load8 m (a + 2) + 256 * (load8 m (a + 3)
    + 256 * (load8 m (a + 4) + 256 * (load8 m (a + 5) + 256 * (load8 m (a + 6)
    + 256 * load8 m (a + 7)))))))

/-- Write a 64-bit little-endian word (a `size_t` or a pointer field). -/
def store64 (m : Mem) (a v : Nat) : Mem :=
  fun x => if a ≤ x ∧ x < a + 8 then v / 256 ^ (x - a) % 256 else m x

/-- The library call `memcpy(dst, src, n)` on ranges that do not overlap. -/
def memcpy (m : Mem) (dst src n : Nat) : Mem :=
  fun x => if dst ≤ x ∧ x < dst + n then m (src + (x - dst)) else m x

/-! ## The data model of `limalloc.h` -/

/-- The struct `bucket`: three list heads and the chunk size of the class. -/
structure bucket where
  chunk_head : Nat
  block_head : Nat
  page_head : Nat
  chunk_size : Nat
deriving DecidableEq, Repr

/-- The struct `arena`: the mutex (`true` when held) and the eleven buckets. -/
structure arena where
  lock : Bool
  buckets : Nat → bucket

/-- Ways a call can fail to return. -/
inductive Fault where
  | assertion
  | out_of_fuel
deriving DecidableEq, Repr

deriving instance DecidableEq for Except

/-- The whole state seen by one thread: the globals of `limalloc.c`, the heap,
and the page source (the next base address it hands out and the log of the
mappings requested so far, oldest first, as base and length). -/
structure State where
  FISRT_RUN : Bool
  __arena : Option Nat
  __bucket : Option (Nat × Nat)
  arenas : Nat → arena
  mem : Mem
  mmap_next : Nat
  mmap_log : List (Nat × Nat)

/-- The bucket a bucket pointer (arena index, bucket index) points to. -/
def State.bucketAt (s : State) (ab : Nat × Nat) : bucket := (s.arenas ab.1).buckets ab.2

/-- Assignment through a bucket pointer. -/
def State.setBucket (s : State) (ab : Nat × Nat) (b : bucket) : State :=
  { s with arenas := fun aa => if aa = ab.1
      then { s.arenas aa with buckets := fun bb => if bb = ab.2 then b else (s.arenas aa).buckets bb }
      else s.arenas aa }

/-- The state before the first call: zeroed statics, `FISRT_RUN = 1`, null
thread-local pointers, an all-zero heap, and a page source that starts handing
out mappings at `base`. -/
def fresh (base : Nat) : State :=
  { FISRT_RUN := true
    __arena := none
    __bucket := none
    arenas := fun _ => { lock := false, buckets := fun _ => ⟨0, 0, 0, 0⟩ }
    mem := fun _ => 0
    mmap_next := base
    mmap_log := [] }

/-- The page source: an anonymous private mapping of `len` bytes.  It returns a
zero-filled range disjoint from every earlier one and records the request. -/
def mmap (s : State) (len : Nat) : Nat × State :=
  (s.mmap_next,
   { s with
      mem := fun x => if s.mmap_next ≤ x ∧ x < s.mmap_next + len then 0 else s.mem x
      mmap_next := s.mmap_next + len
      mmap_log := s.mmap_log ++ [(s.mmap_next, len)] })

/-! ## Utilities -/

/-- The function `div_up` on `size_t`. -/
def div_up (aa bb : Nat) : Nat :=
  toSizeT ((toSizeT ((aa : Int) - 1) / bb : Nat) + 1)

/-- The inner loop of `init_malloc` for arena `aa`, from bucket `bb`, with `n`
iterations left. -/
def init_buckets (aa : Nat) : Nat → Nat → State → State
  | 0, _, s => s
  | n + 1, bb, s =>
    init_buckets aa n (bb + 1)
      (s.setBucket (aa, bb)
        { chunk_head := 0, block_head := 0, page_head := 0, chunk_size := toSizeT (8 <<< bb : Nat) })

/-- The outer loop of `init_malloc`, from arena `aa`, with `n` iterations left. -/
def init_arenas : Nat → Nat → State → State
  | 0, _, s => s
  | n + 1, aa, s =>
    let s1 : State :=
      { s with arenas := fun x => if x = aa then { s.arenas x with lock := false } else s.arenas x }
    init_arenas n (aa + 1) (init_buckets aa BUCKET_COUNT 0 s1)

/-- The function `init_malloc`. -/
def init_malloc (s : State) : State :=
  { init_arenas ARENA_COUNT 0 s with FISRT_RUN := false }

/-! ## Arenas -/

/-- The function `arena_trylock`: `true` and the mutex taken when it was free. -/
def arena_trylock (s : State) (aa : Nat) : Bool × State :=
  if (s.arenas aa).lock then (false, s)
  else (true, { s with arenas := fun x => if x = aa then { s.arenas x with lock := true } else s.arenas x })

/-- The function `__unlock_arena` (defined in the source, called nowhere). -/
def __unlock_arena (s : State) : Except Fault State :=
  match s.__arena with
  | none => .error .assertion
  | some a =>
    .ok { s with arenas := fun x => if x = a then { s.arenas x with lock := false } else s.arenas x }

/-- The loop of `__assign_arena`, from arena `aa`, with `n` iterations left. -/
def assign_arena_loop : Nat → Nat → State → State
  | 0, _, s => s
  | n + 1, aa, s =>
    match arena_trylock s aa with
    | (true, s1) => { s1 with __arena := some aa }
    | (false, s1) => assign_arena_loop n (aa + 1) s1

/-- The function `__assign_arena`. -/
def __assign_arena (s : State) : State := assign_arena_loop ARENA_COUNT 0 s

/-! ## Buckets -/

/-- The loop of `__choose_bucket` in arena `a`, from bucket `bb`, with `n`
iterations left: the index of the bucket chosen. -/
def choose_bucket_loop (s : State) (a size : Nat) : Nat → Nat → Nat
  | 0, _ => 0
  | n + 1, bb => if size ≤ (s.bucketAt (a, bb)).chunk_size then bb else choose_bucket_loop s a size n (bb + 1)

/-- The function `__choose_bucket`. -/
def __choose_bucket (s : State) (size : Nat) : Except Fault State :=
  if size < CHUNK_SIZE then .error .assertion else
  match s.__arena with
  | none => .error .assertion
  | some a => .ok { s with __bucket := some (a, choose_bucket_loop s a size 10 1) }

/-- The `while` loop of `__find_bucket` over one page list: whether `ptr` lies
strictly between the base and the end of a page on it. -/
def page_walk (m : Mem) (ptr : Nat) : Nat → Nat → Except Fault Bool
  | 0, _ => .error .out_of_fuel
  | fuel + 1, curr_page =>
    if curr_page = 0 then .ok false
    else if curr_page < ptr ∧ ptr < curr_page + MEM_PAGE_SIZE then .ok true
    else page_walk m ptr fuel (load64 m curr_page)

/-- The `for` loop of `__find_bucket` in arena `a`, from bucket `bb`, with `n`
iterations left: the index of the bucket found. -/
def find_bucket_loop (fuel : Nat) (s : State) (a ptr : Nat) : Nat → Nat → Except Fault Nat
  | 0, _ => .ok 0
  | n + 1, bb =>
    match page_walk s.mem ptr fuel (s.bucketAt (a, bb)).page_head with
    | .error e => .error e
    | .ok true => .ok bb
    | .ok false => find_bucket_loop fuel s a ptr n (bb + 1)

/-- The function `__find_bucket`. -/
def __find_bucket (fuel : Nat) (s : State) (ptr : Nat) : Except Fault State :=
  match s.__arena with
  | none => .error .assertion
  | some a =>
    match find_bucket_loop fuel s a ptr (BUCKET_COUNT - 1) 1 with
    | .error e => .error e
    | .ok bb => .ok { s with __bucket := some (a, bb) }

/-! ## Slicing -/

/-- The function `block_slice`. -/
def block_slice (s : State) : Except Fault (Nat × State) :=
  match s.__bucket, s.__arena with
  | none, _ => .error .assertion
  | _, none => .error .assertion
  | some ab, some _ =>
    let b := s.bucketAt ab
    if b.block_head = 0 then .error .assertion else
    let ptr := b.block_head
    let old_block := b.block_head
    let old_block_size : Int := toInt32 (load64 s.mem old_block)
    let chunk_size : Int := toInt32 b.chunk_size
    let new_size : Int := toInt32 (old_block_size - chunk_size)
    if new_size < chunk_size then
      .ok (ptr, s.setBucket ab { b with block_head := load64 s.mem (old_block + 8) })
    else if new_size = chunk_size then
      .ok (ptr, s.setBucket ab
        { b with block_head := load64 s.mem (old_block + 8), chunk_head := ptrAdd old_block chunk_size })
    else
      let nb := ptrAdd old_block chunk_size
      .ok (ptr, { s.setBucket ab { b with block_head := nb } with mem := store64 s.mem nb (toSizeT new_size) })

/-! ## Big allocation -/

/-- The `while` loop of `pop_big_block`: the last block visited and the block
the loop stopped at (`0` when the list ran out). -/
def big_block_walk (m : Mem) (size : Nat) : Nat → Nat → Nat → Except Fault (Nat × Nat)
  | 0, _, _ => .error .out_of_fuel
  | fuel + 1, prev, curr =>
    if curr ≠ 0 ∧ size > load64 m curr then big_block_walk m size fuel curr (load64 m (curr + 8))
    else .ok (prev, curr)

/-- The function `pop_big_block`; the pointer `0` is the result `NULL`. -/
def pop_big_block (fuel : Nat) (s : State) (size : Nat) : Except Fault (Nat × State) :=
  if size < BLOCK_SIZE then .error .assertion else
  match s.__bucket, s.__arena with
  | none, _ => .error .assertion
  | _, none => .error .assertion
  | some ab, some _ =>
    let b := s.bucketAt ab
    let head := b.block_head
    if head = 0 then .ok (0, s)
    else if size ≤ load64 s.mem head then
      .ok (head + OVERHEAD_SIZE, s.setBucket ab { b with block_head := load64 s.mem (head + 8) })
    else
      match big_block_walk s.mem size fuel 0 head with
      | .error e => .error e
      | .ok (prev, curr) =>
        if prev = 0 then .error .assertion
        else if curr ≠ 0 then
          .ok (curr + OVERHEAD_SIZE, { s with mem := store64 s.mem (prev + 8) (load64 s.mem (curr + 8)) })
        else .ok (0, s)

/-- The function `allocate_big_block`. -/
def allocate_big_block (s : State) (size : Nat) : Except Fault (Nat × State) :=
  if size < BLOCK_SIZE then .error .assertion else
  let page_count : Int := toInt32 (div_up size PAGE_SIZE)
  let alloc_size : Nat := toSizeT (page_count * PAGE_SIZE)
  if alloc_size = 0 then .error .assertion else
  let (ptr, s1) := mmap s alloc_size
  .ok (ptr + OVERHEAD_SIZE, { s1 with mem := store64 s1.mem ptr size })

/-! ## Standard allocation -/

/-- The function `pop_chunk`; the pointer `0` is the result `NULL`. -/
def pop_chunk (s : State) : Except Fault (Nat × State) :=
  match s.__bucket, s.__arena with
  | none, _ => .error .assertion
  | _, none => .error .assertion
  | some ab, some _ =>
    let b := s.bucketAt ab
    if b.chunk_head ≠ 0 then
      .ok (b.chunk_head, s.setBucket ab { b with chunk_head := load64 s.mem b.chunk_head })
    else if b.block_head ≠ 0 then block_slice s
    else .ok (0, s)

/-- The function `allocate_page`. -/
def allocate_page (s : State) : Except Fault (Nat × State) :=
  match s.__bucket, s.__arena with
  | none, _ => .error .assertion
  | _, none => .error .assertion
  | some ab, some _ =>
    if (s.bucketAt ab).block_head ≠ 0 then .error .assertion else
    let (ptr, s1) := mmap s MEM_PAGE_SIZE
    let s2 : State :=
      if (s1.bucketAt ab).page_head = 0 then s1.setBucket ab { s1.bucketAt ab with page_head := ptr }
      else { s1 with mem := store64 s1.mem (s1.bucketAt ab).page_head ptr }
    let block_ptr := ptr + SIZEOF_PAGE
    let s3 : State := { s2 with mem := store64 s2.mem block_ptr (MEM_PAGE_SIZE - SIZEOF_PAGE) }
    let s4 : State := { s3 with mem := store64 s3.mem (block_ptr + 8) 0 }
    let s5 : State :=
      if (s4.bucketAt ab).block_head = 0 then s4.setBucket ab { s4.bucketAt ab with block_head := block_ptr }
      else
        let s4a : State := { s4 with mem := store64 s4.mem (block_ptr + 8) (load64 s4.mem (block_ptr + 8)) }
        s4a.setBucket ab { s4a.bucketAt ab with block_head := block_ptr }
    block_slice s5

/-! ## The public operations -/

/-- The function `get_chunk`. -/
def get_chunk (fuel : Nat) (s : State) (size : Nat) : Except Fault (Nat × State) :=
  match s.__arena, s.__bucket with
  | none, _ => .error .assertion
  | _, none => .error .assertion
  | some _, some ab =>
    if size < CHUNK_SIZE then .error .assertion else
    if (s.bucketAt ab).chunk_size = 0 then
      match pop_big_block fuel s size with
      | .error e => .error e
      | .ok (ptr, s1) => if ptr = 0 then allocate_big_block s1 size else .ok (ptr, s1)
    else
      match pop_chunk s with
      | .error e => .error e
      | .ok (ptr, s1) => if ptr = 0 then allocate_page s1 else .ok (ptr, s1)

/-- The function `limalloc`. -/
def limalloc (fuel : Nat) (s : State) (size : Nat) : Except Fault (Nat × State) :=
  if size = 0 then .error .assertion else
  let s1 := if s.FISRT_RUN then init_malloc s else s
  let s2 := if s1.__arena = none then __assign_arena s1 else s1
  if s2.__arena = none then .error .assertion else
  let size1 := if size < CHUNK_SIZE then CHUNK_SIZE else size
  match __choose_bucket s2 size1 with
  | .error e => .error e
  | .ok s3 =>
    if s3.__bucket = none then .error .assertion else
    get_chunk fuel s3 size1

/-- The function `free_chunk`. -/
def free_chunk (s : State) (ptr : Nat) : Except Fault State :=
  if ptr = 0 then .error .assertion else
  match s.__arena, s.__bucket with
  | none, _ => .error .assertion
  | _, none => .error .assertion
  | some _, some ab =>
    let b := s.bucketAt ab
    if b.chunk_size = 0 then
      let block_ptr := ptr - OVERHEAD_SIZE
      let s1 : State := { s with mem := store64 s.mem (block_ptr + 8) b.block_head }
      .ok (s1.setBucket ab { b with block_head := block_ptr })
    else
      let s1 : State := { s with mem := store64 s.mem ptr b.chunk_head }
      .ok (s1.setBucket ab { b with chunk_head := ptr })

/-- The function `lifree`. -/
def lifree (fuel : Nat) (s : State) (ptr : Nat) : Except Fault State :=
  if ptr = 0 then .error .assertion else
  if s.__arena = none then .error .assertion else
  if s.__bucket = none then .error .assertion else
  match __find_bucket fuel s ptr with
  | .error e => .error e
  | .ok s1 => free_chunk s1 ptr

/-- The function `lirealloc`. -/
def lirealloc (fuel : Nat) (s : State) (prev_ptr new_size : Nat) : Except Fault (Nat × State) :=
  if prev_ptr = 0 then .error .assertion else
  if new_size = 0 then .error .assertion else
  match __find_bucket fuel s prev_ptr with
  | .error e => .error e
  | .ok s1 =>
    match s1.__bucket with
    | none => .error .assertion
    | some ab =>
      let prev_size :=
        if (s1.bucketAt ab).chunk_size = 0 then load64 s1.mem (prev_ptr - OVERHEAD_SIZE)
        else (s1.bucketAt ab).chunk_size
      if prev_size ≥ new_size then .ok (prev_ptr, s1) else
      let new_size1 := if new_size < PAGE_SIZE then PAGE_SIZE else new_size
      match limalloc fuel s1 new_size1 with
      | .error e => .error e
      | .ok (new_ptr, s2) =>
        let s3 : State := { s2 with mem := memcpy s2.mem prev_ptr new_ptr prev_size }
        match lifree fuel s3 prev_ptr with
        | .error e => .error e
        | .ok s4 => .ok (new_ptr, s4)

/-! ## The caller and the observations used in the scenarios -/

/-- The caller storing the bytes `bs` from address `p` on, one after another,
inside an allocation it holds. -/
def user_write (m : Mem) (p : Nat) : List Nat → Mem
  | [] => m
  | b :: bs => user_write (store8 m p b) (p + 1) bs

/-- The bytes read back by the caller from `n` consecutive addresses from `p`. -/
def user_read (m : Mem) (p : Nat) : Nat → List Nat
  | 0 => []
  | n + 1 => load8 m p :: user_read m (p + 1) n

/-- The caller making `k` consecutive calls `limalloc(size)`: the pointers
returned, in order, and the final state. -/
def limalloc_repeat (fuel size : Nat) : Nat → State → Except Fault (List Nat × State)
  | 0, s => .ok ([], s)
  | k + 1, s =>
    match limalloc fuel s size with
    | .error e => .error e
    | .ok (p, s1) =>
      match limalloc_repeat fuel size k s1 with
      | .error e => .error e
      | .ok (ps, s2) => .ok (p :: ps, s2)

/-- The slab pages reachable from `head` by following `next`, at most `fuel` of them. -/
def page_list (m : Mem) : Nat → Nat → List Nat
  | 0, _ => []
  | fuel + 1, head => if head = 0 then [] else head :: page_list m fuel (load64 m head)

/-- The address at which the page source of the scenarios starts: 16 MiB. -/
def base0 : Nat := 16777216

/-- The page list starting at `head` in the heap is exactly `l`: each page is
non-null and links to the next, and the last one links to `NULL`. -/
def PageList (m : Mem) : Nat → List Nat → Prop
  | head, [] => head = 0
  | head, b :: l => head = b ∧ b ≠ 0 ∧ PageList m (load64 m b) l

/-- Whether the page list starting at `head` is `l` can be computed. -/
instance PageList.decidable (m : Mem) : ∀ (head : Nat) (l : List Nat), Decidable (PageList m head l)
  | head, [] => inferInstanceAs (Decidable (head = 0))
  | head, b :: l =>
    have : Decidable (PageList m (load64 m b) l) := PageList.decidable m (load64 m b) l
    inferInstanceAs (Decidable (head = b ∧ b ≠ 0 ∧ PageList m (load64 m b) l))

/-- The state in which the caller holds one pointer, returned by `limalloc(40)`
on the fresh state. -/
def state_after_limalloc_40 : State :=
  match limalloc 0 (fresh base0) 40 with
  | .ok (_, s) => s
  | .error _ => fresh base0

/-! ## Invariants of a bucket that is carving a slab -/

/-- Bucket `i` of arena `a` is carving a slab: the thread is bound to `a`, a
request of `n` bytes selects bucket `i`, whose chunk size is `c`; the chunk list
is empty and the block list starts with a block at `X` of recorded size `sz`
whose bytes after the size word are still zero. -/
def Carving (s : State) (a i c n X sz : Nat) : Prop :=
  s.FISRT_RUN = false ∧ s.__arena = some a ∧ n ≠ 0 ∧
  choose_bucket_loop s a (if n < CHUNK_SIZE then CHUNK_SIZE else n) 10 1 = i ∧
  (s.bucketAt (a, i)).chunk_size = c ∧ 16 ≤ c ∧ c ≤ 8192 ∧
  (s.bucketAt (a, i)).chunk_head = 0 ∧ (s.bucketAt (a, i)).block_head = X ∧ X ≠ 0 ∧
  load64 s.mem X = sz ∧ sz < 2147483648 ∧ (∀ x, X + 8 ≤ x → x < X + sz → s.mem x = 0)

/-- Bucket `i` of arena `a` has nothing to hand out: as `Carving`, with the
chunk list and the block list both empty, and a page list whose head, when
there is one, lies below the next mapping of the page source. -/
def Exhausted (s : State) (a i c n : Nat) : Prop :=
  s.FISRT_RUN = false ∧ s.__arena = some a ∧ n ≠ 0 ∧
  choose_bucket_loop s a (if n < CHUNK_SIZE then CHUNK_SIZE else n) 10 1 = i ∧
  (s.bucketAt (a, i)).chunk_size = c ∧ 16 ≤ c ∧ c ≤ 8192 ∧
  (s.bucketAt (a, i)).chunk_head = 0 ∧ (s.bucketAt (a, i)).block_head = 0 ∧
  ((s.bucketAt (a, i)).page_head = 0 ∨ (s.bucketAt (a, i)).page_head + 8 ≤ s.mmap_next)

/-! ## Frames and hand-built states used in the statements -/

/-- The thread binding and the mutexes are the same in `s` and `t`: the
first-run flag, the thread's arena pointer and every arena's lock flag. -/
def SameBinding (s t : State) : Prop :=
  t.FISRT_RUN = s.FISRT_RUN ∧ t.__arena = s.__arena ∧ ∀ x, (t.arenas x).lock = (s.arenas x).lock

/-- A state built by hand: past the first run, the thread bound to arena 0 with
bucket `i` of arena 0 current, that bucket equal to `b`, the other buckets as
`init_malloc` leaves them, and the heap `m`. -/
def bucket_state (i : Nat) (b : bucket) (m : Mem) : State :=
  { FISRT_RUN := false
    __arena := some 0
    __bucket := some (0, i)
    arenas := fun _ =>
      { lock := true
        buckets := fun j => if j = i then b else ⟨0, 0, 0, 8 <<< j⟩ }
    mem := m
    mmap_next := base0
    mmap_log := [] }

/-! ## The block list of a large bucket -/

/-- The block list starting at `head` in the heap is exactly `l`: each block is
non-null and its `next` field (at offset 8) is the next one, the last being `NULL`. -/
def BlockList (m : Mem) : Nat → List Nat → Prop
  | head, [] => head = 0
  | head, b :: l => head = b ∧ b ≠ 0 ∧ BlockList m (load64 m (b + 8)) l

/-- Whether the block list starting at `head` is `l` can be computed. -/
instance BlockList.decidable (m : Mem) : ∀ (head : Nat) (l : List Nat), Decidable (BlockList m head l)
  | head, [] => inferInstanceAs (Decidable (head = 0))
  | head, b :: l =>
    have : Decidable (BlockList m (load64 m (b + 8)) l) := BlockList.decidable m (load64 m (b + 8)) l
    inferInstanceAs (Decidable (head = b ∧ b ≠ 0 ∧ BlockList m (load64 m (b + 8)) l))

/-- The 16-byte headers of the blocks of `l` are pairwise disjoint (so the
blocks are distinct and the list has no cycle). -/
def HeadersApart (l : List Nat) : Prop :=
  l.Pairwise (fun x y => x + 16 ≤ y ∨ y + 16 ≤ x)

/-- A bucket with `chunk_size = 0` caching two mappings: a block at 4096 of
recorded size 10000 followed by a block at 8192 of recorded size 30000. -/
def two_cached_blocks : State :=
  bucket_state 0 ⟨0, 4096, 0, 0⟩
    (store64 (store64 (store64 (store64 (fun _ => 0) 4096 10000) 4104 8192) 8192 30000) 8200 0)

end Limalloc

/-! # The first allocator: `hmalloc.c` -/

namespace Hmalloc

open Limalloc (Mem load64 store64 memcpy Fault toSizeT toInt32 BlockList base0)

/-! ## The first allocator, `hmalloc.c`: constants and state -/

/-- The constant `PAGE_SIZE` of `hmalloc.c`. -/
def PAGE_SIZE : Nat := 4096

/-- The constant `BIG_ALLOC_SIZE`. -/
def BIG_ALLOC_SIZE : Nat := 4096

/-- The constant `OVERHEAD_SIZE = sizeof(size_t)`. -/
def OVERHEAD_SIZE : Nat := 8

/-- The constant `CHUNK_SIZE = sizeof(chunk)` of `hmalloc.h`: a `size_t` and a pointer. -/
def CHUNK_SIZE : Nat := 16

/-- The state seen by one thread: the global `head` of the chunk list, the heap,
and the page source (next base, mappings requested, ranges unmapped).  The
global mutex is taken and released inside each call and is left out. -/
structure State where
  head : Nat
  mem : Mem
  mmap_next : Nat
  mmap_log : List (Nat × Nat)
  munmap_log : List (Nat × Nat)

/-- The state before the first call: `head = NULL`, an all-zero heap, and a page
source that starts handing out mappings at `base`. -/
def fresh (base : Nat) : State :=
  { head := 0, mem := fun _ => 0, mmap_next := base, mmap_log := [], munmap_log := [] }

/-- The page source: an anonymous private mapping of `len` bytes, zero-filled
and disjoint from every earlier one. -/
def mmap (s : State) (len : Nat) : Nat × State :=
  (s.mmap_next,
   { s with
      mem := fun x => if s.mmap_next ≤ x ∧ x < s.mmap_next + len then 0 else s.mem x
      mmap_next := s.mmap_next + len
      mmap_log := s.mmap_log ++ [(s.mmap_next, len)] })

/-- The system call `munmap(addr, len)`: the range is recorded as given back. -/
def munmap (s : State) (addr len : Nat) : State :=
  { s with munmap_log := s.munmap_log ++ [(addr, len)] }

/-! ## The functions of `hmalloc.c` -/

/-- The function `div_up` on `size_t`. -/
def div_up (aa bb : Nat) : Nat :=
  toSizeT ((toSizeT ((aa : Int) - 1) / bb : Nat) + 1)

/-- The `while` loop of `chunk_list_coalesce`, on the heap, from `curr` and
`next`: the heap when the loop ends. -/
def coalesce_loop : Nat → Mem → Nat → Nat → Except Fault Mem
  | 0, _, _, _ => .error .out_of_fuel
  | fuel + 1, m, curr, next =>
    if curr ≠ 0 ∧ next ≠ 0 then
      let curr_end := curr + load64 m curr
      if curr_end = next then
        let m1 := store64 m curr (toSizeT ((load64 m curr : Int) + (load64 m next : Int)))
        let m2 := store64 m1 (curr + 8) (load64 m1 (next + 8))
        coalesce_loop fuel m2 curr (load64 m2 (curr + 8))
      else coalesce_loop fuel m next (load64 m (next + 8))
    else .ok m

/-- The function `chunk_list_coalesce`. -/
def chunk_list_coalesce (fuel : Nat) (s : State) : Except Fault State :=
  if s.head = 0 ∨ load64 s.mem (s.head + 8) = 0 then .ok s else
  match coalesce_loop fuel s.mem s.head (load64 s.mem (s.head + 8)) with
  | .error e => .error e
  | .ok m => .ok { s with mem := m }

/-- The `while` loop of `push_chunk`: the last chunk passed and the chunk the
loop stopped at (`0` when the list ran out). -/
def push_walk (m : Mem) (ptr : Nat) : Nat → Nat → Nat → Except Fault (Nat × Nat)
  | 0, _, _ => .error .out_of_fuel
  | fuel + 1, prev, curr =>
    if curr ≠ 0 ∧ ptr > curr then push_walk m ptr fuel curr (load64 m (curr + 8))
    else .ok (prev, curr)

/-- The function `push_chunk`. -/
def push_chunk (fuel : Nat) (s : State) (ptr : Nat) : Except Fault State :=
  if ptr = 0 then .error .assertion else
  if s.head = 0 ∨ ptr < s.head then
    .ok { s with mem := store64 s.mem (ptr + 8) s.head, head := ptr }
  else
    match push_walk s.mem ptr fuel 0 s.head with
    | .error e => .error e
    | .ok (prev, curr) =>
      if prev ≠ 0 then .ok { s with mem := store64 (store64 s.mem (prev + 8) ptr) (ptr + 8) curr }
      else .ok s

/-- The `while` loop of `pop_chunk`: the last chunk passed and the chunk the loop
stopped at (`0` when the list ran out). -/
def pop_walk (m : Mem) (size : Nat) : Nat → Nat → Nat → Except Fault (Nat × Nat)
  | 0, _, _ => .error .out_of_fuel
  | fuel + 1, prev, curr =>
    if curr ≠ 0 ∧ size > load64 m curr then pop_walk m size fuel curr (load64 m (curr + 8))
    else .ok (prev, curr)

/-- The function `pop_chunk`; the pointer `0` is the result `NULL`. -/
def pop_chunk (fuel : Nat) (s : State) (size : Nat) : Except Fault (Nat × State) :=
  if size < CHUNK_SIZE then .error .assertion else
  if s.head = 0 then .ok (0, s) else
  if size ≤ load64 s.mem s.head then .ok (s.head, { s with head := load64 s.mem (s.head + 8) }) else
  match pop_walk s.mem size fuel 0 s.head with
  | .error e => .error e
  | .ok (prev, curr) =>
    if prev = 0 then .error .assertion
    else if curr ≠ 0 then
      .ok (curr, { s with mem := store64 s.mem (prev + 8) (load64 s.mem (curr + 8)) })
    else .ok (0, s)

/-- The function `split_chunk`. -/
def split_chunk (fuel : Nat) (s : State) (ptr size : Nat) : Except Fault State :=
  if size = 0 then .error .assertion else
  if ptr = 0 then .error .assertion else
  let full_size := load64 s.mem ptr
  if full_size = 0 then .error .assertion else
  let leftover_size := toSizeT ((full_size : Int) - (size : Int))
  if leftover_size ≥ CHUNK_SIZE then
    let leftover_ptr := ptr + size
    let s1 : State := { s with mem := store64 s.mem leftover_ptr leftover_size }
    match push_chunk fuel s1 leftover_ptr with
    | .error e => .error e
    | .ok s2 => .ok { s2 with mem := store64 s2.mem ptr size }
  else
    .ok { s with mem := store64 s.mem ptr (toSizeT ((size : Int) + (leftover_size : Int))) }

/-- The function `allocate_chunk`; `page_count` is an `int`. -/
def allocate_chunk (s : State) (page_count : Int) : Except Fault (Nat × State) :=
  if page_count ≤ 0 then .error .assertion else
  let size := toSizeT (page_count * (PAGE_SIZE : Int))
  let (ptr, s1) := mmap s size
  .ok (ptr, { s1 with mem := store64 s1.mem ptr size })

/-- The function `hmalloc`. -/
def hmalloc (fuel : Nat) (s : State) (size : Nat) : Except Fault (Nat × State) :=
  if size = 0 then .error .assertion else
  let size1 := toSizeT ((size : Int) + (OVERHEAD_SIZE : Int))
  let size2 := if size1 < CHUNK_SIZE then CHUNK_SIZE else size1
  if size2 < BIG_ALLOC_SIZE then
    match pop_chunk fuel s size2 with
    | .error e => .error e
    | .ok (ptr, s1) =>
      match (if ptr = 0 then allocate_chunk s1 1 else .ok (ptr, s1)) with
      | .error e => .error e
      | .ok (ptr1, s2) =>
        if ptr1 = 0 then .error .assertion else
        match split_chunk fuel s2 ptr1 size2 with
        | .error e => .error e
        | .ok s3 => .ok (ptr1 + OVERHEAD_SIZE, s3)
  else
    match allocate_chunk s (toInt32 (div_up size2 PAGE_SIZE : Nat)) with
    | .error e => .error e
    | .ok (ptr, s1) => if ptr = 0 then .error .assertion else .ok (ptr + OVERHEAD_SIZE, s1)

/-- The function `hfree`. -/
def hfree (fuel : Nat) (s : State) (user_ptr : Nat) : Except Fault State :=
  if user_ptr = 0 then .error .assertion else
  let ptr := toSizeT ((user_ptr : Int) - (OVERHEAD_SIZE : Int))
  if ptr = 0 then .error .assertion else
  if load64 s.mem ptr ≥ PAGE_SIZE then .ok (munmap s ptr (load64 s.mem ptr))
  else
    match push_chunk fuel s ptr with
    | .error e => .error e
    | .ok s1 => chunk_list_coalesce fuel s1

/-- The function `hrealloc`. -/
def hrealloc (fuel : Nat) (s : State) (user_ptr new_size : Nat) : Except Fault (Nat × State) :=
  if new_size = 0 then .error .assertion else
  let ptr := toSizeT ((user_ptr : Int) - (OVERHEAD_SIZE : Int))
  if ptr = 0 then hmalloc fuel s new_size else
  if new_size ≤ load64 s.mem ptr then .ok (ptr, s) else
  match hmalloc fuel s new_size with
  | .error e => .error e
  | .ok (new_user_ptr, s1) =>
    if new_user_ptr = 0 then .error .assertion else
    let user_size : Int := toInt32 ((load64 s1.mem ptr : Int) - (OVERHEAD_SIZE : Int))
    let s2 : State := { s1 with mem := memcpy s1.mem user_ptr new_user_ptr (toSizeT user_size) }
    match hfree fuel s2 user_ptr with
    | .error e => .error e
    | .ok s3 => .ok (new_user_ptr, s3)

/-! ## Well-formed free lists -/

/-- The chunk list starting at `head` in the heap is exactly `l`: each chunk is
non-null and its `next` field (at offset 8) is the next one, the last being `NULL`. -/
abbrev ChunkList (m : Mem) (head : Nat) (l : List Nat) : Prop := BlockList m head l

/-- A free list in address order: the chunk list at `head` is `l`, every chunk
has a size of at least `sizeof(chunk)` and ends within the address space, and
each chunk ends at or before every chunk after it in the list (so the list is
strictly ascending by address and its chunks do not overlap). -/
def FreeList (m : Mem) (head : Nat) (l : List Nat) : Prop :=
  ChunkList m head l ∧
  (∀ x ∈ l, CHUNK_SIZE ≤ load64 m x ∧ x + load64 m x ≤ 18446744073709551616) ∧
  l.Pairwise (fun x y => x + load64 m x ≤ y)

/-- Whether a list is the free list in address order can be computed. -/
instance FreeList.decidable (m : Mem) (head : Nat) (l : List Nat) : Decidable (FreeList m head l) := by
  unfold FreeList ChunkList
  exact inferInstance

/-- The byte `a` lies in one of the chunks of `l`. -/
def Covers (m : Mem) (l : List Nat) (a : Nat) : Prop :=
  ∃ x ∈ l, x ≤ a ∧ a < x + load64 m x

/-- A free list of two chunks, 32 bytes at 4096 and 64 bytes at 4160, with a chunk
of 32 bytes in use at 4128 between them. -/
def two_free_chunks : State :=
  { head := 4096
    mem := store64 (store64 (store64 (store64 (store64 (fun _ => 0) 4096 32) 4104 4160) 4160 64)
      4168 0) 4128 32
    mmap_next := base0
    mmap_log := []
    munmap_log := [] }

/-- The free list `two_free_chunks` after the chunk at 4128 was pushed: three
chunks in a row, at 4096, 4128 and 4160. -/
def three_free_chunks : State :=
  { two_free_chunks with mem := store64 (store64 two_free_chunks.mem 4104 4128) 4136 4160 }

end Hmalloc

namespace Limalloc

/-! ## Theorems: initialisation and size-class selection -/

theorem arena_eq {a : arena} {l : Bool} {f : Nat → bucket} (h1 : a.lock = l) (h2 : a.buckets = f) :
    a = { lock := l, buckets := f } := by
  cases a
  simp_all

theorem init_buckets_arenas_other (aa : Nat) : ∀ (n bb : Nat) (s : State) (x : Nat), x ≠ aa →
    (init_buckets aa n bb s).arenas x = s.arenas x := by
  intro n
  induction n with
  | zero => intro bb s x _; rfl
  | succ n ih =>
    intro bb s x hx
    rw [init_buckets, ih _ _ _ hx]
    simp [State.setBucket, hx]

theorem init_buckets_lock (aa : Nat) : ∀ (n bb : Nat) (s : State),
    ((init_buckets aa n bb s).arenas aa).lock = (s.arenas aa).lock := by
  intro n
  induction n with
  | zero => intro bb s; rfl
  | succ n ih =>
    intro bb s
    rw [init_buckets, ih]
    simp [State.setBucket]

theorem init_buckets_bucket (aa : Nat) : ∀ (n bb : Nat) (s : State) (b : Nat),
    ((init_buckets aa n bb s).arenas aa).buckets b =
      if bb ≤ b ∧ b < bb + n then ⟨0, 0, 0, toSizeT (8 <<< b : Nat)⟩ else (s.arenas aa).buckets b := by
  intro n
  induction n with
  | zero =>
    intro bb s b
    have h : ¬ (bb ≤ b ∧ b < bb) := by omega
    simp [init_buckets, h]
  | succ n ih =>
    intro bb s b
    rw [init_buckets, ih]
    by_cases h1 : bb + 1 ≤ b ∧ b < bb + 1 + n
    · have h2 : bb ≤ b ∧ b < bb + (n + 1) := by omega
      simp [h1, h2]
    · by_cases h3 : b = bb
      · subst h3
        simp [State.setBucket]
      · have h2 : ¬ (bb ≤ b ∧ b < bb + (n + 1)) := by omega
        simp [h1, h2, State.setBucket, h3]

theorem init_arenas_arena : ∀ (n aa : Nat) (s : State) (x : Nat),
    (init_arenas n aa s).arenas x =
      if aa ≤ x ∧ x < aa + n then
        { lock := false
          buckets := fun b => if b < BUCKET_COUNT then ⟨0, 0, 0, toSizeT (8 <<< b : Nat)⟩
                              else (s.arenas x).buckets b }
      else s.arenas x := by
  intro n
  induction n with
  | zero =>
    intro aa s x
    have h : ¬ (aa ≤ x ∧ x < aa) := by omega
    simp [init_arenas, h]
  | succ n ih =>
    intro aa s x
    rw [init_arenas, ih]
    by_cases h1 : aa + 1 ≤ x ∧ x < aa + 1 + n
    · have h2 : aa ≤ x ∧ x < aa + (n + 1) := by omega
      have h3 : x ≠ aa := by omega
      simp [h1, h2, init_buckets_arenas_other _ _ _ _ _ h3, h3]
    · by_cases h3 : x = aa
      · subst h3
        have h2 : x ≤ x ∧ x < x + (n + 1) := by omega
        simp only [h1, h2, if_false, if_true, and_self]
        apply arena_eq
        · rw [init_buckets_lock]
          simp
        · funext b
          rw [init_buckets_bucket]
          by_cases hb : b < BUCKET_COUNT
          · have hb2 : 0 ≤ b ∧ b < 0 + BUCKET_COUNT := by omega
            simp [hb, hb2]
          · have hb2 : ¬ (0 ≤ b ∧ b < 0 + BUCKET_COUNT) := by omega
            simp [hb, hb2]
      · have h2 : ¬ (aa ≤ x ∧ x < aa + (n + 1)) := by omega
        simp [h1, h2, init_buckets_arenas_other _ _ _ _ _ h3, h3]

theorem init_buckets_frame (aa : Nat) : ∀ (n bb : Nat) (s : State),
    (init_buckets aa n bb s).__arena = s.__arena ∧ (init_buckets aa n bb s).__bucket = s.__bucket ∧
    (init_buckets aa n bb s).mem = s.mem ∧ (init_buckets aa n bb s).mmap_next = s.mmap_next ∧
    (init_buckets aa n bb s).mmap_log = s.mmap_log := by
  intro n
  induction n with
  | zero => intro bb s; simp [init_buckets]
  | succ n ih =>
    intro bb s
    rw [init_buckets]
    obtain ⟨h1, h2, h3, h4, h5⟩ := ih (bb + 1) (s.setBucket (aa, bb) ⟨0, 0, 0, toSizeT (8 <<< bb : Nat)⟩)
    exact ⟨h1.trans rfl, h2.trans rfl, h3.trans rfl, h4.trans rfl, h5.trans rfl⟩

theorem init_arenas_frame : ∀ (n aa : Nat) (s : State),
    (init_arenas n aa s).__arena = s.__arena ∧ (init_arenas n aa s).__bucket = s.__bucket ∧
    (init_arenas n aa s).mem = s.mem ∧ (init_arenas n aa s).mmap_next = s.mmap_next ∧
    (init_arenas n aa s).mmap_log = s.mmap_log := by
  intro n
  induction n with
  | zero => intro aa s; simp [init_arenas]
  | succ n ih =>
    intro aa s
    rw [init_arenas]
    obtain ⟨h1, h2, h3, h4, h5⟩ := ih (aa + 1) (init_buckets aa BUCKET_COUNT 0
      { s with arenas := fun x => if x = aa then { s.arenas x with lock := false } else s.arenas x })
    obtain ⟨g1, g2, g3, g4, g5⟩ := init_buckets_frame aa BUCKET_COUNT 0
      { s with arenas := fun x => if x = aa then { s.arenas x with lock := false } else s.arenas x }
    exact ⟨(h1.trans g1).trans rfl, (h2.trans g2).trans rfl, (h3.trans g3).trans rfl,
      (h4.trans g4).trans rfl, (h5.trans g5).trans rfl⟩

theorem shl_small (b : Nat) (hb : b < BUCKET_COUNT) : toSizeT (8 <<< b : Nat) = 8 <<< b := by
  unfold BUCKET_COUNT at hb
  interval_cases b <;> decide

theorem init_malloc_bucketAt (s : State) (a b : Nat) (ha : a < ARENA_COUNT) (hb : b < BUCKET_COUNT) :
    (init_malloc s).bucketAt (a, b) = ⟨0, 0, 0, 8 <<< b⟩ := by
  have h : 0 ≤ a ∧ a < 0 + ARENA_COUNT := by omega
  simp [init_malloc, State.bucketAt, init_arenas_arena, h, ha, hb, shl_small b hb]

theorem init_malloc_lock (s : State) (a : Nat) (ha : a < ARENA_COUNT) :
    ((init_malloc s).arenas a).lock = false := by
  have h : 0 ≤ a ∧ a < 0 + ARENA_COUNT := by omega
  simp [init_malloc, init_arenas_arena, h, ha]

theorem init_malloc_frame (s : State) :
    (init_malloc s).FISRT_RUN = false ∧
    (init_malloc s).__arena = s.__arena ∧ (init_malloc s).__bucket = s.__bucket ∧
    (init_malloc s).mem = s.mem ∧ (init_malloc s).mmap_next = s.mmap_next ∧
    (init_malloc s).mmap_log = s.mmap_log := by
  obtain ⟨h1, h2, h3, h4, h5⟩ := init_arenas_frame ARENA_COUNT 0 s
  simp [init_malloc, h1, h2, h3, h4, h5]

attribute [irreducible] init_malloc

/-- C4: what `init_malloc` leaves in every bucket of every arena: the three
list heads are null and `chunk_size` is `8 << bb`, for bucket 0 as well, whose
`chunk_size` is therefore 8 and not the large-class marker 0. -/
theorem init_malloc_postcondition (s : State) (a : Fin ARENA_COUNT) (b : Fin BUCKET_COUNT) :
    (init_malloc s).bucketAt (a.val, b.val) =
        { chunk_head := 0, block_head := 0, page_head := 0, chunk_size := 8 <<< b.val } ∧
      ((init_malloc s).bucketAt (a.val, 0)).chunk_size = 8 ∧
      ((init_malloc s).bucketAt (a.val, 0)).chunk_size ≠ 0 := by
  refine ⟨init_malloc_bucketAt s a.val b.val a.isLt b.isLt, ?_, ?_⟩
  · rw [init_malloc_bucketAt s a.val 0 a.isLt (by decide)]
    rfl
  · rw [init_malloc_bucketAt s a.val 0 a.isLt (by decide)]
    decide

theorem choose_bucket_loop_init (t : State) (a size : Nat)
    (h : ∀ b, b < BUCKET_COUNT → (t.bucketAt (a, b)).chunk_size = 8 <<< b) :
    choose_bucket_loop t a size 10 1 =
      if size ≤ 16 then 1 else if size ≤ 32 then 2 else if size ≤ 64 then 3
      else if size ≤ 128 then 4 else if size ≤ 256 then 5 else if size ≤ 512 then 6
      else if size ≤ 1024 then 7 else if size ≤ 2048 then 8 else if size ≤ 4096 then 9
      else if size ≤ 8192 then 10 else 0 := by
  simp only [choose_bucket_loop]
  rw [h 1 (by decide), h 2 (by decide), h 3 (by decide), h 4 (by decide), h 5 (by decide),
    h 6 (by decide), h 7 (by decide), h 8 (by decide), h 9 (by decide), h 10 (by decide)]
  rfl

theorem shl_mono (j k : Nat) (h : j ≤ k) : 8 <<< j ≤ 8 <<< k := by
  simp only [Nat.shiftLeft_eq]
  exact Nat.mul_le_mul_left 8 (Nat.pow_le_pow_right (by decide) h)

theorem ff_case (n1 i lo hi : Nat) (hlo : lo < n1) (hhi : n1 ≤ hi) (h1 : 1 ≤ i) (h10 : i ≤ 10)
    (e1 : 8 <<< i = hi) (e2 : 8 <<< (i - 1) = lo) (hh : hi ≤ 8192) :
    i ≤ 10 ∧ (i = 0 ↔ 8192 < n1) ∧ (1 ≤ i → n1 ≤ 8 <<< i ∧ ∀ j, 1 ≤ j → j < i → 8 <<< j < n1) := by
  refine ⟨h10, by omega, fun _ => ⟨by omega, fun j _ h2 => ?_⟩⟩
  have h9 := shl_mono j _ (Nat.le_sub_one_of_lt h2)
  omega

theorem first_fit_index (n1 i : Nat)
    (hi : i = if n1 ≤ 16 then 1 else if n1 ≤ 32 then 2 else if n1 ≤ 64 then 3
      else if n1 ≤ 128 then 4 else if n1 ≤ 256 then 5 else if n1 ≤ 512 then 6
      else if n1 ≤ 1024 then 7 else if n1 ≤ 2048 then 8 else if n1 ≤ 4096 then 9
      else if n1 ≤ 8192 then 10 else 0) :
    i ≤ 10 ∧ (i = 0 ↔ 8192 < n1) ∧ (1 ≤ i → n1 ≤ 8 <<< i ∧ ∀ j, 1 ≤ j → j < i → 8 <<< j < n1) := by
  by_cases c1 : n1 ≤ 16
  · rw [if_pos c1] at hi
    subst hi
    exact ⟨by omega, by omega, fun _ => ⟨by simp only [Nat.reduceShiftLeft]; omega, fun j h1 h2 => by omega⟩⟩
  rw [if_neg c1] at hi
  by_cases c2 : n1 ≤ 32
  · rw [if_pos c2] at hi; subst hi
    exact ff_case n1 2 16 32 (by omega) c2 (by decide) (by decide) (by decide) (by decide) (by decide)
  rw [if_neg c2] at hi
  by_cases c3 : n1 ≤ 64
  · rw [if_pos c3] at hi; subst hi
    exact ff_case n1 3 32 64 (by omega) c3 (by decide) (by decide) (by decide) (by decide) (by decide)
  rw [if_neg c3] at hi
  by_cases c4 : n1 ≤ 128
  · rw [if_pos c4] at hi; subst hi
    exact ff_case n1 4 64 128 (by omega) c4 (by decide) (by decide) (by decide) (by decide) (by decide)
  rw [if_neg c4] at hi
  by_cases c5 : n1 ≤ 256
  · rw [if_pos c5] at hi; subst hi
    exact ff_case n1 5 128 256 (by omega) c5 (by decide) (by decide) (by decide) (by decide) (by decide)
  rw [if_neg c5] at hi
  by_cases c6 : n1 ≤ 512
  · rw [if_pos c6] at hi; subst hi
    exact ff_case n1 6 256 512 (by omega) c6 (by decide) (by decide) (by decide) (by decide) (by decide)
  rw [if_neg c6] at hi
  by_cases c7 : n1 ≤ 1024
  · rw [if_pos c7] at hi; subst hi
    exact ff_case n1 7 512 1024 (by omega) c7 (by decide) (by decide) (by decide) (by decide) (by decide)
  rw [if_neg c7] at hi
  by_cases c8 : n1 ≤ 2048
  · rw [if_pos c8] at hi; subst hi
    exact ff_case n1 8 1024 2048 (by omega) c8 (by decide) (by decide) (by decide) (by decide) (by decide)
  rw [if_neg c8] at hi
  by_cases c9 : n1 ≤ 4096
  · rw [if_pos c9] at hi; subst hi
    exact ff_case n1 9 2048 4096 (by omega) c9 (by decide) (by decide) (by decide) (by decide) (by decide)
  rw [if_neg c9] at hi
  by_cases c10 : n1 ≤ 8192
  · rw [if_pos c10] at hi; subst hi
    exact ff_case n1 10 4096 8192 (by omega) c10 (by decide) (by decide) (by decide) (by decide) (by decide)
  rw [if_neg c10] at hi
  subst hi
  exact ⟨by omega, by omega, fun h => by omega⟩

theorem choose_bucket_spec (t : State) (a n : Nat) (hn : 1 ≤ n) (harena : t.__arena = some a)
    (hcs : ∀ b, b < BUCKET_COUNT → (t.bucketAt (a, b)).chunk_size = 8 <<< b) :
    ∃ i, __choose_bucket t (if n < CHUNK_SIZE then CHUNK_SIZE else n) =
        .ok { t with __bucket := some (a, i) } ∧
      i ≤ 10 ∧
      (i = 0 ↔ 8192 < (if n < CHUNK_SIZE then CHUNK_SIZE else n)) ∧
      (1 ≤ i →
        (t.bucketAt (a, i)).chunk_size = 8 <<< i ∧
        (if n < CHUNK_SIZE then CHUNK_SIZE else n) ≤ 8 <<< i ∧
        n ≤ (t.bucketAt (a, i)).chunk_size ∧
        ∀ j, 1 ≤ j → j < i → 8 <<< j < (if n < CHUNK_SIZE then CHUNK_SIZE else n)) ∧
      (n = 16 → i = 1) ∧ (n = 17 → i = 2) ∧ (n = 8192 → i = 10) ∧ (n = 8193 → i = 0) := by
  have hloop := choose_bucket_loop_init t a (if n < CHUNK_SIZE then CHUNK_SIZE else n) hcs
  have h8 : 8 ≤ (if n < CHUNK_SIZE then CHUNK_SIZE else n) := by
    unfold CHUNK_SIZE
    split_ifs <;> omega
  have hle : n ≤ (if n < CHUNK_SIZE then CHUNK_SIZE else n) := by
    unfold CHUNK_SIZE
    split_ifs <;> omega
  obtain ⟨f1, f2, f3⟩ := first_fit_index (if n < CHUNK_SIZE then CHUNK_SIZE else n) _ hloop
  refine ⟨choose_bucket_loop t a (if n < CHUNK_SIZE then CHUNK_SIZE else n) 10 1,
    ?_, f1, f2, ?_, ?_, ?_, ?_, ?_⟩
  · have hlt : ¬ (if n < CHUNK_SIZE then CHUNK_SIZE else n) < CHUNK_SIZE := by
      unfold CHUNK_SIZE at h8 ⊢
      omega
    simp only [__choose_bucket, hlt, if_false, harena]
  · intro hi
    have hb : choose_bucket_loop t a (if n < CHUNK_SIZE then CHUNK_SIZE else n) 10 1 < BUCKET_COUNT := by
      unfold BUCKET_COUNT
      omega
    have hcsz := hcs _ hb
    refine ⟨hcsz, (f3 hi).1, ?_, (f3 hi).2⟩
    rw [hcsz]
    exact le_trans hle (f3 hi).1
  · intro h
    rw [hloop, h]
    decide
  · intro h
    rw [hloop, h]
    decide
  · intro h
    rw [hloop, h]
    decide
  · intro h
    rw [hloop, h]
    decide

/-- C3: after `init_malloc`, with the thread bound to any arena, `__choose_bucket`
on the request raised to at least `CHUNK_SIZE` selects the least index `i` in
1..10 whose `chunk_size = 8 << i` holds the request, and index 0 exactly when
the request exceeds 8192; a small class selected always holds the request. -/
theorem choose_bucket_first_fit (s : State) (a n : Nat) (ha : a < ARENA_COUNT) (hn : 1 ≤ n) :
    ∃ i, __choose_bucket { init_malloc s with __arena := some a }
          (if n < CHUNK_SIZE then CHUNK_SIZE else n) =
        .ok { init_malloc s with __arena := some a, __bucket := some (a, i) } ∧
      i ≤ 10 ∧
      (i = 0 ↔ 8192 < (if n < CHUNK_SIZE then CHUNK_SIZE else n)) ∧
      (1 ≤ i →
        ((init_malloc s).bucketAt (a, i)).chunk_size = 8 <<< i ∧
        (if n < CHUNK_SIZE then CHUNK_SIZE else n) ≤ 8 <<< i ∧
        n ≤ ((init_malloc s).bucketAt (a, i)).chunk_size ∧
        ∀ j, 1 ≤ j → j < i → 8 <<< j < (if n < CHUNK_SIZE then CHUNK_SIZE else n)) ∧
      (n = 16 → i = 1) ∧ (n = 17 → i = 2) ∧ (n = 8192 → i = 10) ∧ (n = 8193 → i = 0) := by
  have hcs : ∀ b, b < BUCKET_COUNT →
      (State.bucketAt { init_malloc s with __arena := some a } (a, b)).chunk_size = 8 <<< b := by
    intro b hb
    have h := init_malloc_bucketAt s a b ha hb
    simp only [State.bucketAt] at h ⊢
    rw [h]
  exact choose_bucket_spec { init_malloc s with __arena := some a } a n hn rfl hcs

/-- C3 witness: the request 17 after `init_malloc` on the fresh state, arena 0. -/
theorem choose_bucket_first_fit_witness :
    0 < ARENA_COUNT ∧ 1 ≤ 17 ∧
    ∃ i, __choose_bucket { init_malloc (fresh 16777216) with __arena := some 0 }
          (if 17 < CHUNK_SIZE then CHUNK_SIZE else 17) =
        .ok { init_malloc (fresh 16777216) with __arena := some 0, __bucket := some (0, i) } ∧
      i ≤ 10 ∧
      (i = 0 ↔ 8192 < (if 17 < CHUNK_SIZE then CHUNK_SIZE else 17)) ∧
      (1 ≤ i →
        ((init_malloc (fresh 16777216)).bucketAt (0, i)).chunk_size = 8 <<< i ∧
        (if 17 < CHUNK_SIZE then CHUNK_SIZE else 17) ≤ 8 <<< i ∧
        17 ≤ ((init_malloc (fresh 16777216)).bucketAt (0, i)).chunk_size ∧
        ∀ j, 1 ≤ j → j < i → 8 <<< j < (if 17 < CHUNK_SIZE then CHUNK_SIZE else 17)) ∧
      (17 = 16 → i = 1) ∧ (17 = 17 → i = 2) ∧ (17 = 8192 → i = 10) ∧ (17 = 8193 → i = 0) :=
  ⟨by decide, by decide, choose_bucket_first_fit (fresh 16777216) 0 17 (by decide) (by decide)⟩

/-! ## Theorems: the scenarios evaluated on the code -/

/-- C1: two consecutive calls `limalloc(20000)` from the fresh state return
pointers 8 bytes apart, so the two live 20000-byte allocations overlap. -/
theorem limalloc_large_allocations_overlap : ∃ p q : Nat,
    (do let (p, s1) ← limalloc 0 (fresh base0) 20000
        let (q, _) ← limalloc 0 s1 20000
        pure (p, q) : Except Fault (Nat × Nat)) = .ok (p, q) ∧
    q = p + 8 ∧ p ≠ q ∧ ¬ (p + 20000 ≤ q ∨ q + 20000 ≤ p) :=
  ⟨base0 + 8, base0 + 16, by decide!, by decide, by decide, by decide⟩

/-- C2: the caller takes `p = limalloc(40)`, stores the bytes 0..39 at `p` and
calls `q = lirealloc(p, 200)`; the first 40 bytes at `q` are then not 0..39 (they
are the bytes the new chunk held before the call), and the bytes at `p` beyond
the link written by `lifree` have been overwritten with those of the new chunk. -/
theorem lirealloc_copies_new_over_old : ∃ p q : Nat,
    (do let (p, s1) ← limalloc 0 (fresh base0) 40
        let s2 : State := { s1 with mem := user_write s1.mem p (List.range 40) }
        let (q, s3) ← lirealloc 8 s2 p 200
        pure (p, q, user_read s2.mem p 40, user_read s3.mem q 40, user_read s3.mem p 40)
          : Except Fault (Nat × Nat × List Nat × List Nat × List Nat)) =
      .ok (p, q, List.range 40,
        [248, 255, 15, 0, 0, 0, 0, 0, 0, 0, 0, 0, 0, 0, 0, 0, 0, 0, 0, 0,
          0, 0, 0, 0, 0, 0, 0, 0, 0, 0, 0, 0, 0, 0, 0, 0, 0, 0, 0, 0],
        [0, 0, 0, 0, 0, 0, 0, 0, 0, 0, 0, 0, 0, 0, 0, 0, 0, 0, 0, 0,
          0, 0, 0, 0, 0, 0, 0, 0, 0, 0, 0, 0, 0, 0, 0, 0, 0, 0, 0, 0]) ∧
    p ≠ q ∧
    [248, 255, 15, 0, 0, 0, 0, 0, 0, 0, 0, 0, 0, 0, 0, 0, 0, 0, 0, 0,
      0, 0, 0, 0, 0, 0, 0, 0, 0, 0, 0, 0, 0, 0, 0, 0, 0, 0, 0, 0] ≠ List.range 40 :=
  ⟨base0 + 8, base0 + 1048576 + 8, by decide!, by decide, by decide⟩

/-- C5: the call `limalloc(20000)` from the fresh state asks the page source for
one mapping of 1 MiB (not of `div_up(20000, 4096) * 4096 = 20480` bytes), leaves
the first word of the mapping zero (not 20000), and sets `page_head` and
`block_head` of bucket 0. -/
theorem limalloc_large_maps_slab : ∃ p : Nat,
    (do let (p, s1) ← limalloc 0 (fresh base0) 20000
        pure (p, s1.mmap_log, load64 s1.mem base0, s1.bucketAt (0, 0))
          : Except Fault (Nat × List (Nat × Nat) × Nat × bucket)) =
      .ok (p, [(base0, MEM_PAGE_SIZE)], 0,
        { chunk_head := 0, block_head := base0 + 16, page_head := base0, chunk_size := 8 }) ∧
    p = base0 + OVERHEAD_SIZE ∧
    MEM_PAGE_SIZE ≠ div_up 20000 PAGE_SIZE * PAGE_SIZE ∧ div_up 20000 PAGE_SIZE * PAGE_SIZE = 20480 :=
  ⟨base0 + 8, by decide!, by decide, by decide, by decide⟩

/-- C6: from the fresh state the round trip `p = limalloc(20000); lifree(p);
q = limalloc(20000)` gives `q = p` (through the chunk list of bucket 0).  It fails
in a state reached as follows: `p0 = limalloc(20000)`, `r = limalloc(16)`, the
caller stores the words 8 and `r + 4088` at `p0 + 8` and `p0 + 16` (inside its
20000 bytes, where bucket 0 keeps its block header), `p1 = limalloc(20000)`.
There `p = limalloc(20000)` lies in the slab of bucket 1, `lifree(p)` pushes it
on the chunk list of bucket 1, and `q = limalloc(20000)` is another pointer. -/
theorem large_round_trip_fails_after_caller_writes :
    (do let (p, s1) ← limalloc 0 (fresh base0) 20000
        let s2 ← lifree 8 s1 p
        let (q, _) ← limalloc 0 s2 20000
        pure (p, q) : Except Fault (Nat × Nat)) = .ok (base0 + 8, base0 + 8) ∧
    ∃ p q : Nat,
    (do let (p0, s1) ← limalloc 0 (fresh base0) 20000
        let (r, s2) ← limalloc 0 s1 16
        let s3 : State := { s2 with mem := store64 (store64 s2.mem (p0 + 8) 8) (p0 + 16) (r + 4088) }
        let (p1, s4) ← limalloc 0 s3 20000
        let (p, s5) ← limalloc 0 s4 20000
        let s6 ← lifree 8 s5 p
        let (q, s7) ← limalloc 0 s6 20000
        pure [p0, r, p1, p, q, (s6.bucketAt (0, 0)).chunk_head, (s6.bucketAt (0, 1)).chunk_head,
          s7.mmap_log.length]
          : Except Fault (List Nat)) =
      .ok [base0 + 8, base0 + MEM_PAGE_SIZE + 8, base0 + 16, p, q, 0, p, 3] ∧
    p = base0 + MEM_PAGE_SIZE + 4096 ∧ q = base0 + 2 * MEM_PAGE_SIZE + 8 ∧ q ≠ p :=
  ⟨by decide!, base0 + 1048576 + 4096, base0 + 2 * 1048576 + 8, by decide!, by decide, by decide, by decide⟩

/-- C8: after 255 consecutive calls `limalloc(8192)` from the fresh state bucket 10
has mapped three slabs, its page list holds the first and the third only, and
the 128th pointer returned (the first chunk of the second slab, still live)
lies strictly inside no slab page reachable from `page_head`. -/
theorem slab_residency_fails_after_third_slab : ∃ p : Nat,
    (do let (ps, s) ← limalloc_repeat 0 8192 255 (fresh base0)
        pure (ps.length, ps.getD 127 0, s.mmap_log, (s.bucketAt (0, 10)).page_head,
          page_list s.mem 8 (s.bucketAt (0, 10)).page_head)
          : Except Fault (Nat × Nat × List (Nat × Nat) × Nat × List Nat)) =
      .ok (255, p,
        [(base0, MEM_PAGE_SIZE), (base0 + MEM_PAGE_SIZE, MEM_PAGE_SIZE), (base0 + 2 * MEM_PAGE_SIZE, MEM_PAGE_SIZE)],
        base0, [base0, base0 + 2 * MEM_PAGE_SIZE]) ∧
    p = base0 + MEM_PAGE_SIZE + SIZEOF_PAGE ∧
    ¬ ∃ b ∈ [base0, base0 + 2 * MEM_PAGE_SIZE], b < p ∧ p < b + MEM_PAGE_SIZE :=
  ⟨base0 + 1048576 + 8, by decide!, by decide, by decide⟩

/-- C10: after 255 consecutive calls `limalloc(8192)` from the fresh state, with
`p` the 128th pointer returned (a live chunk of bucket 10, previous size 8192),
`lirealloc(p, 9000)` returns the pointer `limalloc(9000)` returns from the same
state, but afterwards `p` is the head of the chunk list of bucket 0, and the
chunk list of bucket 10, which `p` was allocated from, is empty. -/
theorem lirealloc_growth_frees_into_bucket_zero : ∃ p q : Nat,
    (do let (ps, s) ← limalloc_repeat 0 8192 255 (fresh base0)
        let p := ps.getD 127 0
        let (q1, _) ← limalloc 0 s (if 9000 < PAGE_SIZE then PAGE_SIZE else 9000)
        let (q, s1) ← lirealloc 8 s p 9000
        pure [p, q1, q, (s.bucketAt (0, 10)).chunk_size,
          (s1.bucketAt (0, 10)).chunk_head, (s1.bucketAt (0, 0)).chunk_head]
          : Except Fault (List Nat)) =
      .ok [p, q, q, 8192, 0, p] ∧
    p = base0 + MEM_PAGE_SIZE + SIZEOF_PAGE ∧ q ≠ p ∧ p ≠ 0 :=
  ⟨base0 + 1048576 + 8, base0 + 3 * 1048576 + 8, by decide!, by decide, by decide, by decide⟩

/-! ## Theorems: reallocation in place -/

theorem page_walk_not_found (m : Mem) (p : Nat) : ∀ (l : List Nat) (head fuel : Nat),
    PageList m head l → l.length < fuel →
    (∀ b ∈ l, ¬ (b < p ∧ p < b + MEM_PAGE_SIZE)) →
    page_walk m p fuel head = .ok false := by
  intro l
  induction l with
  | nil =>
    intro head fuel hl hf _
    cases fuel with
    | zero => simp at hf
    | succ fuel =>
      simp only [PageList] at hl
      simp [page_walk, hl]
  | cons b l ih =>
    intro head fuel hl hf hnot
    cases fuel with
    | zero => simp at hf
    | succ fuel =>
      simp only [PageList] at hl
      obtain ⟨h1, h2, h3⟩ := hl
      subst h1
      have hb := hnot head (List.mem_cons_self _ _)
      simp only [page_walk, h2, if_false, hb]
      exact ih _ _ h3 (by simpa using hf) (fun b hb => hnot b (List.mem_cons_of_mem _ hb))

theorem page_walk_found (m : Mem) (p : Nat) : ∀ (l : List Nat) (head fuel : Nat),
    PageList m head l → l.length < fuel →
    (∃ b ∈ l, b < p ∧ p < b + MEM_PAGE_SIZE) →
    page_walk m p fuel head = .ok true := by
  intro l
  induction l with
  | nil =>
    intro head fuel _ _ hex
    simp at hex
  | cons b l ih =>
    intro head fuel hl hf hex
    cases fuel with
    | zero => simp at hf
    | succ fuel =>
      simp only [PageList] at hl
      obtain ⟨h1, h2, h3⟩ := hl
      subst h1
      by_cases hb : head < p ∧ p < head + MEM_PAGE_SIZE
      · simp only [page_walk, h2, if_false, hb, and_self, if_true]
      · simp only [page_walk, h2, if_false, hb]
        apply ih _ _ h3 (by simpa using hf)
        obtain ⟨c, hc, hin⟩ := hex
        rcases List.mem_cons.mp hc with h | h
        · subst h
          exact absurd hin hb
        · exact ⟨c, h, hin⟩

theorem find_bucket_loop_found (fuel : Nat) (s : State) (a p i : Nat) (pages : Nat → List Nat) :
    ∀ (n bb : Nat), bb ≤ i → i < bb + n →
    (∀ j, bb ≤ j → j ≤ i → PageList s.mem (s.bucketAt (a, j)).page_head (pages j) ∧
      (pages j).length < fuel) →
    (∃ b ∈ pages i, b < p ∧ p < b + MEM_PAGE_SIZE) →
    (∀ j, bb ≤ j → j < i → ∀ b ∈ pages j, ¬ (b < p ∧ p < b + MEM_PAGE_SIZE)) →
    find_bucket_loop fuel s a p n bb = .ok i := by
  intro n
  induction n with
  | zero => intro bb h1 h2; omega
  | succ n ih =>
    intro bb h1 h2 hl hin hout
    by_cases hbi : bb = i
    · subst hbi
      obtain ⟨hpl, hlen⟩ := hl bb (le_refl _) (le_refl _)
      simp only [find_bucket_loop, page_walk_found s.mem p _ _ _ hpl hlen hin]
    · have hlt : bb < i := by omega
      obtain ⟨hpl, hlen⟩ := hl bb (le_refl _) (by omega)
      simp only [find_bucket_loop, page_walk_not_found s.mem p _ _ _ hpl hlen (hout bb (le_refl _) hlt)]
      exact ih (bb + 1) (by omega) (by omega) (fun j hj1 hj2 => hl j (by omega) hj2) hin
        (fun j hj1 hj2 => hout j (by omega) hj2)

/-- C7: a pointer `p` strictly inside a slab page on the page list of small
bucket `i`, in a state where the page lists of buckets 1..i are null-terminated
and no page listed by a lower bucket contains `p` (slab pages are disjoint
mappings), reallocated to a size `n` with `1 <= n <= chunk_size[i]`: with enough
fuel for the page walk `lirealloc(p, n)` returns `p` and changes nothing but the
thread-local `__bucket`, so it maps nothing and leaves all lists and the heap as
they were. -/
theorem lirealloc_in_place (s : State) (a i p n : Nat) (pages : Nat → List Nat)
    (harena : s.__arena = some a) (hi1 : 1 ≤ i) (hi10 : i ≤ 10)
    (hlists : ∀ j, 1 ≤ j → j ≤ i → PageList s.mem (s.bucketAt (a, j)).page_head (pages j))
    (hin : ∃ b ∈ pages i, b < p ∧ p < b + MEM_PAGE_SIZE)
    (hlow : ∀ j, 1 ≤ j → j < i → ∀ b ∈ pages j, ¬ (b < p ∧ p < b + MEM_PAGE_SIZE))
    (hn : 1 ≤ n) (hfit : n ≤ (s.bucketAt (a, i)).chunk_size) :
    ∃ fuel0, ∀ fuel, fuel0 ≤ fuel →
      lirealloc fuel s p n = .ok (p, { s with __bucket := some (a, i) }) := by
  refine ⟨((List.range 11).map (fun j => (pages j).length)).sum + 1, fun fuel hfuel => ?_⟩
  have hlen : ∀ j, j ≤ 10 → (pages j).length < fuel := by
    intro j hj
    have hmem : (pages j).length ∈ (List.range 11).map (fun j => (pages j).length) :=
      List.mem_map.mpr ⟨j, List.mem_range.mpr (by omega), rfl⟩
    have := List.single_le_sum (fun _ _ => Nat.zero_le _) _ hmem
    omega
  have hfind : find_bucket_loop fuel s a p (BUCKET_COUNT - 1) 1 = .ok i :=
    find_bucket_loop_found fuel s a p i pages (BUCKET_COUNT - 1) 1 hi1
      (by unfold BUCKET_COUNT; omega)
      (fun j hj1 hj2 => ⟨hlists j hj1 hj2, hlen j (by omega)⟩) hin hlow
  have hp : p ≠ 0 := by
    obtain ⟨b, _, hb, _⟩ := hin
    omega
  have hn0 : n ≠ 0 := by omega
  have hcs : (s.bucketAt (a, i)).chunk_size ≠ 0 := by omega
  simp only [lirealloc, hp, hn0, if_false, __find_bucket, harena, hfind]
  simp only [State.bucketAt] at hcs hfit ⊢
  simp only [hcs, if_false, ge_iff_le, hfit, if_true]

/-- C7 witness: the pointer `base0 + 8` returned by `limalloc(40)` on the fresh
state lies in the one slab page of bucket 3 (chunk size 64) and is reallocated
to 30 bytes in place. -/
theorem lirealloc_in_place_witness :
    (∃ b ∈ [base0], b < base0 + 8 ∧ base0 + 8 < b + MEM_PAGE_SIZE) ∧
    30 ≤ (state_after_limalloc_40.bucketAt (0, 3)).chunk_size ∧
    ∃ fuel0, ∀ fuel, fuel0 ≤ fuel →
      lirealloc fuel state_after_limalloc_40 (base0 + 8) 30 =
        .ok (base0 + 8, { state_after_limalloc_40 with __bucket := some (0, 3) }) :=
  ⟨⟨base0, by simp, by decide, by decide⟩, by decide!,
    lirealloc_in_place state_after_limalloc_40 0 3 (base0 + 8) 30
      (fun j => if j = 3 then [base0] else [])
      (by decide!) (by decide) (by decide)
      (by
        intro j h1 h2
        interval_cases j
        · decide!
        · decide!
        · decide!)
      ⟨base0, by simp, by decide, by decide⟩
      (by
        intro j h1 h2 b hb
        interval_cases j <;> simp at hb)
      (by decide) (by decide!)⟩

/-! ## Theorems: the heap -/

theorem store64_outside (m : Mem) (a v x : Nat) (h : x < a ∨ a + 8 ≤ x) :
    store64 m a v x = m x := by
  have h1 : ¬ (a ≤ x ∧ x < a + 8) := by omega
  simp only [store64, h1, if_false]

theorem load64_congr (m1 m2 : Mem) (a : Nat) (h : ∀ x, a ≤ x → x < a + 8 → m1 x = m2 x) :
    load64 m1 a = load64 m2 a := by
  simp only [load64, load8]
  rw [h a (by omega) (by omega), h (a + 1) (by omega) (by omega), h (a + 2) (by omega) (by omega),
    h (a + 3) (by omega) (by omega), h (a + 4) (by omega) (by omega), h (a + 5) (by omega) (by omega),
    h (a + 6) (by omega) (by omega), h (a + 7) (by omega) (by omega)]

theorem load64_store64_other (m : Mem) (a v b : Nat) (h : b + 8 ≤ a ∨ a + 8 ≤ b) :
    load64 (store64 m a v) b = load64 m b :=
  load64_congr _ _ _ (fun x h1 h2 => store64_outside m a v x (by omega))

theorem le_bytes (v : Nat) (hv : v < 18446744073709551616) :
    v % 256 + 256 * (v / 256 % 256 + 256 * (v / 256 / 256 % 256 + 256 * (v / 256 / 256 / 256 % 256
      + 256 * (v / 256 / 256 / 256 / 256 % 256 + 256 * (v / 256 / 256 / 256 / 256 / 256 % 256
      + 256 * (v / 256 / 256 / 256 / 256 / 256 / 256 % 256
      + 256 * (v / 256 / 256 / 256 / 256 / 256 / 256 / 256 % 256))))))) = v := by
  omega
theorem div_pow_256 (v : Nat) : v / 256 ^ 0 = v ∧ v / 256 ^ 1 = v / 256 ∧ v / 256 ^ 2 = v / 256 / 256 ∧
    v / 256 ^ 3 = v / 256 / 256 / 256 ∧ v / 256 ^ 4 = v / 256 / 256 / 256 / 256 ∧
    v / 256 ^ 5 = v / 256 / 256 / 256 / 256 / 256 ∧ v / 256 ^ 6 = v / 256 / 256 / 256 / 256 / 256 / 256 ∧
    v / 256 ^ 7 = v / 256 / 256 / 256 / 256 / 256 / 256 / 256 := by
  simp only [Nat.div_div_eq_div_mul]
  norm_num

theorem store64_inside (m : Mem) (a v k : Nat) (hk : k < 8) :
    store64 m a v (a + k) = v / 256 ^ k % 256 := by
  have h1 : a ≤ a + k ∧ a + k < a + 8 := by omega
  simp only [store64, h1, and_self, if_true, Nat.add_sub_cancel_left]

theorem load64_store64_same (m : Mem) (a v : Nat) (hv : v < 18446744073709551616) :
    load64 (store64 m a v) a = v := by
  have e0 := store64_inside m a v 0 (by decide)
  have e1 := store64_inside m a v 1 (by decide)
  have e2 := store64_inside m a v 2 (by decide)
  have e3 := store64_inside m a v 3 (by decide)
  have e4 := store64_inside m a v 4 (by decide)
  have e5 := store64_inside m a v 5 (by decide)
  have e6 := store64_inside m a v 6 (by decide)
  have e7 := store64_inside m a v 7 (by decide)
  obtain ⟨p0, p1, p2, p3, p4, p5, p6, p7⟩ := div_pow_256 v
  rw [Nat.add_zero] at e0
  simp only [load64, load8, e0, e1, e2, e3, e4, e5, e6, e7, p0, p1, p2, p3, p4, p5, p6, p7,
    Nat.mod_mod]
  exact le_bytes v hv

theorem load64_zero (m : Mem) (a : Nat) (h : ∀ x, a ≤ x → x < a + 8 → m x = 0) :
    load64 m a = 0 := by
  simp only [load64, load8]
  rw [h a (by omega) (by omega), h (a + 1) (by omega) (by omega), h (a + 2) (by omega) (by omega),
    h (a + 3) (by omega) (by omega), h (a + 4) (by omega) (by omega), h (a + 5) (by omega) (by omega),
    h (a + 6) (by omega) (by omega), h (a + 7) (by omega) (by omega)]

/-! ## Theorems: one call of `limalloc` on a small bucket -/

theorem toInt32_of_lt (v : Nat) (h : v < 2147483648) : toInt32 (v : Int) = (v : Int) := by
  unfold toInt32
  have h1 : (v : Int) % 4294967296 = (v : Int) := by omega
  simp only [h1]
  have h2 : (v : Int) < 2147483648 := by omega
  simp only [h2, if_true]

theorem toInt32_sub (v c : Nat) (hv : v < 2147483648) (hc : c < 2147483648) :
    toInt32 ((v : Int) - (c : Int)) = (v : Int) - (c : Int) := by
  unfold toInt32
  by_cases h : c ≤ v
  · have h1 : ((v : Int) - (c : Int)) % 4294967296 = (v : Int) - (c : Int) := by omega
    have h2 : (v : Int) - (c : Int) < 2147483648 := by omega
    simp only [h1, h2, if_true]
  · have h1 : ((v : Int) - (c : Int)) % 4294967296 = (v : Int) - (c : Int) + 4294967296 := by omega
    have h2 : ¬ ((v : Int) - (c : Int) + 4294967296 < 2147483648) := by omega
    simp only [h1, h2, if_false]
    omega

theorem toSizeT_sub (v c : Nat) (h : c ≤ v) (hv : v < 18446744073709551616) :
    toSizeT ((v : Int) - (c : Int)) = v - c := by
  unfold toSizeT
  omega

theorem ptrAdd_nat (p c : Nat) : ptrAdd p (c : Int) = p + c := by
  unfold ptrAdd
  omega

theorem bucketAt_setBucket_same (s : State) (ab : Nat × Nat) (b : bucket) :
    (s.setBucket ab b).bucketAt ab = b := by
  simp [State.setBucket, State.bucketAt]

theorem bucketAt_setBucket_other (s : State) (a i j : Nat) (b : bucket) (h : j ≠ i) :
    (s.setBucket (a, i) b).bucketAt (a, j) = s.bucketAt (a, j) := by
  simp [State.setBucket, State.bucketAt, h]

theorem choose_bucket_loop_congr (s t : State) (a size : Nat)
    (h : ∀ bb, (t.bucketAt (a, bb)).chunk_size = (s.bucketAt (a, bb)).chunk_size) :
    ∀ n bb, choose_bucket_loop t a size n bb = choose_bucket_loop s a size n bb := by
  intro n
  induction n with
  | zero => intro bb; rfl
  | succ n ih =>
    intro bb
    simp only [choose_bucket_loop, h bb, ih (bb + 1)]

theorem limalloc_warm (fuel : Nat) (s : State) (n a : Nat) (hrun : s.FISRT_RUN = false)
    (harena : s.__arena = some a) (hn : n ≠ 0) :
    limalloc fuel s n =
      get_chunk fuel
        { s with __bucket := some (a, choose_bucket_loop s a (if n < CHUNK_SIZE then CHUNK_SIZE else n) 10 1) }
        (if n < CHUNK_SIZE then CHUNK_SIZE else n) := by
  have h8 : ¬ (if n < CHUNK_SIZE then CHUNK_SIZE else n) < CHUNK_SIZE := by
    unfold CHUNK_SIZE
    split_ifs <;> omega
  simp [limalloc, hn, hrun, harena, __choose_bucket, h8]

theorem get_chunk_small (fuel : Nat) (t : State) (n1 a : Nat) (ab : Nat × Nat)
    (harena : t.__arena = some a) (hb : t.__bucket = some ab)
    (hcs : (t.bucketAt ab).chunk_size ≠ 0) (h8 : ¬ n1 < CHUNK_SIZE) :
    get_chunk fuel t n1 =
      match pop_chunk t with
      | .error e => .error e
      | .ok (ptr, s1) => if ptr = 0 then allocate_page s1 else .ok (ptr, s1) := by
  simp only [get_chunk, harena, hb, h8, if_false, hcs]

theorem pop_chunk_slice (t : State) (a : Nat) (ab : Nat × Nat)
    (harena : t.__arena = some a) (hb : t.__bucket = some ab)
    (hch : (t.bucketAt ab).chunk_head = 0) (hbh : (t.bucketAt ab).block_head ≠ 0) :
    pop_chunk t = block_slice t := by
  simp [pop_chunk, harena, hb, hch, hbh]

theorem pop_chunk_empty (t : State) (a : Nat) (ab : Nat × Nat)
    (harena : t.__arena = some a) (hb : t.__bucket = some ab)
    (hch : (t.bucketAt ab).chunk_head = 0) (hbh : (t.bucketAt ab).block_head = 0) :
    pop_chunk t = .ok (0, t) := by
  simp [pop_chunk, harena, hb, hch, hbh]

theorem block_slice_shift (t : State) (a : Nat) (ab : Nat × Nat) (c X sz : Nat)
    (harena : t.__arena = some a) (hb : t.__bucket = some ab)
    (hX : (t.bucketAt ab).block_head = X) (hX0 : X ≠ 0)
    (hc : (t.bucketAt ab).chunk_size = c) (hsz : load64 t.mem X = sz)
    (hcl : c < 2147483648) (hszl : sz < 2147483648) (hbig : 2 * c < sz) :
    block_slice t =
      .ok (X, { t.setBucket ab { t.bucketAt ab with block_head := X + c } with
                mem := store64 t.mem (X + c) (sz - c) }) := by
  have h1 : ¬ ((sz : Int) - (c : Int) < (c : Int)) := by omega
  have h2 : ¬ ((sz : Int) - (c : Int) = (c : Int)) := by omega
  simp only [block_slice, harena, hb, hX, hX0, if_false, hc, hsz, toInt32_of_lt sz hszl,
    toInt32_of_lt c hcl, toInt32_sub sz c hszl hcl, h1, h2, ptrAdd_nat,
    toSizeT_sub sz c (by omega) (by omega)]

theorem block_slice_drop (t : State) (a : Nat) (ab : Nat × Nat) (c X sz : Nat)
    (harena : t.__arena = some a) (hb : t.__bucket = some ab)
    (hX : (t.bucketAt ab).block_head = X) (hX0 : X ≠ 0)
    (hc : (t.bucketAt ab).chunk_size = c) (hsz : load64 t.mem X = sz)
    (hcl : c < 2147483648) (hszl : sz < 2147483648) (hsmall : sz < 2 * c) :
    block_slice t =
      .ok (X, t.setBucket ab { t.bucketAt ab with block_head := load64 t.mem (X + 8) }) := by
  have h1 : (sz : Int) - (c : Int) < (c : Int) := by omega
  simp only [block_slice, harena, hb, hX, hX0, if_false, hc, hsz, toInt32_of_lt sz hszl,
    toInt32_of_lt c hcl, toInt32_sub sz c hszl hcl, h1, if_true]

theorem carving_shift (fuel : Nat) (s : State) (a i c n X sz : Nat)
    (h : Carving s a i c n X sz) (hbig : 2 * c < sz) :
    ∃ s1, limalloc fuel s n = .ok (X, s1) ∧ Carving s1 a i c n (X + c) (sz - c) ∧
      s1.mmap_log = s.mmap_log ∧ s1.mmap_next = s.mmap_next ∧
      (s1.bucketAt (a, i)).page_head = (s.bucketAt (a, i)).page_head := by
  obtain ⟨hrun, harena, hn, hsel, hc, hc16, hc8192, hch, hX, hX0, hsz, hszl, hzero⟩ := h
  have h8 : ¬ (if n < CHUNK_SIZE then CHUNK_SIZE else n) < CHUNK_SIZE := by
    unfold CHUNK_SIZE
    split_ifs <;> omega
  rw [limalloc_warm fuel s n a hrun harena hn, hsel]
  rw [get_chunk_small fuel { s with __bucket := some (a, i) } _ a (a, i) harena rfl
    (by show (s.bucketAt (a, i)).chunk_size ≠ 0; omega) h8]
  rw [pop_chunk_slice { s with __bucket := some (a, i) } a (a, i) harena rfl hch
    (by show (s.bucketAt (a, i)).block_head ≠ 0; omega)]
  rw [block_slice_shift { s with __bucket := some (a, i) } a (a, i) c X sz harena rfl hX hX0 hc hsz
    (by omega) hszl hbig]
  have hX0c : X + c ≠ 0 := by omega
  simp only [hX0, if_false]
  refine ⟨_, rfl, ⟨hrun, harena, hn, ?_, ?_, hc16, hc8192, ?_, ?_, hX0c, ?_, by omega, ?_⟩, rfl, rfl, ?_⟩
  · refine (choose_bucket_loop_congr s _ a _ ?_ 10 1).trans hsel
    intro bb
    by_cases hbb : bb = i
    · subst hbb
      simp [State.setBucket, State.bucketAt]
    · simp [State.setBucket, State.bucketAt, hbb]
  · simpa [State.setBucket, State.bucketAt] using hc
  · simpa [State.setBucket, State.bucketAt] using hch
  · simp [State.setBucket, State.bucketAt]
  · exact load64_store64_same _ _ _ (by omega)
  · intro x hx1 hx2
    show store64 s.mem (X + c) (sz - c) x = 0
    rw [store64_outside _ _ _ _ (by omega)]
    exact hzero x (by omega) (by omega)
  · simp [State.setBucket, State.bucketAt]

theorem carving_drop (fuel : Nat) (s : State) (a i c n X sz : Nat)
    (h : Carving s a i c n X sz) (hlo : 16 ≤ sz) (hsmall : sz < 2 * c)
    (hpage : (s.bucketAt (a, i)).page_head = 0 ∨ (s.bucketAt (a, i)).page_head + 8 ≤ s.mmap_next) :
    ∃ s1, limalloc fuel s n = .ok (X, s1) ∧ Exhausted s1 a i c n ∧
      s1.mmap_log = s.mmap_log ∧ s1.mmap_next = s.mmap_next ∧ s1.mem = s.mem ∧
      (s1.bucketAt (a, i)).page_head = (s.bucketAt (a, i)).page_head := by
  obtain ⟨hrun, harena, hn, hsel, hc, hc16, hc8192, hch, hX, hX0, hsz, hszl, hzero⟩ := h
  have h8 : ¬ (if n < CHUNK_SIZE then CHUNK_SIZE else n) < CHUNK_SIZE := by
    unfold CHUNK_SIZE
    split_ifs <;> omega
  have hnext : load64 s.mem (X + 8) = 0 :=
    load64_zero _ _ (fun x h1 h2 => hzero x h1 (by omega))
  rw [limalloc_warm fuel s n a hrun harena hn, hsel]
  rw [get_chunk_small fuel { s with __bucket := some (a, i) } _ a (a, i) harena rfl
    (by show (s.bucketAt (a, i)).chunk_size ≠ 0; omega) h8]
  rw [pop_chunk_slice { s with __bucket := some (a, i) } a (a, i) harena rfl hch
    (by show (s.bucketAt (a, i)).block_head ≠ 0; omega)]
  rw [block_slice_drop { s with __bucket := some (a, i) } a (a, i) c X sz harena rfl hX hX0 hc hsz
    (by omega) hszl hsmall]
  simp only [hX0, if_false]
  refine ⟨_, rfl, ⟨hrun, harena, hn, ?_, ?_, hc16, hc8192, ?_, ?_, ?_⟩, rfl, rfl, rfl, ?_⟩
  · refine (choose_bucket_loop_congr s _ a _ ?_ 10 1).trans hsel
    intro bb
    by_cases hbb : bb = i
    · subst hbb
      simp [State.setBucket, State.bucketAt]
    · simp [State.setBucket, State.bucketAt, hbb]
  · simpa [State.setBucket, State.bucketAt] using hc
  · simpa [State.setBucket, State.bucketAt] using hch
  · show ((State.setBucket _ _ _).bucketAt (a, i)).block_head = 0
    rw [bucketAt_setBucket_same]
    exact hnext
  · simpa [State.setBucket, State.bucketAt] using hpage
  · simp [State.setBucket, State.bucketAt]

theorem exhausted_new_page (fuel : Nat) (s : State) (a i c n : Nat) (h : Exhausted s a i c n) :
    ∃ s1, limalloc fuel s n = .ok (s.mmap_next + 8, s1) ∧
      Carving s1 a i c n (s.mmap_next + 8 + c) (1048568 - c) ∧
      s1.mmap_log = s.mmap_log ++ [(s.mmap_next, MEM_PAGE_SIZE)] ∧
      s1.mmap_next = s.mmap_next + MEM_PAGE_SIZE ∧
      (s1.bucketAt (a, i)).page_head =
        (if (s.bucketAt (a, i)).page_head = 0 then s.mmap_next else (s.bucketAt (a, i)).page_head) := by
  obtain ⟨hrun, harena, hn, hsel, hc, hc16, hc8192, hch, hbh, hpage⟩ := h
  have h8 : ¬ (if n < CHUNK_SIZE then CHUNK_SIZE else n) < CHUNK_SIZE := by
    unfold CHUNK_SIZE
    split_ifs <;> omega
  rw [limalloc_warm fuel s n a hrun harena hn, hsel]
  rw [get_chunk_small fuel { s with __bucket := some (a, i) } _ a (a, i) harena rfl
    (by show (s.bucketAt (a, i)).chunk_size ≠ 0; omega) h8]
  rw [pop_chunk_empty { s with __bucket := some (a, i) } a (a, i) harena rfl hch hbh]
  simp only [if_true]
  have hbh2 : (State.bucketAt { s with __bucket := some (a, i) } (a, i)).block_head = 0 := hbh
  by_cases hph : (s.bucketAt (a, i)).page_head = 0
  · have hph2 : (State.bucketAt { s with __bucket := some (a, i) } (a, i)).page_head = 0 := hph
    simp only [allocate_page, harena, hbh2, ne_eq, not_true_eq_false, if_false, mmap, State.bucketAt,
      State.setBucket, if_true, SIZEOF_PAGE, MEM_PAGE_SIZE] at hph2 hbh2 ⊢
    simp only [hph2, hbh2, if_true, not_true_eq_false, if_false]
    simp only [State.bucketAt] at hc hch hph
    rw [block_slice_shift _ a (a, i) c (s.mmap_next + 8) 1048568 rfl rfl
      (by simp [State.bucketAt]) (by omega) (by simpa [State.bucketAt] using hc)
      (by
        show load64 (store64 (store64 _ _ _) _ _) _ = _
        rw [load64_store64_other _ _ _ _ (by omega)]
        exact load64_store64_same _ _ _ (by norm_num))
      (by omega) (by norm_num) (by omega)]
    refine ⟨_, rfl, ⟨hrun, rfl, hn, ?_, ?_, hc16, hc8192, ?_, ?_, by omega, ?_, by omega, ?_⟩, rfl, rfl, ?_⟩
    · refine (choose_bucket_loop_congr s _ a _ ?_ 10 1).trans hsel
      intro bb
      by_cases hbb : bb = i
      · subst hbb
        simp [State.setBucket, State.bucketAt]
      · simp [State.setBucket, State.bucketAt, hbb]
    · simpa [State.setBucket, State.bucketAt] using hc
    · simpa [State.setBucket, State.bucketAt] using hch
    · simp [State.setBucket, State.bucketAt]
    · exact load64_store64_same _ _ _ (by omega)
    · intro x hx1 hx2
      show store64 (store64 (store64 _ _ _) _ _) _ _ x = 0
      rw [store64_outside _ _ _ _ (by omega), store64_outside _ _ _ _ (by omega),
        store64_outside _ _ _ _ (by omega)]
      have hin : s.mmap_next ≤ x ∧ x < s.mmap_next + 1024 * 1024 := by omega
      simp only [hin, and_self, if_true]
    · simp [State.setBucket, State.bucketAt, hph]
  · have hph2 : ¬ (State.bucketAt { s with __bucket := some (a, i) } (a, i)).page_head = 0 := hph
    have hlow : (s.bucketAt (a, i)).page_head + 8 ≤ s.mmap_next := by
      rcases hpage with h | h
      · exact absurd h hph
      · exact h
    simp only [allocate_page, harena, hbh2, ne_eq, not_true_eq_false, if_false, mmap, State.bucketAt,
      State.setBucket, if_true, SIZEOF_PAGE, MEM_PAGE_SIZE] at hph2 hbh2 ⊢
    simp only [hph2, hbh2, if_true, not_true_eq_false, if_false]
    simp only [State.bucketAt] at hc hch hph hlow
    rw [block_slice_shift _ a (a, i) c (s.mmap_next + 8) 1048568 rfl rfl
      (by simp [State.bucketAt]) (by omega) (by simpa [State.bucketAt] using hc)
      (by
        show load64 (store64 (store64 _ _ _) _ _) _ = _
        rw [load64_store64_other _ _ _ _ (by omega)]
        exact load64_store64_same _ _ _ (by norm_num))
      (by omega) (by norm_num) (by omega)]
    refine ⟨_, rfl, ⟨hrun, rfl, hn, ?_, ?_, hc16, hc8192, ?_, ?_, by omega, ?_, by omega, ?_⟩, rfl, rfl, ?_⟩
    · refine (choose_bucket_loop_congr s _ a _ ?_ 10 1).trans hsel
      intro bb
      by_cases hbb : bb = i
      · subst hbb
        simp [State.setBucket, State.bucketAt]
      · simp [State.setBucket, State.bucketAt, hbb]
    · simpa [State.setBucket, State.bucketAt] using hc
    · simpa [State.setBucket, State.bucketAt] using hch
    · simp [State.setBucket, State.bucketAt]
    · exact load64_store64_same _ _ _ (by omega)
    · intro x hx1 hx2
      show store64 (store64 (store64 (store64 _ _ _) _ _) _ _) _ _ x = 0
      rw [store64_outside _ _ _ _ (by omega), store64_outside _ _ _ _ (by omega),
        store64_outside _ _ _ _ (by omega), store64_outside _ _ _ _ (by omega)]
      have hin : s.mmap_next ≤ x ∧ x < s.mmap_next + 1024 * 1024 := by omega
      simp only [hin, and_self, if_true]
    · simp [State.setBucket, State.bucketAt, hph]

/-! ## Theorems: consecutive calls carving one slab -/

theorem limalloc_repeat_append (fuel size : Nat) : ∀ (k1 k2 : Nat) (s s1 s2 : State) (ps1 ps2 : List Nat),
    limalloc_repeat fuel size k1 s = .ok (ps1, s1) →
    limalloc_repeat fuel size k2 s1 = .ok (ps2, s2) →
    limalloc_repeat fuel size (k1 + k2) s = .ok (ps1 ++ ps2, s2) := by
  intro k1
  induction k1 with
  | zero =>
    intro k2 s s1 s2 ps1 ps2 h1 h2
    simp only [limalloc_repeat, Except.ok.injEq, Prod.mk.injEq] at h1
    obtain ⟨e1, e2⟩ := h1
    subst e1 e2
    simpa using h2
  | succ k1 ih =>
    intro k2 s s1 s2 ps1 ps2 h1 h2
    have e : k1 + 1 + k2 = (k1 + k2) + 1 := by omega
    rw [e]
    simp only [limalloc_repeat] at h1 ⊢
    cases hl : limalloc fuel s size with
    | error err => simp [hl] at h1
    | ok r =>
      obtain ⟨p, t⟩ := r
      simp only [hl] at h1 ⊢
      cases hr : limalloc_repeat fuel size k1 t with
      | error err => simp [hr] at h1
      | ok r2 =>
        obtain ⟨qs, t2⟩ := r2
        simp only [hr, Except.ok.injEq, Prod.mk.injEq] at h1
        obtain ⟨e1, e2⟩ := h1
        subst e1 e2
        rw [ih k2 t t2 s2 qs ps2 hr h2]
        rfl

theorem limalloc_repeat_one (fuel size : Nat) (s s1 : State) (p : Nat)
    (h : limalloc fuel s size = .ok (p, s1)) :
    limalloc_repeat fuel size 1 s = .ok ([p], s1) := by
  simp [limalloc_repeat, h]

theorem carving_repeat (fuel a i c n : Nat) : ∀ (k : Nat) (s : State) (X sz : Nat),
    Carving s a i c n X sz → (k + 1) * c < sz →
    ∃ s1, limalloc_repeat fuel n k s = .ok ((List.range k).map (fun j => X + j * c), s1) ∧
      Carving s1 a i c n (X + k * c) (sz - k * c) ∧
      s1.mmap_log = s.mmap_log ∧ s1.mmap_next = s.mmap_next ∧
      (s1.bucketAt (a, i)).page_head = (s.bucketAt (a, i)).page_head := by
  intro k
  induction k with
  | zero =>
    intro s X sz h _
    exact ⟨s, rfl, by simpa using h, rfl, rfl, rfl⟩
  | succ k ih =>
    intro s X sz h hsz
    have hmul : (k + 1 + 1) * c = (k + 1) * c + c := by ring
    obtain ⟨s1, h1, hc1, hl1, hn1, hp1⟩ := carving_shift fuel s a i c n X sz h (by
      have : c ≤ (k + 1) * c := Nat.le_mul_of_pos_left c (by omega)
      omega)
    obtain ⟨s2, h2, hc2, hl2, hn2, hp2⟩ := ih s1 (X + c) (sz - c) hc1 (by omega)
    refine ⟨s2, ?_, ?_, hl2.trans hl1, hn2.trans hn1, hp2.trans hp1⟩
    · simp only [limalloc_repeat, h1, h2, List.range_succ_eq_map, List.map_cons, List.map_map]
      congr 3
      · simp
      · apply List.map_congr_left
        intro j _
        simp only [Function.comp, Nat.succ_eq_add_one]
        ring
    · have e1 : X + c + k * c = X + (k + 1) * c := by ring
      have e2 : sz - c - k * c = sz - (k + 1) * c := by
        have : (k + 1) * c = k * c + c := by ring
        omega
      rw [e1, e2] at hc2
      exact hc2

theorem assign_arena_init (s : State) :
    __assign_arena (init_malloc s) =
      { init_malloc s with
        __arena := some 0
        arenas := fun x => if x = 0 then { (init_malloc s).arenas x with lock := true }
                           else (init_malloc s).arenas x } := by
  have hl := init_malloc_lock s 0 (by decide)
  simp [__assign_arena, ARENA_COUNT, assign_arena_loop, arena_trylock, hl]

theorem limalloc_first_run (fuel : Nat) (s : State) (n : Nat) (hrun : s.FISRT_RUN = true)
    (harena : s.__arena = none) :
    limalloc fuel s n = limalloc fuel (__assign_arena (init_malloc s)) n := by
  obtain ⟨f1, f2, _, _, _, _⟩ := init_malloc_frame s
  have h1 : (__assign_arena (init_malloc s)).FISRT_RUN = false := by
    rw [assign_arena_init]
    exact f1
  have h2 : (__assign_arena (init_malloc s)).__arena = some 0 := by
    rw [assign_arena_init]
  have h3 : (init_malloc s).__arena = none := f2.trans harena
  have h2n : ¬ ((__assign_arena (init_malloc s)).__arena = none) := by
    rw [h2]
    exact Option.some_ne_none 0
  simp only [limalloc, hrun, if_true, h3, h1, h2n, if_false, Bool.false_eq_true]

theorem fresh_exhausted (base n i : Nat) (hn : n ≠ 0) (hi1 : 1 ≤ i) (hi10 : i ≤ 10)
    (hsel : choose_bucket_loop (__assign_arena (init_malloc (fresh base))) 0
      (if n < CHUNK_SIZE then CHUNK_SIZE else n) 10 1 = i) :
    Exhausted (__assign_arena (init_malloc (fresh base))) 0 i (8 <<< i) n ∧
    (__assign_arena (init_malloc (fresh base))).mmap_log = [] ∧
    (__assign_arena (init_malloc (fresh base))).mmap_next = base ∧
    ((__assign_arena (init_malloc (fresh base))).bucketAt (0, i)).page_head = 0 := by
  obtain ⟨f1, f2, _, _, f5, f6⟩ := init_malloc_frame (fresh base)
  have hb : ((__assign_arena (init_malloc (fresh base))).bucketAt (0, i)) = ⟨0, 0, 0, 8 <<< i⟩ := by
    have h := init_malloc_bucketAt (fresh base) 0 i (by decide) (by unfold BUCKET_COUNT; omega)
    rw [assign_arena_init]
    simp only [State.bucketAt] at h ⊢
    simpa using h
  have hlo := shl_mono 1 i hi1
  have hhi := shl_mono i 10 hi10
  simp only [Nat.reduceShiftLeft] at hlo hhi
  refine ⟨⟨?_, ?_, hn, hsel, ?_, hlo, hhi, ?_, ?_, ?_⟩, ?_, ?_, ?_⟩
  · rw [assign_arena_init]
    exact f1
  · rw [assign_arena_init]
  · rw [hb]
  · rw [hb]
  · rw [hb]
  · rw [hb]
    exact Or.inl rfl
  · rw [assign_arena_init]
    exact f6
  · rw [assign_arena_init]
    exact f5
  · rw [hb]

theorem warm_chunk_size (base : Nat) (b : Nat) (hb : b < BUCKET_COUNT) :
    ((__assign_arena (init_malloc (fresh base))).bucketAt (0, b)).chunk_size = 8 <<< b := by
  have h := init_malloc_bucketAt (fresh base) 0 b (by decide) hb
  rw [assign_arena_init]
  simp only [State.bucketAt] at h ⊢
  simp [h]

theorem carved_pointers (p0 c : Nat) (K : Nat) :
    p0 :: ((List.range K).map (fun j => p0 + c + j * c) ++ [p0 + c + K * c]) =
      (List.range (K + 2)).map (fun k => p0 + k * c) := by
  have e : K + 2 = (K + 1) + 1 := rfl
  have h0 : p0 = p0 + 0 * c := by simp
  have hK : p0 + c + K * c = p0 + (K + 1) * c := by ring
  have hmap : (List.range K).map (fun j => p0 + c + j * c) =
      (List.range K).map ((fun k => p0 + k * c) ∘ Nat.succ) := by
    apply List.map_congr_left
    intro j _
    show p0 + c + j * c = p0 + (j + 1) * c
    ring
  rw [e, List.range_succ_eq_map, List.range_succ, List.map_cons, List.map_map, List.map_append,
    List.map_singleton, hmap, hK, ← h0]
  rfl

theorem slab16_run (fuel base : Nat) :
    ∃ s, limalloc_repeat fuel 16 65535 (fresh base) =
        .ok ((List.range 65535).map (fun k => base + 8 + k * 16), s) ∧
      Exhausted s 0 1 16 16 ∧ s.mmap_log = [(base, MEM_PAGE_SIZE)] ∧
      s.mmap_next = base + MEM_PAGE_SIZE := by
  have hsel : choose_bucket_loop (__assign_arena (init_malloc (fresh base))) 0
      (if 16 < CHUNK_SIZE then CHUNK_SIZE else 16) 10 1 = 1 := by
    rw [choose_bucket_loop_init _ _ _ (warm_chunk_size base)]
    decide
  obtain ⟨hex, hlog, hnext, hph⟩ := fresh_exhausted base 16 1 (by decide) (by decide) (by decide) hsel
  obtain ⟨s1, h1, hc1, hl1, hn1, hp1⟩ := exhausted_new_page fuel _ 0 1 _ 16 hex
  rw [hnext] at h1 hc1 hl1 hn1 hp1
  rw [hlog] at hl1
  rw [hph] at hp1
  simp only [Nat.reduceShiftLeft, if_true, List.nil_append, Nat.reduceSub] at h1 hc1 hl1 hn1 hp1
  rw [← limalloc_first_run fuel (fresh base) 16 rfl rfl] at h1
  obtain ⟨s2, h2, hc2, hl2, hn2, hp2⟩ :=
    carving_repeat fuel 0 1 16 16 65533 s1 (base + 8 + 16) 1048552 hc1 (by norm_num)
  simp only [Nat.reduceMul, Nat.reduceSub] at hc2
  obtain ⟨s3, h3, hc3, hl3, hn3, hm3, hp3⟩ :=
    carving_drop fuel s2 0 1 16 16 _ 24 hc2 (by norm_num) (by norm_num) (by
      right
      rw [hp2, hp1, hn2, hn1]
      unfold MEM_PAGE_SIZE
      omega)
  have hrun := limalloc_repeat_append fuel 16 1 (65533 + 1) (fresh base) s1 s3 _ _
    (limalloc_repeat_one fuel 16 _ _ _ h1)
    (limalloc_repeat_append fuel 16 65533 1 s1 s2 s3 _ _ h2 (limalloc_repeat_one fuel 16 _ _ _ h3))
  refine ⟨s3, ?_, hc3, ?_, ?_⟩
  · have e := carved_pointers (base + 8) 16 65533
    have e2 : base + 8 + 16 + 65533 * 16 = base + 8 + 16 + 1048528 := by norm_num
    simp only [List.singleton_append] at hrun
    rw [e2] at e
    rw [e] at hrun
    exact hrun
  · rw [hl3, hl2, hl1]
  · rw [hn3, hn2, hn1]

/-- C9 (amended): from the fresh state, 65535 consecutive calls `limalloc(16)`
return the chunks `base + sizeof(page) + 16 k`, `k = 0 .. 65534`, of one slab:
the page source has been asked for exactly one mapping of 1 MiB.  The next call
maps a second slab. -/
theorem slab_serves_65535_chunks (fuel base : Nat) :
    ∃ s, limalloc_repeat fuel 16 65535 (fresh base) =
        .ok ((List.range 65535).map (fun k => base + SIZEOF_PAGE + k * 16), s) ∧
      s.mmap_log = [(base, MEM_PAGE_SIZE)] ∧
      ∃ s1, limalloc fuel s 16 = .ok (base + MEM_PAGE_SIZE + SIZEOF_PAGE, s1) ∧
        s1.mmap_log = [(base, MEM_PAGE_SIZE), (base + MEM_PAGE_SIZE, MEM_PAGE_SIZE)] := by
  obtain ⟨s, hrun, hex, hlog, hnext⟩ := slab16_run fuel base
  obtain ⟨s1, h1, _, hl1, _, _⟩ := exhausted_new_page fuel s 0 1 16 16 hex
  rw [hnext] at h1
  rw [hlog, hnext] at hl1
  exact ⟨s, hrun, hlog, s1, h1, hl1⟩

/-- C9 (as stated, refuted): from the fresh state, 65536 consecutive calls
`limalloc(16)` make the page source map two slabs of 1 MiB, not one; the slab
holds `(1048576 - sizeof(page)) / 16 = 65535` chunks. -/
theorem slab_reuse_65536_maps_two_slabs :
    ∃ ps s, limalloc_repeat 0 16 65536 (fresh base0) = .ok (ps, s) ∧ ps.length = 65536 ∧
      s.mmap_log = [(base0, MEM_PAGE_SIZE), (base0 + MEM_PAGE_SIZE, MEM_PAGE_SIZE)] ∧
      s.mmap_log.length ≠ 1 ∧ (MEM_PAGE_SIZE - SIZEOF_PAGE) / 16 = 65535 := by
  obtain ⟨s, hrun, hex, hlog, hnext⟩ := slab16_run 0 base0
  obtain ⟨s1, h1, _, hl1, _, _⟩ := exhausted_new_page 0 s 0 1 16 16 hex
  rw [hlog, hnext] at hl1
  have h := limalloc_repeat_append 0 16 65535 1 (fresh base0) s s1 _ _ hrun
    (limalloc_repeat_one 0 16 _ _ _ h1)
  refine ⟨_, s1, h, ?_, hl1, ?_, by decide⟩
  · simp
  · rw [hl1]
    decide

/-! ## Theorems: what each operation leaves of the binding and the locks -/

theorem SameBinding.refl (s : State) : SameBinding s s := ⟨rfl, rfl, fun _ => rfl⟩

theorem SameBinding.trans {s t u : State} (h1 : SameBinding s t) (h2 : SameBinding t u) :
    SameBinding s u :=
  ⟨h2.1.trans h1.1, h2.2.1.trans h1.2.1, fun x => (h2.2.2 x).trans (h1.2.2 x)⟩

theorem sameBinding_setBucket (s : State) (ab : Nat × Nat) (b : bucket) :
    SameBinding s (s.setBucket ab b) := by
  refine ⟨rfl, rfl, fun x => ?_⟩
  simp only [State.setBucket]
  split <;> rfl

theorem sameBinding_mem {s t : State} (h : SameBinding s t) (m : Mem) :
    SameBinding s { t with mem := m } := h

theorem block_slice_binding (s t : State) (p : Nat) (h : block_slice s = .ok (p, t)) :
    SameBinding s t := by
  unfold block_slice at h
  split at h
  · cases h
  · cases h
  · simp only at h
    split at h
    · cases h
    · split at h
      · cases h
        exact sameBinding_setBucket _ _ _
      · split at h
        · cases h
          exact sameBinding_setBucket _ _ _
        · cases h
          exact sameBinding_mem (sameBinding_setBucket _ _ _) _

theorem pop_chunk_binding (s t : State) (p : Nat) (h : pop_chunk s = .ok (p, t)) :
    SameBinding s t := by
  unfold pop_chunk at h
  split at h
  · cases h
  · cases h
  · simp only at h
    split at h
    · cases h
      exact sameBinding_setBucket _ _ _
    · split at h
      · exact block_slice_binding _ _ _ h
      · cases h
        exact SameBinding.refl _

theorem sameBinding_mmap (s : State) (len : Nat) : SameBinding s (mmap s len).2 :=
  ⟨rfl, rfl, fun _ => rfl⟩

theorem allocate_page_binding (s t : State) (p : Nat) (h : allocate_page s = .ok (p, t)) :
    SameBinding s t := by
  unfold allocate_page at h
  split at h
  · cases h
  · cases h
  · simp only at h
    split at h
    · cases h
    · refine SameBinding.trans ?_ (block_slice_binding _ _ _ h)
      refine ⟨?_, ?_, fun x => ?_⟩
      · split <;> split <;> rfl
      · split <;> split <;> rfl
      · split <;> split <;> simp only [State.setBucket, mmap] <;> split <;> rfl

theorem pop_big_block_binding (fuel : Nat) (s t : State) (size p : Nat)
    (h : pop_big_block fuel s size = .ok (p, t)) : SameBinding s t := by
  unfold pop_big_block at h
  split at h
  · cases h
  · split at h
    · cases h
    · cases h
    · simp only at h
      split at h
      · cases h
        exact SameBinding.refl _
      · split at h
        · cases h
          exact sameBinding_setBucket _ _ _
        · split at h
          · cases h
          · split at h
            · cases h
            · split at h
              · cases h
                exact ⟨rfl, rfl, fun _ => rfl⟩
              · cases h
                exact SameBinding.refl _

theorem allocate_big_block_binding (s t : State) (size p : Nat)
    (h : allocate_big_block s size = .ok (p, t)) : SameBinding s t := by
  unfold allocate_big_block at h
  split at h
  · cases h
  · simp only at h
    split at h
    · cases h
    · cases h
      exact ⟨rfl, rfl, fun _ => rfl⟩

theorem get_chunk_binding (fuel : Nat) (s t : State) (size p : Nat)
    (h : get_chunk fuel s size = .ok (p, t)) : SameBinding s t := by
  unfold get_chunk at h
  split at h
  · cases h
  · cases h
  · split at h
    · cases h
    · split at h
      · split at h
        · cases h
        · rename_i ptr s1 hpop
          split at h
          · exact (pop_big_block_binding _ _ _ _ _ hpop).trans (allocate_big_block_binding _ _ _ _ h)
          · cases h
            exact pop_big_block_binding _ _ _ _ _ hpop
      · split at h
        · cases h
        · rename_i ptr s1 hpop
          split at h
          · exact (pop_chunk_binding _ _ _ hpop).trans (allocate_page_binding _ _ _ h)
          · cases h
            exact pop_chunk_binding _ _ _ hpop

theorem choose_bucket_binding (s t : State) (size : Nat) (h : __choose_bucket s size = .ok t) :
    SameBinding s t := by
  unfold __choose_bucket at h
  split at h
  · cases h
  · split at h
    · cases h
    · cases h
      exact ⟨rfl, rfl, fun _ => rfl⟩

theorem find_bucket_binding (fuel : Nat) (s t : State) (ptr : Nat)
    (h : __find_bucket fuel s ptr = .ok t) : SameBinding s t := by
  unfold __find_bucket at h
  split at h
  · cases h
  · split at h
    · cases h
    · cases h
      exact ⟨rfl, rfl, fun _ => rfl⟩

theorem free_chunk_binding (s t : State) (ptr : Nat) (h : free_chunk s ptr = .ok t) :
    SameBinding s t := by
  unfold free_chunk at h
  split at h
  · cases h
  · split at h
    · cases h
    · cases h
    · simp only at h
      split at h
      · cases h
        exact (sameBinding_setBucket { s with mem := _ } _ _)
      · cases h
        exact (sameBinding_setBucket { s with mem := _ } _ _)

theorem lifree_binding (fuel : Nat) (s t : State) (ptr : Nat) (h : lifree fuel s ptr = .ok t) :
    SameBinding s t := by
  unfold lifree at h
  split at h
  · cases h
  · split at h
    · cases h
    · split at h
      · cases h
      · split at h
        · cases h
        · rename_i s1 hf
          exact (find_bucket_binding _ _ _ _ hf).trans (free_chunk_binding _ _ _ h)

theorem assign_arena_loop_flag : ∀ (n aa : Nat) (s : State),
    (assign_arena_loop n aa s).FISRT_RUN = s.FISRT_RUN := by
  intro n
  induction n with
  | zero => intro aa s; rfl
  | succ n ih =>
    intro aa s
    simp only [assign_arena_loop, arena_trylock]
    split
    · rename_i b s1 heq
      split at heq
      · cases heq
      · cases heq
        rfl
    · rename_i b s1 heq
      split at heq
      · cases heq
        exact ih _ _
      · cases heq

theorem assign_arena_loop_take : ∀ (n aa : Nat) (s : State) (a : Nat),
    aa ≤ a → a < aa + n → (s.arenas a).lock = false →
    (∀ x, aa ≤ x → x < a → (s.arenas x).lock = true) →
    assign_arena_loop n aa s =
      { s with
        __arena := some a
        arenas := fun x => if x = a then { s.arenas x with lock := true } else s.arenas x } := by
  intro n
  induction n with
  | zero => intro aa s a h1 h2; omega
  | succ n ih =>
    intro aa s a h1 h2 hfree hheld
    by_cases haa : aa = a
    · subst haa
      simp [assign_arena_loop, arena_trylock, hfree]
    · have hl : (s.arenas aa).lock = true := hheld aa (le_refl _) (by omega)
      simp only [assign_arena_loop, arena_trylock, hl, if_true]
      exact ih (aa + 1) s a (by omega) (by omega) hfree (fun x hx1 hx2 => hheld x (by omega) hx2)

theorem assign_arena_loop_none : ∀ (n aa : Nat) (s : State),
    (∀ x, aa ≤ x → x < aa + n → (s.arenas x).lock = true) →
    assign_arena_loop n aa s = s := by
  intro n
  induction n with
  | zero => intro aa s _; rfl
  | succ n ih =>
    intro aa s hheld
    have hl : (s.arenas aa).lock = true := hheld aa (le_refl _) (by omega)
    simp only [assign_arena_loop, arena_trylock, hl, if_true]
    exact ih (aa + 1) s (fun x hx1 hx2 => hheld x (by omega) (by omega))

theorem ite_prop {α : Type} (P : α → Prop) {c : Prop} [Decidable c] {x y : α}
    (hx : c → P x) (hy : ¬ c → P y) : P (if c then x else y) := by
  split
  · exact hx (by assumption)
  · exact hy (by assumption)

theorem limalloc_unfold (fuel : Nat) (s : State) (n : Nat) (hn : n ≠ 0) :
    limalloc fuel s n =
      if (if (if s.FISRT_RUN then init_malloc s else s).__arena = none
            then __assign_arena (if s.FISRT_RUN then init_malloc s else s)
            else (if s.FISRT_RUN then init_malloc s else s)).__arena = none
      then .error .assertion
      else
        match __choose_bucket
            (if (if s.FISRT_RUN then init_malloc s else s).__arena = none
              then __assign_arena (if s.FISRT_RUN then init_malloc s else s)
              else (if s.FISRT_RUN then init_malloc s else s))
            (if n < CHUNK_SIZE then CHUNK_SIZE else n) with
        | .error e => .error e
        | .ok s3 =>
          if s3.__bucket = none then .error .assertion
          else get_chunk fuel s3 (if n < CHUNK_SIZE then CHUNK_SIZE else n) := by
  unfold limalloc
  rw [if_neg hn]

theorem limalloc_tail_binding (fuel : Nat) (s2 t : State) (n1 p : Nat)
    (h : (if s2.__arena = none then (Except.error Fault.assertion : Except Fault (Nat × State))
      else
        match __choose_bucket s2 n1 with
        | .error e => .error e
        | .ok s3 =>
          if s3.__bucket = none then .error .assertion
          else get_chunk fuel s3 n1) = .ok (p, t)) :
    SameBinding s2 t := by
  split at h
  · cases h
  · split at h
    · cases h
    · rename_i s3 hc
      split at h
      · cases h
      · exact (choose_bucket_binding _ _ _ hc).trans (get_chunk_binding _ _ _ _ _ h)

theorem limalloc_flag (fuel : Nat) (s t : State) (n p : Nat) (h : limalloc fuel s n = .ok (p, t)) :
    t.FISRT_RUN = false := by
  by_cases hn : n = 0
  · simp [limalloc, hn] at h
  · rw [limalloc_unfold fuel s n hn] at h
    have hb := limalloc_tail_binding fuel _ t _ p h
    rw [hb.1]
    apply ite_prop (fun x : State => x.FISRT_RUN = false)
    · intro _
      unfold __assign_arena
      rw [assign_arena_loop_flag]
      apply ite_prop (fun x : State => x.FISRT_RUN = false)
      · intro _
        exact (init_malloc_frame s).1
      · intro hf
        simpa using hf
    · intro _
      apply ite_prop (fun x : State => x.FISRT_RUN = false)
      · intro _
        exact (init_malloc_frame s).1
      · intro hf
        simpa using hf

theorem limalloc_keeps_arena (fuel : Nat) (s t : State) (n p a : Nat) (ha : s.__arena = some a)
    (h : limalloc fuel s n = .ok (p, t)) : t.__arena = some a := by
  by_cases hn : n = 0
  · simp [limalloc, hn] at h
  · rw [limalloc_unfold fuel s n hn] at h
    have hb := limalloc_tail_binding fuel _ t _ p h
    rw [hb.2.1]
    have hs1 : (if s.FISRT_RUN = true then init_malloc s else s).__arena = some a := by
      split
      · exact (init_malloc_frame s).2.1.trans ha
      · exact ha
    have hne : ¬ ((if s.FISRT_RUN = true then init_malloc s else s).__arena = none) := by
      rw [hs1]
      exact Option.some_ne_none a
    rw [if_neg hne]
    exact hs1

theorem limalloc_bound_binding (fuel : Nat) (s t : State) (n p a : Nat) (hrun : s.FISRT_RUN = false)
    (ha : s.__arena = some a) (h : limalloc fuel s n = .ok (p, t)) : SameBinding s t := by
  by_cases hn : n = 0
  · simp [limalloc, hn] at h
  · rw [limalloc_warm fuel s n a hrun ha hn] at h
    have hb := get_chunk_binding _ _ _ _ _ h
    exact ⟨hb.1, hb.2.1, hb.2.2⟩

theorem lirealloc_binding (fuel : Nat) (s t : State) (ptr n q : Nat) (hrun : s.FISRT_RUN = false)
    (h : lirealloc fuel s ptr n = .ok (q, t)) : SameBinding s t := by
  unfold lirealloc at h
  split at h
  · cases h
  · split at h
    · cases h
    · split at h
      · cases h
      · rename_i s1 hf
        have hb1 := find_bucket_binding _ _ _ _ hf
        have harena : ∃ a, s1.__arena = some a := by
          unfold __find_bucket at hf
          split at hf
          · cases hf
          · rename_i a ha
            exact ⟨a, hb1.2.1.trans ha⟩
        obtain ⟨a, ha⟩ := harena
        split at h
        · cases h
        · rename_i ab hab
          simp only at h
          generalize (if (s1.bucketAt ab).chunk_size = 0 then load64 s1.mem (ptr - OVERHEAD_SIZE)
            else (s1.bucketAt ab).chunk_size) = prev_size at h
          split at h
          · cases h
            exact hb1
          · split at h
            · cases h
            · rename_i new_ptr s2 hm
              have hb2 := limalloc_bound_binding fuel s1 s2 _ _ a (hb1.1.trans hrun) ha hm
              have hb4 : SameBinding s1 { s2 with mem := memcpy s2.mem ptr new_ptr prev_size } := hb2
              split at h
              · cases h
              · rename_i s4 hfree
                have hb3 := lifree_binding _ _ _ _ hfree
                cases h
                exact hb1.trans (hb4.trans hb3)

/-! ## Theorems: initialisation runs once -/

theorem State.eq_of_fields {s t : State} (h1 : s.FISRT_RUN = t.FISRT_RUN) (h2 : s.__arena = t.__arena)
    (h3 : s.__bucket = t.__bucket) (h4 : s.arenas = t.arenas) (h5 : s.mem = t.mem)
    (h6 : s.mmap_next = t.mmap_next) (h7 : s.mmap_log = t.mmap_log) : s = t := by
  cases s
  cases t
  simp_all

theorem arena_eq_of_fields {x y : arena} (h1 : x.lock = y.lock) (h2 : x.buckets = y.buckets) :
    x = y := by
  cases x
  cases y
  simp_all

theorem init_malloc_arenas (s : State) (x : Nat) :
    (init_malloc s).arenas x =
      if x < ARENA_COUNT then
        { lock := false
          buckets := fun b => if b < BUCKET_COUNT then ⟨0, 0, 0, toSizeT (8 <<< b : Nat)⟩
                              else (s.arenas x).buckets b }
      else s.arenas x := by
  have h := init_arenas_arena ARENA_COUNT 0 s x
  simp only [Nat.zero_le, true_and, Nat.zero_add] at h
  unfold init_malloc
  exact h

theorem init_malloc_idem (s : State) : init_malloc (init_malloc s) = init_malloc s := by
  obtain ⟨a1, a2, a3, a4, a5, a6⟩ := init_malloc_frame (init_malloc s)
  obtain ⟨b1, _, _, _, _, _⟩ := init_malloc_frame s
  refine State.eq_of_fields (a1.trans b1.symm) a2 a3 ?_ a4 a5 a6
  funext x
  rw [init_malloc_arenas (init_malloc s) x, init_malloc_arenas s x]
  split
  · apply arena_eq_of_fields
    · rfl
    · funext b
      by_cases hb : b < BUCKET_COUNT <;> simp [hb]
  · rfl

theorem fresh_limalloc16 (fuel base : Nat) :
    ∃ t, limalloc fuel (fresh base) 16 = .ok (base + 8, t) := by
  have hsel : choose_bucket_loop (__assign_arena (init_malloc (fresh base))) 0
      (if 16 < CHUNK_SIZE then CHUNK_SIZE else 16) 10 1 = 1 := by
    rw [choose_bucket_loop_init _ _ _ (warm_chunk_size base)]
    decide
  obtain ⟨hex, _, hnext, _⟩ := fresh_exhausted base 16 1 (by decide) (by decide) (by decide) hsel
  obtain ⟨s1, h1, _⟩ := exhausted_new_page fuel _ 0 1 _ 16 hex
  rw [hnext, ← limalloc_first_run fuel (fresh base) 16 rfl rfl] at h1
  exact ⟨s1, h1⟩

/-- C11: `init_malloc` run twice gives the state `init_malloc` run once gives
(every arena and bucket field and the first-run flag); when a call of `limalloc`
returns, the flag `FISRT_RUN` is cleared, and from any state with the flag
cleared `limalloc` skips the initialiser and every public call returns with the
flag still cleared. -/
theorem init_malloc_idempotent_and_run_once (fuel : Nat) (s t : State) (n p : Nat)
    (h : limalloc fuel s n = .ok (p, t)) :
    init_malloc (init_malloc s) = init_malloc s ∧
    (init_malloc (init_malloc s)).FISRT_RUN = false ∧
    t.FISRT_RUN = false ∧
    (if t.FISRT_RUN then init_malloc t else t) = t ∧
    ∀ u : State, u.FISRT_RUN = false →
      (∀ fuel1 n1 p1 u1, limalloc fuel1 u n1 = .ok (p1, u1) → u1.FISRT_RUN = false) ∧
      (∀ fuel1 p1 u1, lifree fuel1 u p1 = .ok u1 → u1.FISRT_RUN = false) ∧
      (∀ fuel1 p1 n1 q1 u1, lirealloc fuel1 u p1 n1 = .ok (q1, u1) → u1.FISRT_RUN = false) := by
  have ht := limalloc_flag fuel s t n p h
  refine ⟨init_malloc_idem s, (init_malloc_frame (init_malloc s)).1, ht, ?_, ?_⟩
  · rw [ht]
    rfl
  · intro u hu
    refine ⟨?_, ?_, ?_⟩
    · intro fuel1 n1 p1 u1 h1
      exact limalloc_flag fuel1 u u1 n1 p1 h1
    · intro fuel1 p1 u1 h1
      exact (lifree_binding fuel1 u u1 p1 h1).1.trans hu
    · intro fuel1 p1 n1 q1 u1 h1
      exact (lirealloc_binding fuel1 u u1 p1 n1 q1 hu h1).1.trans hu

/-- C11 witness: the first call `limalloc(16)` on the fresh state. -/
theorem init_malloc_idempotent_and_run_once_witness :
    ∃ t, limalloc 0 (fresh base0) 16 = .ok (base0 + 8, t) ∧
      init_malloc (init_malloc (fresh base0)) = init_malloc (fresh base0) ∧
      t.FISRT_RUN = false := by
  obtain ⟨t, h⟩ := fresh_limalloc16 0 base0
  have hw := init_malloc_idempotent_and_run_once 0 (fresh base0) t 16 (base0 + 8) h
  exact ⟨t, h, hw.1, hw.2.2.1⟩

/-- C20 (amended): for a thread whose arena slot is null, `lifree(p)` and
`lirealloc(p, n)` halt on an assertion (`__arena != NULL`, in `lifree` itself and
in `__find_bucket`): they do not bind an arena. -/
theorem free_and_realloc_halt_when_unbound (fuel : Nat) (s : State) (p n : Nat)
    (h : s.__arena = none) :
    lifree fuel s p = .error .assertion ∧ lirealloc fuel s p n = .error .assertion := by
  constructor
  · unfold lifree
    split
    · rfl
    · simp only [h, if_true]
  · unfold lirealloc
    split
    · rfl
    · split
      · rfl
      · simp only [__find_bucket, h]

/-- C20 witness: the fresh state, whose arena slot is null, and a non-null pointer. -/
theorem free_and_realloc_halt_when_unbound_witness :
    (fresh base0).__arena = none ∧
    lifree 8 (fresh base0) 4096 = .error .assertion ∧
    lirealloc 8 (fresh base0) 4096 16 = .error .assertion :=
  ⟨rfl, free_and_realloc_halt_when_unbound 8 (fresh base0) 4096 16 rfl⟩

/-- C20 (as stated, refuted): called first by a thread with a null arena slot on
the non-null pointer 4096, `lifree` and `lirealloc` halt instead of binding an
arena and proceeding. -/
theorem free_and_realloc_do_not_bind :
    (fresh base0).__arena = none ∧ (4096 : Nat) ≠ 0 ∧
    (lifree 8 (fresh base0) 4096).toOption.isNone = true ∧
    (lirealloc 8 (fresh base0) 4096 16).toOption.isNone = true ∧
    lifree 8 (fresh base0) 4096 = .error .assertion ∧
    lirealloc 8 (fresh base0) 4096 16 = .error .assertion := by
  refine ⟨rfl, by decide, by decide!, by decide!, ?_, ?_⟩
  · rfl
  · rfl

/-! ## Theorems: arena assignment and the lock -/

theorem assign_arena_loop_result : ∀ (n aa : Nat) (s : State),
    assign_arena_loop n aa s = s ∨
    ∃ a, (s.arenas a).lock = false ∧ assign_arena_loop n aa s =
      { s with
        __arena := some a
        arenas := fun x => if x = a then { s.arenas x with lock := true } else s.arenas x } := by
  intro n
  induction n with
  | zero => intro aa s; exact Or.inl rfl
  | succ n ih =>
    intro aa s
    by_cases hl : (s.arenas aa).lock = true
    · simp only [assign_arena_loop, arena_trylock, hl, if_true]
      exact ih (aa + 1) s
    · have hl2 : (s.arenas aa).lock = false := by simpa using hl
      right
      refine ⟨aa, hl2, ?_⟩
      simp [assign_arena_loop, arena_trylock, hl2]

theorem limalloc_unbound_holds_lock (fuel : Nat) (s t : State) (n p : Nat) (hs : s.__arena = none)
    (h : limalloc fuel s n = .ok (p, t)) :
    ∃ a, t.__arena = some a ∧ (t.arenas a).lock = true := by
  by_cases hn : n = 0
  · simp [limalloc, hn] at h
  · rw [limalloc_unfold fuel s n hn] at h
    have hb := limalloc_tail_binding fuel _ t _ p h
    have hs1 : (if s.FISRT_RUN = true then init_malloc s else s).__arena = none := by
      apply ite_prop (fun x : State => x.__arena = none)
      · intro _
        exact (init_malloc_frame s).2.1.trans hs
      · intro _
        exact hs
    rw [if_pos hs1] at h hb
    generalize (if s.FISRT_RUN = true then init_malloc s else s) = s1 at h hb hs1
    rcases assign_arena_loop_result ARENA_COUNT 0 s1 with he | ⟨a, _, he⟩
    · unfold __assign_arena at h
      rw [he, if_pos hs1] at h
      cases h
    · unfold __assign_arena at hb
      rw [he] at hb
      refine ⟨a, hb.2.1, ?_⟩
      rw [hb.2.2 a]
      simp

/-- C18: `__assign_arena` binds the thread to the lowest-index arena in 0..7
whose mutex is free, marks that mutex held and changes nothing else; when all
eight are held it changes nothing, the arena slot of an unbound thread stays
null and `limalloc` (past its first run) halts on the assertion; and a call of
`limalloc` by a bound thread returns with the same arena bound. -/
theorem assign_arena_binds_lowest_free (s : State) :
    (∀ a, a < ARENA_COUNT → (s.arenas a).lock = false → (∀ x, x < a → (s.arenas x).lock = true) →
      __assign_arena s =
        { s with
          __arena := some a
          arenas := fun x => if x = a then { s.arenas x with lock := true } else s.arenas x }) ∧
    ((∀ x, x < ARENA_COUNT → (s.arenas x).lock = true) →
      __assign_arena s = s ∧
      (s.__arena = none → s.FISRT_RUN = false → ∀ fuel n, limalloc fuel s n = .error .assertion)) ∧
    (∀ a fuel n p t, s.__arena = some a → limalloc fuel s n = .ok (p, t) → t.__arena = some a) := by
  refine ⟨?_, ?_, ?_⟩
  · intro a ha hfree hheld
    exact assign_arena_loop_take ARENA_COUNT 0 s a (Nat.zero_le _) (by omega) hfree
      (fun x _ hx => hheld x hx)
  · intro hall
    have he : __assign_arena s = s :=
      assign_arena_loop_none ARENA_COUNT 0 s (fun x _ hx => hall x (by omega))
    refine ⟨he, ?_⟩
    intro hnone hrun fuel n
    by_cases hn : n = 0
    · simp [limalloc, hn]
    · rw [limalloc_unfold fuel s n hn]
      simp only [hrun, Bool.false_eq_true, if_false, hnone, if_true, he]
  · intro a fuel n p t ha h
    exact limalloc_keeps_arena fuel s t n p a ha h

/-- C18 witness: after `init_malloc` on the fresh state every mutex is free, so
the thread is bound to arena 0. -/
theorem assign_arena_binds_lowest_free_witness :
    0 < ARENA_COUNT ∧ ((init_malloc (fresh base0)).arenas 0).lock = false ∧
    __assign_arena (init_malloc (fresh base0)) =
      { init_malloc (fresh base0) with
        __arena := some 0
        arenas := fun x => if x = 0 then { (init_malloc (fresh base0)).arenas x with lock := true }
                           else (init_malloc (fresh base0)).arenas x } :=
  ⟨by decide, init_malloc_lock (fresh base0) 0 (by decide),
    (assign_arena_binds_lowest_free (init_malloc (fresh base0))).1 0 (by decide)
      (init_malloc_lock (fresh base0) 0 (by decide)) (fun x hx => absurd hx (Nat.not_lt_zero x))⟩

/-- C19 (amended): the mutex taken when a thread is bound is kept: when
`limalloc` returns to a thread that entered unbound, the thread is bound to an
arena whose mutex is held; and `limalloc` called by a bound thread past the
first run, `lifree` and `lirealloc` return with the first-run flag, the bound
arena and every arena's mutex flag as they were before the call. -/
theorem public_calls_keep_the_lock (s : State) :
    (∀ fuel n p t, s.__arena = none → limalloc fuel s n = .ok (p, t) →
      ∃ a, t.__arena = some a ∧ (t.arenas a).lock = true) ∧
    (∀ fuel n p t a, s.FISRT_RUN = false → s.__arena = some a → limalloc fuel s n = .ok (p, t) →
      SameBinding s t) ∧
    (∀ fuel p t, lifree fuel s p = .ok t → SameBinding s t) ∧
    (∀ fuel p n q t, s.FISRT_RUN = false → lirealloc fuel s p n = .ok (q, t) → SameBinding s t) := by
  refine ⟨?_, ?_, ?_, ?_⟩
  · intro fuel n p t hs h
    exact limalloc_unbound_holds_lock fuel s t n p hs h
  · intro fuel n p t a hrun ha h
    exact limalloc_bound_binding fuel s t n p a hrun ha h
  · intro fuel p t h
    exact lifree_binding fuel s t p h
  · intro fuel p n q t hrun h
    exact lirealloc_binding fuel s t p n q hrun h

/-- C19 witness: the first call `limalloc(16)` on the fresh state returns with
the thread bound to an arena whose mutex is held. -/
theorem public_calls_keep_the_lock_witness :
    (fresh base0).__arena = none ∧
    ∃ t, limalloc 0 (fresh base0) 16 = .ok (base0 + 8, t) ∧
      ∃ a, t.__arena = some a ∧ (t.arenas a).lock = true := by
  obtain ⟨t, h⟩ := fresh_limalloc16 0 base0
  exact ⟨rfl, t, h, (public_calls_keep_the_lock (fresh base0)).1 0 16 (base0 + 8) t rfl h⟩

/-- C19 (as stated, refuted): from the fresh state, after `p = limalloc(40)`
returns the thread is bound to arena 0 and the mutex of arena 0 is held, and it
is still held after `q = lirealloc(p, 200)` returns and after `lifree(q)` returns. -/
theorem lock_is_not_released :
    (do let (p, s1) ← limalloc 0 (fresh base0) 40
        let (q, s2) ← lirealloc 8 s1 p 200
        let s3 ← lifree 8 s2 q
        pure [(s1.__arena, (s1.arenas 0).lock), (s2.__arena, (s2.arenas 0).lock),
          (s3.__arena, (s3.arenas 0).lock)]
          : Except Fault (List (Option Nat × Bool))) =
      .ok [(some 0, true), (some 0, true), (some 0, true)] := by
  decide!

/-! ## Theorems: slicing a block -/

theorem block_slice_equal (t : State) (a : Nat) (ab : Nat × Nat) (c X sz : Nat)
    (harena : t.__arena = some a) (hb : t.__bucket = some ab)
    (hX : (t.bucketAt ab).block_head = X) (hX0 : X ≠ 0)
    (hc : (t.bucketAt ab).chunk_size = c) (hsz : load64 t.mem X = sz)
    (hcl : c < 2147483648) (hszl : sz < 2147483648) (heq : sz = 2 * c) :
    block_slice t =
      .ok (X, t.setBucket ab
        { t.bucketAt ab with block_head := load64 t.mem (X + 8), chunk_head := X + c }) := by
  have h1 : ¬ ((sz : Int) - (c : Int) < (c : Int)) := by omega
  have h2 : (sz : Int) - (c : Int) = (c : Int) := by omega
  simp only [block_slice, harena, hb, hX, hX0, if_false, hc, hsz, toInt32_of_lt sz hszl,
    toInt32_of_lt c hcl, toInt32_sub sz c hszl hcl, h1, h2, ptrAdd_nat, if_true, lt_self_iff_false]

/-- C12: `block_slice` on a bucket whose block list starts with the block `old`
of size `sz`, with `c = chunk_size` and `r = sz - c` (both sizes within `int`
range): it returns `old`; if `r < c` then `block_head` becomes `old.next`; if
`r = c` then `block_head` becomes `old.next` and `chunk_head` becomes `old + c`;
if `r > c` then `block_head` becomes `old + c` and the size word stored at
`old + c` is `r`. -/
theorem block_slice_case_analysis (s : State) (a : Nat) (ab : Nat × Nat) (old sz c : Nat)
    (harena : s.__arena = some a) (hb : s.__bucket = some ab)
    (hold : (s.bucketAt ab).block_head = old) (hold0 : old ≠ 0)
    (hc : (s.bucketAt ab).chunk_size = c) (hsz : load64 s.mem old = sz)
    (hcl : c < 2147483648) (hszl : sz < 2147483648) :
    ∃ t, block_slice s = .ok (old, t) ∧
      ((sz : Int) - (c : Int) < (c : Int) →
        (t.bucketAt ab).block_head = load64 s.mem (old + 8)) ∧
      ((sz : Int) - (c : Int) = (c : Int) →
        (t.bucketAt ab).block_head = load64 s.mem (old + 8) ∧ (t.bucketAt ab).chunk_head = old + c) ∧
      ((sz : Int) - (c : Int) > (c : Int) →
        (t.bucketAt ab).block_head = old + c ∧ ((load64 t.mem (old + c) : Nat) : Int) = (sz : Int) - (c : Int)) := by
  rcases Nat.lt_trichotomy sz (2 * c) with h | h | h
  · refine ⟨_, block_slice_drop s a ab c old sz harena hb hold hold0 hc hsz hcl hszl h, ?_, ?_, ?_⟩
    · intro _
      rw [bucketAt_setBucket_same]
    · intro h2
      omega
    · intro h2
      omega
  · refine ⟨_, block_slice_equal s a ab c old sz harena hb hold hold0 hc hsz hcl hszl h, ?_, ?_, ?_⟩
    · intro h2
      omega
    · intro _
      rw [bucketAt_setBucket_same]
      exact ⟨rfl, rfl⟩
    · intro h2
      omega
  · refine ⟨_, block_slice_shift s a ab c old sz harena hb hold hold0 hc hsz hcl hszl h, ?_, ?_, ?_⟩
    · intro h2
      omega
    · intro h2
      omega
    · intro _
      refine ⟨?_, ?_⟩
      · show ((s.setBucket ab _).bucketAt ab).block_head = old + c
        rw [bucketAt_setBucket_same]
      · show ((load64 (store64 s.mem (old + c) (sz - c)) (old + c) : Nat) : Int) = _
        rw [load64_store64_same _ _ _ (by omega)]
        omega

/-- C12 witness: the state after `limalloc(40)` on the fresh state, where bucket 3
(chunk size 64) has the rest of its slab as its one block. -/
theorem block_slice_case_analysis_witness :
    ∃ t, block_slice state_after_limalloc_40 = .ok (base0 + 72, t) ∧
      ((1048504 : Int) - (64 : Int) < (64 : Int) →
        (t.bucketAt (0, 3)).block_head = load64 state_after_limalloc_40.mem (base0 + 72 + 8)) ∧
      ((1048504 : Int) - (64 : Int) = (64 : Int) →
        (t.bucketAt (0, 3)).block_head = load64 state_after_limalloc_40.mem (base0 + 72 + 8) ∧
        (t.bucketAt (0, 3)).chunk_head = base0 + 72 + 64) ∧
      ((1048504 : Int) - (64 : Int) > (64 : Int) →
        (t.bucketAt (0, 3)).block_head = base0 + 72 + 64 ∧
        ((load64 t.mem (base0 + 72 + 64) : Nat) : Int) = (1048504 : Int) - (64 : Int)) :=
  block_slice_case_analysis state_after_limalloc_40 0 (0, 3) (base0 + 72) 1048504 64
    (by decide!) (by decide!) (by decide!) (by decide) (by decide!) (by decide!) (by decide) (by decide)

/-- C13: `block_slice` stores no `next` field. From the fresh state
`p = limalloc(20000)` returns `base0 + 8` and leaves bucket 0 (chunk size 8) with
an empty chunk list and one block `old = p + 8`, whose `next` is null.
(a) The caller stores the words 16 and `p + 4096` at `p + 8` and `p + 16`, inside
its 20000 bytes; the next `limalloc(20000)` slices `old` with remainder
`8 == chunk_size`: `chunk_head` becomes the tail `old + 8`, and `tail.next` is
`p + 4096`, not the previous `chunk_head`, which was null; two calls later
`limalloc` returns `p + 4096`, an address inside the first allocation.  Calling
`block_slice` on the state the caller left gives the same heads.
(b) The caller instead stores the word `p + 4096` at `p + 24`, leaving the block
header as it was; the next `limalloc(20000)` slices `old` with remainder
`> chunk_size`: `block_head` becomes `old + 8`, whose `next` is `p + 4096`, not
`old.next`, which was null. -/
theorem block_slice_leaves_stale_links :
    ∃ p : Nat, p = base0 + 8 ∧ p + 4096 ≠ 0 ∧ p + 24 + 8 ≤ p + 20000 ∧
    (do let (p1, s1) ← limalloc 0 (fresh base0) 20000
        pure [p1, (s1.bucketAt (0, 0)).chunk_size, (s1.bucketAt (0, 0)).chunk_head,
          (s1.bucketAt (0, 0)).block_head, load64 s1.mem (p1 + 8), load64 s1.mem (p1 + 16)]
          : Except Fault (List Nat)) =
      .ok [p, 8, 0, p + 8, 1048560, 0] ∧
    (do let (p1, s1) ← limalloc 0 (fresh base0) 20000
        let s2 : State := { s1 with mem := store64 (store64 s1.mem (p1 + 8) 16) (p1 + 16) (p1 + 4096) }
        let (q0, t0) ← block_slice s2
        let (q, s3) ← limalloc 0 s2 20000
        let (r1, s4) ← limalloc 0 s3 20000
        let (r2, _) ← limalloc 0 s4 20000
        pure [(s2.bucketAt (0, 0)).chunk_head, (s2.bucketAt (0, 0)).block_head,
          load64 s2.mem (p1 + 8), q, (s3.bucketAt (0, 0)).chunk_head,
          load64 s3.mem (s3.bucketAt (0, 0)).chunk_head, r1, r2,
          q0, (t0.bucketAt (0, 0)).chunk_head, load64 t0.mem (t0.bucketAt (0, 0)).chunk_head]
          : Except Fault (List Nat)) =
      .ok [0, p + 8, 16, p + 8, p + 16, p + 4096, p + 16, p + 4096, p + 8, p + 16, p + 4096] ∧
    (do let (p1, s1) ← limalloc 0 (fresh base0) 20000
        let s2 : State := { s1 with mem := store64 s1.mem (p1 + 24) (p1 + 4096) }
        let (q0, t0) ← block_slice s2
        let (q, s3) ← limalloc 0 s2 20000
        pure [(s2.bucketAt (0, 0)).block_head, load64 s2.mem (p1 + 8), load64 s2.mem (p1 + 16),
          q, (s3.bucketAt (0, 0)).block_head, load64 s3.mem (s3.bucketAt (0, 0)).block_head,
          load64 s3.mem ((s3.bucketAt (0, 0)).block_head + 8),
          q0, (t0.bucketAt (0, 0)).block_head, load64 t0.mem ((t0.bucketAt (0, 0)).block_head + 8)]
          : Except Fault (List Nat)) =
      .ok [p + 8, 1048560, 0, p + 8, p + 16, 1048552, p + 4096, p + 8, p + 16, p + 4096] :=
  ⟨base0 + 8, rfl, by decide, by decide, by decide!, by decide!, by decide!⟩

/-- What `block_slice` leaves of the links, for any bucket whose block list starts
with the block `old` of size `sz`, with `c = chunk_size` (both within `int`
range): when `sz - c = c` the heap is unchanged, so the word at the tail
`old + c` is the one the heap held; when `sz - c > c` only the size word at
`old + c` is written, so the word at `old + c + 8` is the one the heap held.  The
links are the ones a push would store exactly when those words already were. -/
theorem block_slice_links (s : State) (a : Nat) (ab : Nat × Nat) (old sz c : Nat)
    (harena : s.__arena = some a) (hb : s.__bucket = some ab)
    (hold : (s.bucketAt ab).block_head = old) (hold0 : old ≠ 0)
    (hc : (s.bucketAt ab).chunk_size = c) (hsz : load64 s.mem old = sz)
    (hcl : c < 2147483648) (hszl : sz < 2147483648) :
    ∃ t, block_slice s = .ok (old, t) ∧
      (sz = 2 * c →
        (t.bucketAt ab).chunk_head = old + c ∧
        (t.bucketAt ab).block_head = load64 s.mem (old + 8) ∧
        t.mem = s.mem ∧
        load64 t.mem (old + c) = load64 s.mem (old + c) ∧
        ((s.bucketAt ab).chunk_head = 0 → load64 s.mem (old + c) = 0 →
          load64 t.mem (old + c) = (s.bucketAt ab).chunk_head)) ∧
      (2 * c < sz →
        (t.bucketAt ab).block_head = old + c ∧
        (∀ x, x < old + c ∨ old + c + 8 ≤ x → t.mem x = s.mem x) ∧
        load64 t.mem (old + c + 8) = load64 s.mem (old + c + 8) ∧
        (load64 s.mem (old + c + 8) = load64 s.mem (old + 8) →
          load64 t.mem (old + c + 8) = load64 s.mem (old + 8))) := by
  rcases Nat.lt_trichotomy sz (2 * c) with h | h | h
  · refine ⟨_, block_slice_drop s a ab c old sz harena hb hold hold0 hc hsz hcl hszl h, ?_, ?_⟩
    · intro h2
      omega
    · intro h2
      omega
  · refine ⟨_, block_slice_equal s a ab c old sz harena hb hold hold0 hc hsz hcl hszl h, ?_, ?_⟩
    · intro _
      rw [bucketAt_setBucket_same]
      refine ⟨rfl, rfl, rfl, rfl, ?_⟩
      intro h0 hz
      show load64 s.mem (old + c) = _
      rw [hz, h0]
    · intro h2
      omega
  · refine ⟨_, block_slice_shift s a ab c old sz harena hb hold hold0 hc hsz hcl hszl h, ?_, ?_⟩
    · intro h2
      omega
    · intro _
      have hnext : load64 (store64 s.mem (old + c) (sz - c)) (old + c + 8) = load64 s.mem (old + c + 8) :=
        load64_store64_other _ _ _ _ (by omega)
      refine ⟨?_, ?_, hnext, ?_⟩
      · show ((s.setBucket ab _).bucketAt ab).block_head = old + c
        rw [bucketAt_setBucket_same]
      · intro x hx
        exact store64_outside _ _ _ _ hx
      · intro he
        exact hnext.trans he

theorem block_slice_maps_nothing (s t : State) (p : Nat) (h : block_slice s = .ok (p, t)) :
    t.mmap_log = s.mmap_log ∧ t.mmap_next = s.mmap_next := by
  unfold block_slice at h
  split at h
  · cases h
  · cases h
  · simp only at h
    split at h
    · cases h
    · split at h
      · cases h
        exact ⟨rfl, rfl⟩
      · split at h
        · cases h
          exact ⟨rfl, rfl⟩
        · cases h
          exact ⟨rfl, rfl⟩

theorem block_slice_returns_head (s : State) (a : Nat) (ab : Nat × Nat) (X : Nat)
    (harena : s.__arena = some a) (hb : s.__bucket = some ab)
    (hX : (s.bucketAt ab).block_head = X) (hX0 : X ≠ 0) :
    ∃ t, block_slice s = .ok (X, t) := by
  simp only [block_slice, harena, hb, hX, hX0, if_false]
  split
  · exact ⟨_, rfl⟩
  · split
    · exact ⟨_, rfl⟩
    · exact ⟨_, rfl⟩

theorem allocate_page_installs (s : State) (a : Nat) (ab : Nat × Nat)
    (harena : s.__arena = some a) (hb : s.__bucket = some ab)
    (hbh : (s.bucketAt ab).block_head = 0) :
    ∃ s5, allocate_page s = block_slice s5 ∧ s5.__arena = some a ∧ s5.__bucket = some ab ∧
      (s5.bucketAt ab).block_head = s.mmap_next + SIZEOF_PAGE ∧
      (s5.bucketAt ab).chunk_head = (s.bucketAt ab).chunk_head ∧
      (s5.bucketAt ab).chunk_size = (s.bucketAt ab).chunk_size ∧
      (s5.bucketAt ab).page_head =
        (if (s.bucketAt ab).page_head = 0 then s.mmap_next else (s.bucketAt ab).page_head) ∧
      s5.mmap_log = s.mmap_log ++ [(s.mmap_next, MEM_PAGE_SIZE)] ∧
      s5.mmap_next = s.mmap_next + MEM_PAGE_SIZE ∧
      load64 s5.mem (s.mmap_next + SIZEOF_PAGE) = MEM_PAGE_SIZE - SIZEOF_PAGE ∧
      load64 s5.mem (s.mmap_next + SIZEOF_PAGE + 8) = 0 := by
  have hsize : ∀ m : Mem, load64 (store64 (store64 m (s.mmap_next + 8) (1024 * 1024 - 8))
      (s.mmap_next + 8 + 8) 0) (s.mmap_next + 8) = 1024 * 1024 - 8 := by
    intro m
    rw [load64_store64_other _ _ _ _ (by omega)]
    exact load64_store64_same _ _ _ (by norm_num)
  have hnext : ∀ m : Mem, load64 (store64 (store64 m (s.mmap_next + 8) (1024 * 1024 - 8))
      (s.mmap_next + 8 + 8) 0) (s.mmap_next + 8 + 8) = 0 := by
    intro m
    exact load64_store64_same _ _ _ (by norm_num)
  simp only [State.bucketAt] at hbh ⊢
  by_cases hph : ((s.arenas ab.1).buckets ab.2).page_head = 0
  · simp only [allocate_page, harena, hb, ne_eq, not_true_eq_false, if_false, mmap,
      if_true, SIZEOF_PAGE, MEM_PAGE_SIZE, State.bucketAt, State.setBucket, hph, hbh]
    refine ⟨_, rfl, rfl, rfl, by simp, by simp, by simp, by simp, rfl, rfl, hsize _, hnext _⟩
  · simp only [allocate_page, harena, hb, ne_eq, not_true_eq_false, if_false, mmap,
      if_true, SIZEOF_PAGE, MEM_PAGE_SIZE, State.bucketAt, State.setBucket, hph, hbh]
    refine ⟨_, rfl, rfl, rfl, by simp, by simp, by simp, by simp, rfl, rfl, hsize _, hnext _⟩

/-! ## Theorems: the small-class paths of `get_chunk` and `lifree` -/

/-- C14: `get_chunk` on a bucket with `chunk_size > 0`: (1) when `chunk_head` is
non-null it returns `chunk_head` and sets `chunk_head` to its `next`, changing
nothing else, so `block_head` and `page_head` stay and nothing is mapped;
(2) else when `block_head` is non-null it is `block_slice`, which returns the
block head and maps nothing; (3) when both are null it maps one 1 MiB slab,
installs at `slab_base + sizeof(page)` a block of size `1048576 - sizeof(page)`
with `next = NULL`, and returns `slab_base + sizeof(page)` as `block_slice`
does on the state with that block installed. -/
theorem get_chunk_small_class_order (fuel : Nat) (s : State) (a : Nat) (ab : Nat × Nat) (n : Nat)
    (harena : s.__arena = some a) (hb : s.__bucket = some ab)
    (hcs : 0 < (s.bucketAt ab).chunk_size) (hn : CHUNK_SIZE ≤ n) :
    ((s.bucketAt ab).chunk_head ≠ 0 →
      ∃ t, get_chunk fuel s n = .ok ((s.bucketAt ab).chunk_head, t) ∧
        t = s.setBucket ab { s.bucketAt ab with chunk_head := load64 s.mem (s.bucketAt ab).chunk_head } ∧
        (t.bucketAt ab).chunk_head = load64 s.mem (s.bucketAt ab).chunk_head ∧
        (t.bucketAt ab).block_head = (s.bucketAt ab).block_head ∧
        (t.bucketAt ab).page_head = (s.bucketAt ab).page_head ∧
        t.mem = s.mem ∧ t.mmap_log = s.mmap_log) ∧
    ((s.bucketAt ab).chunk_head = 0 → (s.bucketAt ab).block_head ≠ 0 →
      get_chunk fuel s n = block_slice s ∧
      ∃ t, block_slice s = .ok ((s.bucketAt ab).block_head, t) ∧ t.mmap_log = s.mmap_log) ∧
    ((s.bucketAt ab).chunk_head = 0 → (s.bucketAt ab).block_head = 0 →
      ∃ s5 t, get_chunk fuel s n = block_slice s5 ∧
        block_slice s5 = .ok (s.mmap_next + SIZEOF_PAGE, t) ∧
        s5.mmap_log = s.mmap_log ++ [(s.mmap_next, MEM_PAGE_SIZE)] ∧
        t.mmap_log = s.mmap_log ++ [(s.mmap_next, MEM_PAGE_SIZE)] ∧
        (s5.bucketAt ab).block_head = s.mmap_next + SIZEOF_PAGE ∧
        load64 s5.mem (s.mmap_next + SIZEOF_PAGE) = MEM_PAGE_SIZE - SIZEOF_PAGE ∧
        load64 s5.mem (s.mmap_next + SIZEOF_PAGE + 8) = 0) := by
  have h8 : ¬ n < CHUNK_SIZE := by omega
  have hcs0 : (s.bucketAt ab).chunk_size ≠ 0 := by omega
  have hget := get_chunk_small fuel s n a ab harena hb hcs0 h8
  refine ⟨?_, ?_, ?_⟩
  · intro hch
    refine ⟨_, ?_, rfl, ?_, ?_, ?_, rfl, rfl⟩
    · rw [hget]
      simp only [pop_chunk, harena, hb, hch, ne_eq, not_false_eq_true, if_true, if_false]
    · rw [bucketAt_setBucket_same]
    · rw [bucketAt_setBucket_same]
    · rw [bucketAt_setBucket_same]
  · intro hch hbh
    obtain ⟨t, ht⟩ := block_slice_returns_head s a ab _ harena hb rfl hbh
    refine ⟨?_, t, ht, (block_slice_maps_nothing s t _ ht).1⟩
    rw [hget, pop_chunk_slice s a ab harena hb hch hbh, ht]
    simp only [hbh, if_false]
  · intro hch hbh
    obtain ⟨s5, h5, ha5, hb5, hX5, _, _, _, hlog5, _, hsz5, hnx5⟩ :=
      allocate_page_installs s a ab harena hb hbh
    obtain ⟨t, ht⟩ := block_slice_returns_head s5 a ab _ ha5 hb5 hX5 (by unfold SIZEOF_PAGE; omega)
    refine ⟨s5, t, ?_, ht, hlog5, ?_, hX5, hsz5, hnx5⟩
    · rw [hget, pop_chunk_empty s a ab harena hb hch hbh]
      simp only [if_true]
      exact h5
    · rw [(block_slice_maps_nothing s5 t _ ht).1, hlog5]

/-- C14 witness: in the state after `limalloc(40)` on the fresh state bucket 3 has
an empty chunk list and a block, so `get_chunk` slices. -/
theorem get_chunk_small_class_order_witness :
    0 < (state_after_limalloc_40.bucketAt (0, 3)).chunk_size ∧ CHUNK_SIZE ≤ 64 ∧
    (state_after_limalloc_40.bucketAt (0, 3)).chunk_head = 0 ∧
    (state_after_limalloc_40.bucketAt (0, 3)).block_head ≠ 0 ∧
    get_chunk 0 state_after_limalloc_40 64 = block_slice state_after_limalloc_40 :=
  ⟨by decide!, by decide, by decide!, by decide!,
    ((get_chunk_small_class_order 0 state_after_limalloc_40 0 (0, 3) 64 (by decide!) (by decide!)
      (by decide!) (by decide)).2.1 (by decide!) (by decide!)).1⟩

theorem find_bucket_loop_none (fuel : Nat) (s : State) (a p : Nat) (pages : Nat → List Nat) :
    ∀ (n bb : Nat),
    (∀ j, bb ≤ j → j < bb + n → PageList s.mem (s.bucketAt (a, j)).page_head (pages j) ∧
      (pages j).length < fuel) →
    (∀ j, bb ≤ j → j < bb + n → ∀ b ∈ pages j, ¬ (b < p ∧ p < b + MEM_PAGE_SIZE)) →
    find_bucket_loop fuel s a p n bb = .ok 0 := by
  intro n
  induction n with
  | zero => intro bb _ _; rfl
  | succ n ih =>
    intro bb hl hout
    obtain ⟨hpl, hlen⟩ := hl bb (le_refl _) (by omega)
    simp only [find_bucket_loop,
      page_walk_not_found s.mem p _ _ _ hpl hlen (hout bb (le_refl _) (by omega))]
    exact ih (bb + 1) (fun j hj1 hj2 => hl j (by omega) (by omega))
      (fun j hj1 hj2 => hout j (by omega) (by omega))

theorem pages_length_lt (pages : Nat → List Nat) (fuel : Nat)
    (hfuel : ((List.range 11).map (fun j => (pages j).length)).sum + 1 ≤ fuel) (j : Nat)
    (hj : j ≤ 10) : (pages j).length < fuel := by
  have hmem : (pages j).length ∈ (List.range 11).map (fun j => (pages j).length) :=
    List.mem_map.mpr ⟨j, List.mem_range.mpr (by omega), rfl⟩
  have := List.single_le_sum (fun _ _ => Nat.zero_le _) _ hmem
  omega

theorem free_chunk_small (t : State) (a : Nat) (ab : Nat × Nat) (p : Nat) (hp : p ≠ 0)
    (harena : t.__arena = some a) (hb : t.__bucket = some ab)
    (hcs : (t.bucketAt ab).chunk_size ≠ 0) :
    free_chunk t p =
      .ok (State.setBucket { t with mem := store64 t.mem p (t.bucketAt ab).chunk_head } ab
        { t.bucketAt ab with chunk_head := p }) := by
  simp only [free_chunk, hp, if_false, harena, hb, hcs]

/-- C15: in a state whose page lists of buckets 1..10 are null-terminated, with
the thread bound and a current bucket set: when `i` is the lowest index in 1..10
whose page list holds a page with `page_base < p < page_base + 1048576` (and
bucket `i` has a non-zero chunk size), `lifree(p)`, given enough fuel for the
page walks, makes `p` the head of the chunk list of bucket `i` with `p.next` the
previous head and changes nothing else but the thread-local `__bucket`; when no
bucket in 1..10 holds such a page, the bucket found is bucket 0. -/
theorem lifree_small_class (s : State) (a p : Nat) (pages : Nat → List Nat)
    (harena : s.__arena = some a) (hbucket : s.__bucket ≠ none)
    (hlists : ∀ j, 1 ≤ j → j ≤ 10 → PageList s.mem (s.bucketAt (a, j)).page_head (pages j)) :
    (∀ i, 1 ≤ i → i ≤ 10 →
      (∃ b ∈ pages i, b < p ∧ p < b + MEM_PAGE_SIZE) →
      (∀ j, 1 ≤ j → j < i → ∀ b ∈ pages j, ¬ (b < p ∧ p < b + MEM_PAGE_SIZE)) →
      (s.bucketAt (a, i)).chunk_size ≠ 0 →
      (s.bucketAt (a, i)).chunk_head < 18446744073709551616 →
      ∃ fuel0, ∀ fuel, fuel0 ≤ fuel → ∃ t, lifree fuel s p = .ok t ∧
        t = State.setBucket
              { s with __bucket := some (a, i), mem := store64 s.mem p (s.bucketAt (a, i)).chunk_head }
              (a, i) { s.bucketAt (a, i) with chunk_head := p } ∧
        (t.bucketAt (a, i)).chunk_head = p ∧
        load64 t.mem p = (s.bucketAt (a, i)).chunk_head ∧
        (t.bucketAt (a, i)).block_head = (s.bucketAt (a, i)).block_head ∧
        (t.bucketAt (a, i)).page_head = (s.bucketAt (a, i)).page_head ∧
        (∀ j, j ≠ i → t.bucketAt (a, j) = s.bucketAt (a, j)) ∧
        (∀ x j, x ≠ a → t.bucketAt (x, j) = s.bucketAt (x, j)) ∧
        (∀ x, x < p ∨ p + 8 ≤ x → t.mem x = s.mem x) ∧
        t.mmap_log = s.mmap_log) ∧
    (p ≠ 0 → (∀ j, 1 ≤ j → j ≤ 10 → ∀ b ∈ pages j, ¬ (b < p ∧ p < b + MEM_PAGE_SIZE)) →
      ∃ fuel0, ∀ fuel, fuel0 ≤ fuel →
        __find_bucket fuel s p = .ok { s with __bucket := some (a, 0) }) := by
  refine ⟨?_, ?_⟩
  · intro i hi1 hi10 hin hlow hcs hhead
    refine ⟨((List.range 11).map (fun j => (pages j).length)).sum + 1, fun fuel hfuel => ?_⟩
    have hfind : find_bucket_loop fuel s a p (BUCKET_COUNT - 1) 1 = .ok i :=
      find_bucket_loop_found fuel s a p i pages (BUCKET_COUNT - 1) 1 hi1
        (by unfold BUCKET_COUNT; omega)
        (fun j hj1 hj2 => ⟨hlists j hj1 (by omega), pages_length_lt pages fuel hfuel j (by omega)⟩)
        hin hlow
    have hp : p ≠ 0 := by
      obtain ⟨b, _, hb, _⟩ := hin
      omega
    have harena2 : ¬ (s.__arena = none) := by
      rw [harena]
      exact Option.some_ne_none a
    have hfb : __find_bucket fuel s p = .ok { s with __bucket := some (a, i) } := by
      simp only [__find_bucket, harena, hfind]
    have hfree : lifree fuel s p = .ok (State.setBucket
        { s with __bucket := some (a, i), mem := store64 s.mem p (s.bucketAt (a, i)).chunk_head }
        (a, i) { s.bucketAt (a, i) with chunk_head := p }) := by
      simp only [lifree, hp, if_false, harena2, hbucket, hfb]
      exact free_chunk_small { s with __bucket := some (a, i) } a (a, i) p hp harena rfl hcs
    refine ⟨_, hfree, rfl, ?_, ?_, ?_, ?_, ?_, ?_, ?_, rfl⟩
    · rw [bucketAt_setBucket_same]
    · exact load64_store64_same _ _ _ hhead
    · rw [bucketAt_setBucket_same]
    · rw [bucketAt_setBucket_same]
    · intro j hj
      rw [bucketAt_setBucket_other _ _ _ _ _ hj]
      rfl
    · intro x j hx
      simp [State.setBucket, State.bucketAt, hx]
    · intro x hx
      exact store64_outside _ _ _ _ hx
  · intro hp hnone
    refine ⟨((List.range 11).map (fun j => (pages j).length)).sum + 1, fun fuel hfuel => ?_⟩
    have hfind : find_bucket_loop fuel s a p (BUCKET_COUNT - 1) 1 = .ok 0 :=
      find_bucket_loop_none fuel s a p pages (BUCKET_COUNT - 1) 1
        (fun j hj1 hj2 => ⟨hlists j hj1 (by unfold BUCKET_COUNT at hj2; omega),
          pages_length_lt pages fuel hfuel j (by unfold BUCKET_COUNT at hj2; omega)⟩)
        (fun j hj1 hj2 => hnone j hj1 (by unfold BUCKET_COUNT at hj2; omega))
    simp only [__find_bucket, harena, hfind]

/-- C15 witness: the pointer `base0 + 8` returned by `limalloc(40)` on the fresh
state is freed onto the chunk list of bucket 3. -/
theorem lifree_small_class_witness :
    ∃ fuel0, ∀ fuel, fuel0 ≤ fuel → ∃ t, lifree fuel state_after_limalloc_40 (base0 + 8) = .ok t ∧
      (t.bucketAt (0, 3)).chunk_head = base0 + 8 ∧
      load64 t.mem (base0 + 8) = (state_after_limalloc_40.bucketAt (0, 3)).chunk_head := by
  obtain ⟨fuel0, h⟩ := (lifree_small_class state_after_limalloc_40 0 (base0 + 8)
      (fun j => if j = 3 then [base0] else []) (by decide!) (by decide!)
      (by
        intro j h1 h2
        interval_cases j <;> decide!)).1 3 (by decide) (by decide)
      ⟨base0, by simp, by decide, by decide⟩
      (by
        intro j h1 h2 b hb
        interval_cases j <;> simp at hb)
      (by decide!) (by decide!)
  refine ⟨fuel0, fun fuel hf => ?_⟩
  obtain ⟨t, h1, _, h3, h4, _⟩ := h fuel hf
  exact ⟨t, h1, h3, h4⟩

/-! ## Theorems: the block list of a large bucket -/

theorem load8_lt (m : Mem) (a : Nat) : load8 m a < 256 := by
  unfold load8
  omega

theorem load64_lt (m : Mem) (a : Nat) : load64 m a < 18446744073709551616 := by
  have h0 := load8_lt m a
  have h1 := load8_lt m (a + 1)
  have h2 := load8_lt m (a + 2)
  have h3 := load8_lt m (a + 3)
  have h4 := load8_lt m (a + 4)
  have h5 := load8_lt m (a + 5)
  have h6 := load8_lt m (a + 6)
  have h7 := load8_lt m (a + 7)
  unfold load64
  omega

theorem blockList_congr (m1 m2 : Mem) : ∀ (l : List Nat) (head : Nat),
    BlockList m1 head l → (∀ x ∈ l, load64 m2 (x + 8) = load64 m1 (x + 8)) →
    BlockList m2 head l := by
  intro l
  induction l with
  | nil => intro head h _; exact h
  | cons b l ih =>
    intro head h hm
    obtain ⟨h1, h2, h3⟩ := h
    refine ⟨h1, h2, ?_⟩
    rw [hm b (List.mem_cons_self _ _)]
    exact ih _ h3 (fun x hx => hm x (List.mem_cons_of_mem _ hx))

theorem big_block_walk_found (m : Mem) (n b : Nat) (L2 : List Nat) :
    ∀ (L1 : List Nat) (prev curr fuel : Nat),
    BlockList m curr (L1 ++ b :: L2) → (∀ x ∈ L1, load64 m x < n) → n ≤ load64 m b →
    L1.length < fuel →
    big_block_walk m n fuel prev curr = .ok (L1.getLastD prev, b) := by
  intro L1
  induction L1 with
  | nil =>
    intro prev curr fuel hl _ hfit hf
    cases fuel with
    | zero => simp at hf
    | succ fuel =>
      obtain ⟨h1, h2, _⟩ := hl
      subst h1
      have hno : ¬ (curr ≠ 0 ∧ n > load64 m curr) := by
        intro h
        omega
      simp only [big_block_walk, hno, if_false, List.getLastD]
  | cons x L1 ih =>
    intro prev curr fuel hl hsmall hfit hf
    cases fuel with
    | zero => simp at hf
    | succ fuel =>
      obtain ⟨h1, h2, h3⟩ := hl
      subst h1
      have hx := hsmall curr (List.mem_cons_self _ _)
      have hyes : curr ≠ 0 ∧ n > load64 m curr := ⟨h2, hx⟩
      rw [big_block_walk, if_pos hyes,
        ih curr _ fuel h3 (fun y hy => hsmall y (List.mem_cons_of_mem _ hy)) hfit
        (by simpa using hf), List.getLastD_cons]

theorem big_block_walk_none (m : Mem) (n : Nat) :
    ∀ (L : List Nat) (prev curr fuel : Nat),
    BlockList m curr L → (∀ x ∈ L, load64 m x < n) → L.length < fuel →
    big_block_walk m n fuel prev curr = .ok (L.getLastD prev, 0) := by
  intro L
  induction L with
  | nil =>
    intro prev curr fuel hl _ hf
    cases fuel with
    | zero => simp at hf
    | succ fuel =>
      have h0 : curr = 0 := hl
      subst h0
      simp [big_block_walk]
  | cons x L ih =>
    intro prev curr fuel hl hsmall hf
    cases fuel with
    | zero => simp at hf
    | succ fuel =>
      obtain ⟨h1, h2, h3⟩ := hl
      subst h1
      have hx := hsmall curr (List.mem_cons_self _ _)
      have hyes : curr ≠ 0 ∧ n > load64 m curr := ⟨h2, hx⟩
      rw [big_block_walk, if_pos hyes,
        ih curr _ fuel h3 (fun y hy => hsmall y (List.mem_cons_of_mem _ hy)) (by simpa using hf),
        List.getLastD_cons]

theorem blockList_nonzero (m : Mem) : ∀ (l : List Nat) (head : Nat),
    BlockList m head l → ∀ x ∈ l, x ≠ 0 := by
  intro l
  induction l with
  | nil => intro head _ x hx; simp at hx
  | cons b l ih =>
    intro head h x hx
    obtain ⟨_, h2, h3⟩ := h
    rcases List.mem_cons.mp hx with e | e
    · subst e
      exact h2
    · exact ih _ h3 x e

theorem blockList_splice (m : Mem) (prev b : Nat) (L2 : List Nat) :
    ∀ (L1 : List Nat) (head : Nat),
    BlockList m head (L1 ++ prev :: b :: L2) → HeadersApart (L1 ++ prev :: b :: L2) →
    BlockList (store64 m (prev + 8) (load64 m (b + 8))) head (L1 ++ prev :: L2) := by
  intro L1
  induction L1 with
  | nil =>
    intro head hl hap
    obtain ⟨h1, h2, h3⟩ := hl
    obtain ⟨_, _, h6⟩ := h3
    refine ⟨h1, h2, ?_⟩
    rw [load64_store64_same _ _ _ (load64_lt _ _)]
    refine blockList_congr m _ L2 _ h6 ?_
    intro x hx
    have hp := (List.pairwise_cons.mp hap).1 x (List.mem_cons_of_mem _ hx)
    exact load64_store64_other _ _ _ _ (by omega)
  | cons y L1 ih =>
    intro head hl hap
    obtain ⟨h1, h2, h3⟩ := hl
    have hp := (List.pairwise_cons.mp hap).1 prev (List.mem_append_right _ (List.mem_cons_self _ _))
    refine ⟨h1, h2, ?_⟩
    rw [load64_store64_other _ _ _ _ (by omega)]
    exact ih _ h3 (List.pairwise_cons.mp hap).2

theorem headersApart_sizes (m : Mem) (prev v : Nat) (L : List Nat) (hap : HeadersApart L)
    (hprev : prev ∈ L) : ∀ x ∈ L, load64 (store64 m (prev + 8) v) x = load64 m x := by
  intro x hx
  by_cases e : x = prev
  · subst e
    exact load64_store64_other _ _ _ _ (by omega)
  · have h : x + 16 ≤ prev ∨ prev + 16 ≤ x := by
      have hsymm : ∀ l : List Nat, HeadersApart l → ∀ u ∈ l, ∀ w ∈ l, u ≠ w →
          u + 16 ≤ w ∨ w + 16 ≤ u := by
        intro l
        induction l with
        | nil => intro _ u hu; simp at hu
        | cons z l ih =>
          intro hl u hu w hw huw
          obtain ⟨hz, hrest⟩ := List.pairwise_cons.mp hl
          rcases List.mem_cons.mp hu with eu | eu
          · rcases List.mem_cons.mp hw with ew | ew
            · exact absurd (eu.trans ew.symm) huw
            · subst eu
              exact hz w ew
          · rcases List.mem_cons.mp hw with ew | ew
            · subst ew
              exact (hz u eu).symm
            · exact ih hrest u eu w ew huw
      exact hsymm L hap x hx prev hprev e
    exact load64_store64_other _ _ _ _ (by omega)

theorem cons_eq_append_getLastD : ∀ (l : List Nat) (h : Nat),
    ∃ l0, h :: l = l0 ++ [l.getLastD h] := by
  intro l
  induction l with
  | nil => intro h; exact ⟨[], rfl⟩
  | cons y l ih =>
    intro h
    obtain ⟨l0, e⟩ := ih y
    refine ⟨h :: l0, ?_⟩
    rw [List.getLastD_cons, List.cons_append, ← e]

theorem pop_big_block_none (s : State) (a : Nat) (ab : Nat × Nat) (n : Nat) (L : List Nat)
    (harena : s.__arena = some a) (hb : s.__bucket = some ab) (hn : BLOCK_SIZE ≤ n)
    (hlist : BlockList s.mem (s.bucketAt ab).block_head L)
    (hsmall : ∀ x ∈ L, load64 s.mem x < n) (fuel : Nat) (hfuel : L.length < fuel) :
    pop_big_block fuel s n = .ok (0, s) := by
  have hn2 : ¬ n < BLOCK_SIZE := by omega
  cases L with
  | nil =>
    have h0 : (s.bucketAt ab).block_head = 0 := hlist
    simp only [pop_big_block, hn2, if_false, harena, hb, h0, if_true]
  | cons h L =>
    obtain ⟨h1, h2, h3⟩ := hlist
    have hh := hsmall h (List.mem_cons_self _ _)
    have hnot : ¬ n ≤ load64 s.mem h := by omega
    have hwalk := big_block_walk_none s.mem n (h :: L) 0 h fuel ⟨rfl, h2, h3⟩ hsmall hfuel
    rw [List.getLastD_cons] at hwalk
    obtain ⟨l0, e⟩ := cons_eq_append_getLastD L h
    have hmem : L.getLastD h ∈ h :: L := by
      rw [e]
      simp
    have hprev : L.getLastD h ≠ 0 := blockList_nonzero s.mem (h :: L) h ⟨rfl, h2, h3⟩ _ hmem
    simp only [pop_big_block, hn2, if_false, harena, hb, h1, h2, hnot, hwalk, hprev, ne_eq,
      not_true_eq_false]

theorem pop_big_block_fit (s : State) (a : Nat) (ab : Nat × Nat) (n : Nat) (L1 L2 : List Nat)
    (b : Nat) (harena : s.__arena = some a) (hb : s.__bucket = some ab) (hn : BLOCK_SIZE ≤ n)
    (hlist : BlockList s.mem (s.bucketAt ab).block_head (L1 ++ b :: L2))
    (hapart : HeadersApart (L1 ++ b :: L2))
    (hsmall : ∀ x ∈ L1, load64 s.mem x < n) (hfit : n ≤ load64 s.mem b)
    (fuel : Nat) (hfuel : L1.length < fuel) :
    ∃ t, pop_big_block fuel s n = .ok (b + OVERHEAD_SIZE, t) ∧
      BlockList t.mem (t.bucketAt ab).block_head (L1 ++ L2) ∧
      (∀ x ∈ L1 ++ b :: L2, load64 t.mem x = load64 s.mem x) ∧
      t.mmap_log = s.mmap_log := by
  have hn2 : ¬ n < BLOCK_SIZE := by omega
  cases L1 with
  | nil =>
    obtain ⟨h1, h2, h3⟩ := hlist
    have h1b : (s.bucketAt ab).block_head = b := h1
    refine ⟨s.setBucket ab { s.bucketAt ab with block_head := load64 s.mem (b + 8) }, ?_, ?_, ?_, rfl⟩
    · simp only [pop_big_block, hn2, if_false, harena, hb, h1b, h2, hfit, if_true]
    · rw [bucketAt_setBucket_same]
      exact h3
    · intro x _
      rfl
  | cons h L1 =>
    have hlist0 := hlist
    obtain ⟨h1, h2, h3⟩ := hlist
    have hh := hsmall h (List.mem_cons_self _ _)
    have hnot : ¬ n ≤ load64 s.mem h := by omega
    have hwalk := big_block_walk_found s.mem n b L2 (h :: L1) 0 h fuel ⟨rfl, h2, h3⟩ hsmall hfit hfuel
    rw [List.getLastD_cons] at hwalk
    obtain ⟨l0, e⟩ := cons_eq_append_getLastD L1 h
    have hmem : L1.getLastD h ∈ h :: L1 := by
      rw [e]
      simp
    have hall : ∀ x ∈ (h :: L1) ++ b :: L2, x ≠ 0 :=
      blockList_nonzero s.mem _ _ hlist0
    have hprev : L1.getLastD h ≠ 0 := hall _ (List.mem_append_left _ hmem)
    have hb0 : b ≠ 0 := hall b (List.mem_append_right _ (List.mem_cons_self _ _))
    have h1b : (s.bucketAt ab).block_head = h := h1
    refine ⟨{ s with mem := store64 s.mem (L1.getLastD h + 8) (load64 s.mem (b + 8)) }, ?_, ?_, ?_, rfl⟩
    · simp only [pop_big_block, hn2, if_false, harena, hb, h1b, h2, hnot, hwalk, hprev, ne_eq,
        not_true_eq_false, hb0, not_false_eq_true, if_true]
    · have e2 : (h :: L1) ++ b :: L2 = l0 ++ L1.getLastD h :: b :: L2 := by
        rw [e]
        simp
      have e3 : (h :: L1) ++ L2 = l0 ++ L1.getLastD h :: L2 := by
        rw [e]
        simp
      rw [e2] at hlist0 hapart
      rw [e3]
      exact blockList_splice s.mem _ b L2 l0 _ hlist0 hapart
    · exact headersApart_sizes s.mem _ _ _ hapart (List.mem_append_left _ hmem)

/-- C16: `pop_big_block(n)`, `n >= sizeof(block)`, on a bucket whose block list in
the heap is the list `L` of blocks with pairwise disjoint headers (so acyclic
and null-terminated), given enough fuel for the walk: when no block has size
`>= n` it returns `NULL` and changes nothing; otherwise, with `b` the first block
in list order of size `>= n`, it returns `b + sizeof(size_t)` and the block list
becomes `L` without `b`, the other blocks in their order and with their sizes. -/
theorem pop_big_block_first_fit (s : State) (a : Nat) (ab : Nat × Nat) (n : Nat) (L : List Nat)
    (harena : s.__arena = some a) (hb : s.__bucket = some ab) (hn : BLOCK_SIZE ≤ n)
    (hlist : BlockList s.mem (s.bucketAt ab).block_head L) (hapart : HeadersApart L) :
    ((∀ x ∈ L, load64 s.mem x < n) →
      ∃ fuel0, ∀ fuel, fuel0 ≤ fuel → pop_big_block fuel s n = .ok (0, s)) ∧
    (∀ L1 b L2, L = L1 ++ b :: L2 → (∀ x ∈ L1, load64 s.mem x < n) → n ≤ load64 s.mem b →
      ∃ fuel0, ∀ fuel, fuel0 ≤ fuel → ∃ t,
        pop_big_block fuel s n = .ok (b + OVERHEAD_SIZE, t) ∧
        BlockList t.mem (t.bucketAt ab).block_head (L1 ++ L2) ∧
        (∀ x ∈ L, load64 t.mem x = load64 s.mem x) ∧
        t.mmap_log = s.mmap_log) := by
  refine ⟨?_, ?_⟩
  · intro hsmall
    exact ⟨L.length + 1, fun fuel hf =>
      pop_big_block_none s a ab n L harena hb hn hlist hsmall fuel (by omega)⟩
  · intro L1 b L2 e hsmall hfit
    subst e
    exact ⟨L1.length + 1, fun fuel hf =>
      pop_big_block_fit s a ab n L1 L2 b harena hb hn hlist hapart hsmall hfit fuel (by omega)⟩

/-- C16 witness: a bucket caching a block of size 10000 at 4096 followed by one of
size 30000 at 8192; the request 20000 pops the second and leaves the first. -/
theorem pop_big_block_first_fit_witness :
    BlockList two_cached_blocks.mem (two_cached_blocks.bucketAt (0, 0)).block_head [4096, 8192] ∧
    ∃ fuel0, ∀ fuel, fuel0 ≤ fuel → ∃ t,
      pop_big_block fuel two_cached_blocks 20000 = .ok (8192 + OVERHEAD_SIZE, t) ∧
      BlockList t.mem (t.bucketAt (0, 0)).block_head ([4096] ++ []) ∧
      (∀ x ∈ [4096, 8192], load64 t.mem x = load64 two_cached_blocks.mem x) ∧
      t.mmap_log = two_cached_blocks.mmap_log :=
  ⟨by decide!,
    (pop_big_block_first_fit two_cached_blocks 0 (0, 0) 20000 [4096, 8192] rfl rfl (by decide)
      (by decide!) (by unfold HeadersApart; decide)).2 [4096] 8192 [] rfl
      (by
        intro x hx
        simp only [List.mem_singleton] at hx
        subst hx
        decide!)
      (by decide!)⟩

/-! ## Theorems: the size word of a large allocation -/

theorem div_up_eval (n : Nat) (h1 : 1 ≤ n) (h2 : n < 18446744073709551616) :
    div_up n 4096 = (n - 1) / 4096 + 1 := by
  unfold div_up toSizeT
  have e1 : (((n : Int) - 1) % 18446744073709551616).toNat = n - 1 := by omega
  rw [e1]
  have e2 : (n - 1) / 4096 < 4503599627370496 := by omega
  omega

theorem allocate_big_block_fresh (s : State) (n : Nat) (hn : BLOCK_SIZE ≤ n)
    (hmax : n ≤ 2147483647 * PAGE_SIZE) :
    allocate_big_block s n =
      .ok (s.mmap_next + OVERHEAD_SIZE,
        { (mmap s (((n - 1) / PAGE_SIZE + 1) * PAGE_SIZE)).2 with
          mem := store64 (mmap s (((n - 1) / PAGE_SIZE + 1) * PAGE_SIZE)).2.mem s.mmap_next n }) := by
  unfold BLOCK_SIZE at hn
  unfold PAGE_SIZE at hmax
  have hn2 : ¬ n < BLOCK_SIZE := by unfold BLOCK_SIZE; omega
  have hd : div_up n 4096 = (n - 1) / 4096 + 1 := div_up_eval n (by omega) (by omega)
  have hq : (n - 1) / 4096 + 1 < 2147483648 := by omega
  have hi : toInt32 (((n - 1) / 4096 + 1 : Nat) : Int) = (((n - 1) / 4096 + 1 : Nat) : Int) :=
    toInt32_of_lt _ hq
  have hs : toSizeT ((((n - 1) / 4096 + 1 : Nat) : Int) * ((4096 : Nat) : Int)) =
      ((n - 1) / 4096 + 1) * 4096 := by
    unfold toSizeT
    omega
  have hne : ¬ (((n - 1) / 4096 + 1) * 4096 = 0) := by omega
  simp only [allocate_big_block, hn2, if_false, hd, hi, PAGE_SIZE, hs, hne, mmap]

theorem get_chunk_big (fuel : Nat) (s : State) (n a : Nat) (ab : Nat × Nat)
    (harena : s.__arena = some a) (hb : s.__bucket = some ab)
    (hcs : (s.bucketAt ab).chunk_size = 0) (h8 : ¬ n < CHUNK_SIZE) :
    get_chunk fuel s n =
      match pop_big_block fuel s n with
      | .error e => .error e
      | .ok (ptr, s1) => if ptr = 0 then allocate_big_block s1 n else .ok (ptr, s1) := by
  simp only [get_chunk, harena, hb, h8, if_false, hcs, if_true]

/-- C17 (amended): `get_chunk(n)`, `n >= sizeof(block)`, on a bucket with
`chunk_size == 0` whose block list is well formed, given enough fuel: when a
cached block fits, it returns `p = b + sizeof(size_t)` for the first such block
`b`, and the word at `p - sizeof(size_t)` is the recorded size of `b`, unchanged by
the pop, which is at least `n`; when none fits (and `n` is at most 2147483647
pages) it maps `ceil(n / 4096) * 4096` bytes at `base`, returns
`p = base + sizeof(size_t)` and the word at `p - sizeof(size_t)` is `n`. -/
theorem large_class_size_word (s : State) (a : Nat) (ab : Nat × Nat) (n : Nat) (L : List Nat)
    (harena : s.__arena = some a) (hb : s.__bucket = some ab)
    (hcs : (s.bucketAt ab).chunk_size = 0) (hn : BLOCK_SIZE ≤ n)
    (hlist : BlockList s.mem (s.bucketAt ab).block_head L) (hapart : HeadersApart L) :
    (∀ L1 b L2, L = L1 ++ b :: L2 → (∀ x ∈ L1, load64 s.mem x < n) → n ≤ load64 s.mem b →
      ∃ fuel0, ∀ fuel, fuel0 ≤ fuel → ∃ t,
        get_chunk fuel s n = .ok (b + OVERHEAD_SIZE, t) ∧
        load64 t.mem (b + OVERHEAD_SIZE - OVERHEAD_SIZE) = load64 s.mem b ∧
        n ≤ load64 t.mem (b + OVERHEAD_SIZE - OVERHEAD_SIZE)) ∧
    ((∀ x ∈ L, load64 s.mem x < n) → n ≤ 2147483647 * PAGE_SIZE →
      ∃ fuel0, ∀ fuel, fuel0 ≤ fuel → ∃ t,
        get_chunk fuel s n = .ok (s.mmap_next + OVERHEAD_SIZE, t) ∧
        load64 t.mem (s.mmap_next + OVERHEAD_SIZE - OVERHEAD_SIZE) = n ∧
        t.mmap_log = s.mmap_log ++ [(s.mmap_next, ((n - 1) / PAGE_SIZE + 1) * PAGE_SIZE)]) := by
  have h8 : ¬ n < CHUNK_SIZE := by
    unfold BLOCK_SIZE at hn
    unfold CHUNK_SIZE
    omega
  have hget := fun fuel => get_chunk_big fuel s n a ab harena hb hcs h8
  refine ⟨?_, ?_⟩
  · intro L1 b L2 e hsmall hfit
    subst e
    refine ⟨L1.length + 1, fun fuel hf => ?_⟩
    obtain ⟨t, ht, _, hsizes, _⟩ :=
      pop_big_block_fit s a ab n L1 L2 b harena hb hn hlist hapart hsmall hfit fuel (by omega)
    have hbsz : load64 t.mem b = load64 s.mem b :=
      hsizes b (List.mem_append_right _ (List.mem_cons_self _ _))
    have hne : ¬ (b + OVERHEAD_SIZE = 0) := by
      unfold OVERHEAD_SIZE
      omega
    refine ⟨t, ?_, ?_, ?_⟩
    · rw [hget fuel, ht]
      simp only [hne, if_false]
    · rw [Nat.add_sub_cancel]
      exact hbsz
    · rw [Nat.add_sub_cancel, hbsz]
      exact hfit
  · intro hsmall hmax
    refine ⟨L.length + 1, fun fuel hf => ?_⟩
    have hpop := pop_big_block_none s a ab n L harena hb hn hlist hsmall fuel (by omega)
    refine ⟨{ (mmap s (((n - 1) / PAGE_SIZE + 1) * PAGE_SIZE)).2 with
      mem := store64 (mmap s (((n - 1) / PAGE_SIZE + 1) * PAGE_SIZE)).2.mem s.mmap_next n },
      ?_, ?_, ?_⟩
    · rw [hget fuel, hpop]
      simp only [if_true]
      exact allocate_big_block_fresh s n hn hmax
    · rw [Nat.add_sub_cancel]
      unfold BLOCK_SIZE at hn
      unfold PAGE_SIZE at hmax
      exact load64_store64_same _ _ _ (by omega)
    · rfl

/-- C17 witness: a bucket with `chunk_size == 0` caching a block of size 10000 at
4096 followed by one of size 30000 at 8192, and the request 20000. -/
theorem large_class_size_word_witness :
    (two_cached_blocks.bucketAt (0, 0)).chunk_size = 0 ∧ BLOCK_SIZE ≤ 20000 ∧
    ∃ fuel0, ∀ fuel, fuel0 ≤ fuel → ∃ t,
      get_chunk fuel two_cached_blocks 20000 = .ok (8192 + OVERHEAD_SIZE, t) ∧
      load64 t.mem (8192 + OVERHEAD_SIZE - OVERHEAD_SIZE) = load64 two_cached_blocks.mem 8192 ∧
      20000 ≤ load64 t.mem (8192 + OVERHEAD_SIZE - OVERHEAD_SIZE) :=
  ⟨rfl, by decide,
    (large_class_size_word two_cached_blocks 0 (0, 0) 20000 [4096, 8192] rfl rfl rfl (by decide)
      (by decide!) (by unfold HeadersApart; decide)).1 [4096] 8192 [] rfl
      (by
        intro x hx
        simp only [List.mem_singleton] at hx
        subst hx
        decide!)
      (by decide!)⟩

/-- C17 (as stated, refuted): on a bucket with `chunk_size == 0` caching a block
of recorded size 30000 at 8192 (behind one of size 10000 at 4096),
`get_chunk(20000)` returns `p = 8200` popped from the block list, and the word at
`p - sizeof(size_t)` is 30000, not the requested 20000. -/
theorem popped_block_keeps_recorded_size :
    (two_cached_blocks.bucketAt (0, 0)).chunk_size = 0 ∧ BLOCK_SIZE ≤ 20000 ∧
    (do let (p, t) ← get_chunk 8 two_cached_blocks 20000
        pure [p, load64 t.mem (p - OVERHEAD_SIZE), t.mmap_log.length]
          : Except Fault (List Nat)) = .ok [8200, 30000, 0] ∧
    (30000 : Nat) ≠ 20000 := by
  refine ⟨rfl, by decide, by decide!, by decide⟩

/-! ## Theorems: alignment of the pointers returned -/

/-- C23: from the fresh state with the page source at the 4096-aligned base
`base0`: `p = limalloc(20000)` returns `base0 + 8`; the caller stores the words 9
and `p + 33` at `p + 8` and `p + 16` (inside its 20000 bytes, where bucket 0 keeps
the header of its block); `q = limalloc(20000)` returns `base0 + 16`; and
`r = limalloc(20000)` returns `p + 33 = base0 + 41`, which is not a multiple of 8.
Nothing but the first slab was mapped. -/
theorem limalloc_returns_unaligned_pointer :
    base0 % 4096 = 0 ∧
    ∃ r : Nat,
    (do let (p, s1) ← limalloc 0 (fresh base0) 20000
        let s2 : State := { s1 with mem := store64 (store64 s1.mem (p + 8) 9) (p + 16) (p + 33) }
        let (q, s3) ← limalloc 0 s2 20000
        let (r, s4) ← limalloc 0 s3 20000
        pure [p, p % 8, q, q % 8, r, s4.mmap_log.length]
          : Except Fault (List Nat)) =
      .ok [base0 + 8, 0, base0 + 16, 0, r, 1] ∧
    r = base0 + 41 ∧ r % 8 = 1 :=
  ⟨by decide, base0 + 41, by decide!, rfl, by decide⟩

end Limalloc

namespace Hmalloc

open Limalloc

/-! ## Theorems: `hrealloc` evaluated on the code -/

/-- C22: from the fresh state `p = hmalloc(100)` returns `base0 + 8` and its
header records the chunk size 108; `hrealloc(p, 50)`, with `0 < 50 <= 108`,
leaves the free list as it was but returns `base0`, the address of the chunk
header `p - sizeof(size_t)`, and not `p`. -/
theorem hrealloc_returns_header_address :
    ∃ p q : Nat,
    (do let (p, s1) ← hmalloc 8 (fresh base0) 100
        let (q, s2) ← hrealloc 8 s1 p 50
        pure [p, load64 s1.mem (p - OVERHEAD_SIZE), q, s1.head, s2.head,
          load64 s1.mem s1.head, load64 s2.mem s2.head,
          load64 s1.mem (s1.head + 8), load64 s2.mem (s2.head + 8)]
          : Except Fault (List Nat)) =
      .ok [p, 108, q, base0 + 108, base0 + 108, 3988, 3988, 0, 0] ∧
    p = base0 + 8 ∧ q = base0 ∧ q = p - OVERHEAD_SIZE ∧ q ≠ p :=
  ⟨base0 + 8, base0, by decide!, rfl, rfl, by decide, by decide⟩

/-! ## Theorems: pushing a chunk on the free list -/

theorem chunkList_head (m : Mem) : ∀ (l : List Nat) (head : Nat),
    ChunkList m head l → head = l.headD 0
  | [], _, h => h
  | _ :: _, _, h => h.1

theorem push_walk_stop (m : Mem) (ptr : Nat) (L2 : List Nat) :
    ∀ (L1 : List Nat) (prev curr fuel : Nat),
    ChunkList m curr (L1 ++ L2) → (∀ x ∈ L1, x < ptr) → (∀ y ∈ L2, ptr ≤ y) →
    L1.length < fuel →
    push_walk m ptr fuel prev curr = .ok (L1.getLastD prev, L2.headD 0) := by
  intro L1
  induction L1 with
  | nil =>
    intro prev curr fuel hl _ hge hf
    cases fuel with
    | zero => simp at hf
    | succ fuel =>
      have hc : curr = L2.headD 0 := chunkList_head m _ _ hl
      have hno : ¬ (curr ≠ 0 ∧ ptr > curr) := by
        cases L2 with
        | nil =>
          intro h
          exact h.1 hc
        | cons b L2 =>
          have hb : ptr ≤ b := hge b (List.mem_cons_self _ _)
          have hcb : curr = b := hc
          omega
      rw [push_walk, if_neg hno, hc]
      rfl
  | cons a L1 ih =>
    intro prev curr fuel hl hlt hge hf
    cases fuel with
    | zero => simp at hf
    | succ fuel =>
      obtain ⟨h1, h2, h3⟩ := hl
      have ha : a < ptr := hlt a (List.mem_cons_self _ _)
      have hyes : curr ≠ 0 ∧ ptr > curr := by
        subst h1
        exact ⟨h2, ha⟩
      rw [push_walk, if_pos hyes, h1,
        ih a (load64 m (a + 8)) fuel h3 (fun x hx => hlt x (List.mem_cons_of_mem _ hx)) hge
          (by simpa using hf), List.getLastD_cons]

theorem freeList_split (m : Mem) (ptr : Nat) : ∀ (L : List Nat),
    L.Pairwise (fun x y => x + load64 m x ≤ y) →
    (∀ x ∈ L, x + load64 m x ≤ ptr ∨ ptr + load64 m ptr ≤ x) →
    ∃ L1 L2, L = L1 ++ L2 ∧ (∀ x ∈ L1, x + load64 m x ≤ ptr) ∧
      (∀ y ∈ L2, ptr + load64 m ptr ≤ y) := by
  intro L
  induction L with
  | nil => intro _ _; exact ⟨[], [], rfl, by simp, by simp⟩
  | cons a L ih =>
    intro hpw hnew
    rcases hnew a (List.mem_cons_self _ _) with h | h
    · obtain ⟨L1, L2, e, h1, h2⟩ := ih (List.pairwise_cons.mp hpw).2
        (fun x hx => hnew x (List.mem_cons_of_mem _ hx))
      refine ⟨a :: L1, L2, by rw [e]; rfl, ?_, h2⟩
      intro x hx
      rcases List.mem_cons.mp hx with e1 | e1
      · subst e1
        exact h
      · exact h1 x e1
    · refine ⟨[], a :: L, rfl, by simp, ?_⟩
      intro y hy
      rcases List.mem_cons.mp hy with e1 | e1
      · subst e1
        exact h
      · have := (List.pairwise_cons.mp hpw).1 y e1
        omega

theorem freeList_headersApart (m : Mem) (L : List Nat)
    (hsz : ∀ x ∈ L, CHUNK_SIZE ≤ load64 m x) (hpw : L.Pairwise (fun x y => x + load64 m x ≤ y)) :
    HeadersApart L := by
  unfold HeadersApart
  refine List.Pairwise.imp_of_mem ?_ hpw
  intro a b ha _ hab
  have := hsz a ha
  unfold CHUNK_SIZE at this
  omega

theorem pairwise_sizes_congr (m1 m2 : Mem) (L : List Nat)
    (hsz : ∀ x ∈ L, load64 m2 x = load64 m1 x) (hpw : L.Pairwise (fun x y => x + load64 m1 x ≤ y)) :
    L.Pairwise (fun x y => x + load64 m2 x ≤ y) := by
  refine List.Pairwise.imp_of_mem ?_ hpw
  intro a b ha _ hab
  rw [hsz a ha]
  exact hab

theorem freeList_ascending (m : Mem) (head : Nat) (L : List Nat) (h : FreeList m head L) :
    L.Pairwise (fun x y => x < y) := by
  obtain ⟨_, hsz, hpw⟩ := h
  refine List.Pairwise.imp_of_mem ?_ hpw
  intro a b ha _ hab
  have := (hsz a ha).1
  unfold CHUNK_SIZE at this
  omega

theorem chunkList_insert (m : Mem) (prev ptr : Nat) (L2 : List Nat) (hp0 : ptr ≠ 0)
    (hplt : ptr < 18446744073709551616) :
    ∀ (L1 : List Nat) (head : Nat),
    ChunkList m head (L1 ++ prev :: L2) → HeadersApart (L1 ++ prev :: L2) →
    (∀ x ∈ L1 ++ prev :: L2, x + 16 ≤ ptr ∨ ptr + 16 ≤ x) →
    ChunkList (store64 (store64 m (prev + 8) ptr) (ptr + 8) (L2.headD 0)) head
      (L1 ++ prev :: ptr :: L2) := by
  intro L1
  induction L1 with
  | nil =>
    intro head hl hap hnew
    obtain ⟨h1, h2, h3⟩ := hl
    have hpp := hnew prev (List.mem_cons_self _ _)
    have hnx : load64 m (prev + 8) = L2.headD 0 := chunkList_head m _ _ h3
    have hlt : L2.headD 0 < 18446744073709551616 := by
      rw [← hnx]
      exact load64_lt _ _
    refine ⟨h1, h2, ?_⟩
    rw [load64_store64_other _ _ _ _ (by omega), load64_store64_same _ _ _ hplt]
    refine ⟨rfl, hp0, ?_⟩
    rw [load64_store64_same _ _ _ hlt, ← hnx]
    refine blockList_congr m _ L2 _ h3 ?_
    intro x hx
    have hxp := hnew x (List.mem_cons_of_mem _ hx)
    have hxq := (List.pairwise_cons.mp hap).1 x hx
    rw [load64_store64_other _ _ _ _ (by omega), load64_store64_other _ _ _ _ (by omega)]
  | cons a L1 ih =>
    intro head hl hap hnew
    obtain ⟨h1, h2, h3⟩ := hl
    have hap2 := List.pairwise_cons.mp hap
    have hpa := hnew a (List.mem_cons_self _ _)
    have hqa := hap2.1 prev (List.mem_append_right _ (List.mem_cons_self _ _))
    refine ⟨h1, h2, ?_⟩
    rw [load64_store64_other _ _ _ _ (by omega), load64_store64_other _ _ _ _ (by omega)]
    exact ih _ h3 hap2.2 (fun x hx => hnew x (List.mem_cons_of_mem _ hx))

theorem headersApart_pair : ∀ (l : List Nat), HeadersApart l → ∀ u ∈ l, ∀ w ∈ l, u ≠ w →
    u + 16 ≤ w ∨ w + 16 ≤ u := by
  intro l
  induction l with
  | nil => intro _ u hu; simp at hu
  | cons z l ih =>
    intro hap u hu w hw huw
    have hz := List.pairwise_cons.mp hap
    rcases List.mem_cons.mp hu with e1 | e1 <;> rcases List.mem_cons.mp hw with e2 | e2
    · omega
    · subst e1
      exact hz.1 w e2
    · subst e2
      have := hz.1 u e1
      omega
    · exact ih hz.2 u e1 w e2 huw

theorem push_chunk_spec (s : State) (L : List Nat) (ptr : Nat)
    (hL : FreeList s.mem s.head L) (hp0 : ptr ≠ 0) (hpsz : CHUNK_SIZE ≤ load64 s.mem ptr)
    (hpend : ptr + load64 s.mem ptr ≤ 18446744073709551616)
    (hnew : ∀ x ∈ L, x + load64 s.mem x ≤ ptr ∨ ptr + load64 s.mem ptr ≤ x)
    (fuel : Nat) (hf : L.length < fuel) :
    ∃ t L1 L2, push_chunk fuel s ptr = .ok t ∧ L = L1 ++ L2 ∧
      FreeList t.mem t.head (L1 ++ ptr :: L2) ∧
      (∀ x ∈ ptr :: L, load64 t.mem x = load64 s.mem x) ∧
      t.mmap_log = s.mmap_log ∧ t.munmap_log = s.munmap_log := by
  obtain ⟨hcl, hsz, hpw⟩ := hL
  obtain ⟨L1, L2, e, h1, h2⟩ := freeList_split s.mem ptr L hpw hnew
  subst e
  unfold CHUNK_SIZE at hpsz
  have hsz16 : ∀ x ∈ L1 ++ L2, 16 ≤ load64 s.mem x := fun x hx => (hsz x hx).1
  have hfar : ∀ x ∈ L1 ++ L2, x + 16 ≤ ptr ∨ ptr + 16 ≤ x := by
    intro x hx
    have := hsz16 x hx
    have := hnew x hx
    omega
  have hap : HeadersApart (L1 ++ L2) :=
    freeList_headersApart s.mem _ (fun x hx => (hsz x hx).1) hpw
  -- the list with the new chunk, read in the old heap
  have hpw2 : (L1 ++ ptr :: L2).Pairwise (fun x y => x + load64 s.mem x ≤ y) := by
    obtain ⟨p1, p2, p3⟩ := List.pairwise_append.mp hpw
    refine List.pairwise_append.mpr ⟨p1, List.pairwise_cons.mpr ⟨h2, p2⟩, ?_⟩
    intro a ha b hb
    rcases List.mem_cons.mp hb with e1 | e1
    · subst e1
      exact h1 a ha
    · exact p3 a ha b e1
  have hsz2 : ∀ x ∈ L1 ++ ptr :: L2,
      CHUNK_SIZE ≤ load64 s.mem x ∧ x + load64 s.mem x ≤ 18446744073709551616 := by
    intro x hx
    rcases List.mem_append.mp hx with e1 | e1
    · exact hsz x (List.mem_append_left _ e1)
    · rcases List.mem_cons.mp e1 with e2 | e2
      · subst e2
        exact ⟨hpsz, hpend⟩
      · exact hsz x (List.mem_append_right _ e2)
  have hmem2 : ∀ x ∈ L1 ++ ptr :: L2, x ∈ ptr :: (L1 ++ L2) := by
    intro x hx
    rcases List.mem_append.mp hx with e1 | e1
    · exact List.mem_cons_of_mem _ (List.mem_append_left _ e1)
    · rcases List.mem_cons.mp e1 with e2 | e2
      · subst e2
        exact List.mem_cons_self _ _
      · exact List.mem_cons_of_mem _ (List.mem_append_right _ e2)
  cases L1 with
  | nil =>
    have hhead : s.head = L2.headD 0 := chunkList_head s.mem _ _ hcl
    have hfirst : s.head = 0 ∨ ptr < s.head := by
      cases L2 with
      | nil => exact Or.inl hhead
      | cons b L2 =>
        have hb := h2 b (List.mem_cons_self _ _)
        have hhb : s.head = b := hhead
        right
        omega
    have hhlt : s.head < 18446744073709551616 := by
      cases L2 with
      | nil =>
        have hh0 : s.head = 0 := hhead
        omega
      | cons b L2 =>
        have hb := (hsz b (List.mem_cons_self _ _)).2
        have hb16 := hsz16 b (List.mem_cons_self _ _)
        have hhb : s.head = b := hhead
        omega
    have hsizes : ∀ x ∈ ptr :: ([] ++ L2),
        load64 (store64 s.mem (ptr + 8) s.head) x = load64 s.mem x := by
      intro x hx
      rcases List.mem_cons.mp hx with e1 | e1
      · subst e1
        exact load64_store64_other _ _ _ _ (by omega)
      · have := hfar x e1
        exact load64_store64_other _ _ _ _ (by omega)
    refine ⟨{ s with mem := store64 s.mem (ptr + 8) s.head, head := ptr }, [], L2, ?_, rfl,
      ⟨?_, ?_, ?_⟩, hsizes, rfl, rfl⟩
    · simp only [push_chunk, hp0, if_false, hfirst, if_true]
    · refine ⟨rfl, hp0, ?_⟩
      show BlockList _ (load64 (store64 s.mem (ptr + 8) s.head) (ptr + 8)) L2
      rw [load64_store64_same _ _ _ hhlt]
      refine blockList_congr s.mem _ L2 _ hcl ?_
      intro x hx
      have := hfar x hx
      exact load64_store64_other _ _ _ _ (by omega)
    · intro x hx
      show CHUNK_SIZE ≤ load64 (store64 s.mem (ptr + 8) s.head) x ∧
        x + load64 (store64 s.mem (ptr + 8) s.head) x ≤ 18446744073709551616
      rw [hsizes x (hmem2 x hx)]
      exact hsz2 x hx
    · exact pairwise_sizes_congr s.mem _ _ (fun x hx => hsizes x (hmem2 x hx)) hpw2
  | cons a L1 =>
    obtain ⟨c1, c2, _⟩ := hcl
    have ha : a + load64 s.mem a ≤ ptr := h1 a (List.mem_cons_self _ _)
    have ha16 := hsz16 a (List.mem_cons_self _ _)
    have hnot : ¬ (s.head = 0 ∨ ptr < s.head) := by
      rw [c1]
      omega
    have hwalk := push_walk_stop s.mem ptr L2 (a :: L1) 0 s.head fuel ⟨c1, c2, by assumption⟩
      (fun x hx => by
        have := h1 x hx
        have := hsz16 x (List.mem_append_left _ hx)
        omega)
      (fun y hy => by
        have := h2 y hy
        omega)
      (by
        simp only [List.length_append] at hf
        omega)
    obtain ⟨L0, e0⟩ := cons_eq_append_getLastD L1 a
    rw [List.getLastD_cons] at hwalk
    generalize L1.getLastD a = prev at hwalk e0
    have hprev_mem : prev ∈ a :: L1 := by
      rw [e0]
      exact List.mem_append_right _ (List.mem_singleton_self _)
    have hprev0 : prev ≠ 0 :=
      blockList_nonzero s.mem _ _ (show BlockList s.mem s.head (a :: L1 ++ L2) from ⟨c1, c2, by assumption⟩)
        prev (List.mem_append_left _ hprev_mem)
    have hplt : ptr < 18446744073709551616 := by omega
    have elist : a :: L1 ++ L2 = L0 ++ prev :: L2 := by
      rw [e0, List.append_assoc]
      rfl
    have elist2 : a :: L1 ++ ptr :: L2 = L0 ++ prev :: ptr :: L2 := by
      rw [e0, List.append_assoc]
      rfl
    have hsizes : ∀ x ∈ ptr :: (a :: L1 ++ L2),
        load64 (store64 (store64 s.mem (prev + 8) ptr) (ptr + 8) (L2.headD 0)) x = load64 s.mem x := by
      intro x hx
      have hxp : x = ptr ∨ x + 16 ≤ ptr ∨ ptr + 16 ≤ x := by
        rcases List.mem_cons.mp hx with e1 | e1
        · exact Or.inl e1
        · exact Or.inr (hfar x e1)
      have hxq : x + 8 ≤ prev + 8 ∨ prev + 8 + 8 ≤ x := by
        rcases List.mem_cons.mp hx with e1 | e1
        · have := hfar prev (List.mem_append_left _ hprev_mem)
          omega
        · by_cases e2 : x = prev
          · omega
          · have := headersApart_pair _ hap x e1 prev (List.mem_append_left _ hprev_mem) e2
            omega
      rw [load64_store64_other _ _ _ _ (by omega), load64_store64_other _ _ _ _ (by omega)]
    refine ⟨{ s with mem := store64 (store64 s.mem (prev + 8) ptr) (ptr + 8) (L2.headD 0) },
      a :: L1, L2, ?_, rfl, ⟨?_, ?_, ?_⟩, hsizes, rfl, rfl⟩
    · simp only [push_chunk, hp0, if_false, hnot, hwalk, ne_eq, hprev0, not_false_eq_true, if_true]
    · show BlockList _ s.head (a :: L1 ++ ptr :: L2)
      rw [elist2]
      refine chunkList_insert s.mem prev ptr L2 hp0 hplt L0 s.head ?_ ?_ ?_
      · rw [← elist]
        exact ⟨c1, c2, by assumption⟩
      · rw [← elist]
        exact hap
      · rw [← elist]
        exact hfar
    · intro x hx
      show CHUNK_SIZE ≤ load64 (store64 (store64 s.mem (prev + 8) ptr) (ptr + 8) (L2.headD 0)) x ∧
        x + load64 (store64 (store64 s.mem (prev + 8) ptr) (ptr + 8) (L2.headD 0)) x
          ≤ 18446744073709551616
      rw [hsizes x (hmem2 x hx)]
      exact hsz2 x hx
    · exact pairwise_sizes_congr s.mem _ _ (fun x hx => hsizes x (hmem2 x hx)) hpw2

/-! ## Theorems: coalescing the free list -/

theorem covers_cons (m : Mem) (x : Nat) (l : List Nat) (a : Nat) :
    Covers m (x :: l) a ↔ (x ≤ a ∧ a < x + load64 m x) ∨ Covers m l a := by
  unfold Covers
  constructor
  · rintro ⟨y, hy, h⟩
    rcases List.mem_cons.mp hy with e | e
    · subst e
      exact Or.inl h
    · exact Or.inr ⟨y, e, h⟩
  · rintro (h | ⟨y, hy, h⟩)
    · exact ⟨x, List.mem_cons_self _ _, h⟩
    · exact ⟨y, List.mem_cons_of_mem _ hy, h⟩

theorem covers_congr (m1 m2 : Mem) (l : List Nat) (a : Nat)
    (h : ∀ x ∈ l, load64 m2 x = load64 m1 x) : Covers m2 l a ↔ Covers m1 l a := by
  unfold Covers
  constructor
  · rintro ⟨y, hy, h1⟩
    exact ⟨y, hy, by rw [← h y hy]; exact h1⟩
  · rintro ⟨y, hy, h1⟩
    exact ⟨y, hy, by rw [h y hy]; exact h1⟩

theorem sizes_sum_congr (m1 m2 : Mem) (l : List Nat) (h : ∀ x ∈ l, load64 m2 x = load64 m1 x) :
    (l.map (load64 m2)).sum = (l.map (load64 m1)).sum := by
  rw [List.map_congr_left h]

theorem coalesce_loop_spec : ∀ (R : List Nat) (m : Mem) (curr fuel : Nat),
    FreeList m curr (curr :: R) → R.length < fuel →
    ∃ m1 R1, coalesce_loop fuel m curr (load64 m (curr + 8)) = .ok m1 ∧
      FreeList m1 curr (curr :: R1) ∧ (∀ y ∈ R1, y ∈ R) ∧
      (curr :: R1).Chain' (fun x y => x + load64 m1 x ≠ y) ∧
      ((curr :: R1).map (load64 m1)).sum = ((curr :: R).map (load64 m)).sum ∧
      (∀ a, Covers m1 (curr :: R1) a ↔ Covers m (curr :: R) a) ∧
      (∀ a, a < curr → m1 a = m a) := by
  intro R
  induction R with
  | nil =>
    intro m curr fuel hfl hf
    cases fuel with
    | zero => simp at hf
    | succ fuel =>
      have hnext : load64 m (curr + 8) = 0 := hfl.1.2.2
      refine ⟨m, [], ?_, hfl, fun y hy => hy, List.chain'_singleton _, rfl, fun a => Iff.rfl,
        fun a _ => rfl⟩
      rw [hnext]
      simp only [coalesce_loop, ne_eq, not_true_eq_false, and_false, if_false]
  | cons b R2 ih =>
    intro m curr fuel hfl hf
    cases fuel with
    | zero => simp at hf
    | succ fuel =>
      obtain ⟨⟨_, hc0, hb1, hb0, hR2⟩, hsz, hpw⟩ := hfl
      have hf2 : R2.length < fuel := by simpa using hf
      have hszc := hsz curr (List.mem_cons_self _ _)
      have hszb := hsz b (List.mem_cons_of_mem _ (List.mem_cons_self _ _))
      have hszR : ∀ x ∈ R2, CHUNK_SIZE ≤ load64 m x ∧ x + load64 m x ≤ 18446744073709551616 :=
        fun x hx => hsz x (List.mem_cons_of_mem _ (List.mem_cons_of_mem _ hx))
      obtain ⟨hpc, hpw1⟩ := List.pairwise_cons.mp hpw
      obtain ⟨hpb, hpw2⟩ := List.pairwise_cons.mp hpw1
      have hcb := hpc b (List.mem_cons_self _ _)
      unfold CHUNK_SIZE at hszc hszb hszR
      have hyes : curr ≠ 0 ∧ load64 m (curr + 8) ≠ 0 := by
        rw [hb1]
        exact ⟨hc0, hb0⟩
      by_cases hadj : curr + load64 m curr = b
      · -- the two chunks are merged
        have hsum : toSizeT ((load64 m curr : Int) + (load64 m b : Int)) =
            load64 m curr + load64 m b := by
          unfold toSizeT
          omega
        have hnb : load64 (store64 m curr (load64 m curr + load64 m b)) (b + 8) = load64 m (b + 8) :=
          load64_store64_other _ _ _ _ (by omega)
        have hnblt : load64 m (b + 8) < 18446744073709551616 := load64_lt _ _
        have hrest : ∀ x ∈ R2, ∀ k, k = 0 ∨ k = 8 →
            load64 (store64 (store64 m curr (load64 m curr + load64 m b)) (curr + 8)
              (load64 m (b + 8))) (x + k) = load64 m (x + k) := by
          intro x hx k hk
          have := hpb x hx
          rw [load64_store64_other _ _ _ _ (by omega), load64_store64_other _ _ _ _ (by omega)]
        have hrest0 : ∀ x ∈ R2,
            load64 (store64 (store64 m curr (load64 m curr + load64 m b)) (curr + 8)
              (load64 m (b + 8))) x = load64 m x :=
          fun x hx => hrest x hx 0 (Or.inl rfl)
        have hcsz : load64 (store64 (store64 m curr (load64 m curr + load64 m b)) (curr + 8)
              (load64 m (b + 8))) curr = load64 m curr + load64 m b := by
          rw [load64_store64_other _ _ _ _ (by omega), load64_store64_same _ _ _ (by omega)]
        have hcnx : load64 (store64 (store64 m curr (load64 m curr + load64 m b)) (curr + 8)
              (load64 m (b + 8))) (curr + 8) = load64 m (b + 8) :=
          load64_store64_same _ _ _ hnblt
        have hfl2 : FreeList (store64 (store64 m curr (load64 m curr + load64 m b)) (curr + 8)
              (load64 m (b + 8))) curr (curr :: R2) := by
          refine ⟨⟨rfl, hc0, ?_⟩, ?_, ?_⟩
          · rw [hcnx]
            exact blockList_congr m _ R2 _ hR2 (fun x hx => hrest x hx 8 (Or.inr rfl))
          · intro x hx
            rcases List.mem_cons.mp hx with e | e
            · subst e
              rw [hcsz]
              unfold CHUNK_SIZE
              omega
            · rw [hrest0 x e]
              exact hsz x (List.mem_cons_of_mem _ (List.mem_cons_of_mem _ e))
          · refine List.pairwise_cons.mpr ⟨?_, pairwise_sizes_congr m _ R2 hrest0 hpw2⟩
            intro y hy
            rw [hcsz]
            have := hpb y hy
            omega
        obtain ⟨m1, R1, hrun, hfl1, hsub, hch, hs, hcov, hfr⟩ := ih _ curr fuel hfl2 hf2
        refine ⟨m1, R1, ?_, hfl1, fun y hy => List.mem_cons_of_mem _ (hsub y hy), hch, ?_, ?_, ?_⟩
        · rw [hcnx] at hrun
          rw [hb1]
          simp only [coalesce_loop, ne_eq, hc0, not_false_eq_true, hb0, and_self, if_true, hadj,
            hsum, hnb, hcnx]
          exact hrun
        · rw [hs]
          simp only [List.map_cons, List.sum_cons, hcsz, sizes_sum_congr m _ R2 hrest0]
          omega
        · intro a
          rw [hcov a, covers_cons, covers_cons, covers_cons, hcsz, covers_congr m _ R2 a hrest0]
          constructor
          · rintro (h | h)
            · by_cases hab : a < b
              · exact Or.inl ⟨h.1, by omega⟩
              · exact Or.inr (Or.inl ⟨by omega, by omega⟩)
            · exact Or.inr (Or.inr h)
          · rintro (h | h | h)
            · exact Or.inl ⟨h.1, by omega⟩
            · exact Or.inl ⟨by omega, by omega⟩
            · exact Or.inr h
        · intro a ha
          rw [hfr a ha, store64_outside _ _ _ _ (by omega), store64_outside _ _ _ _ (by omega)]
      · -- the walk moves on to the next chunk
        have hflb : FreeList m b (b :: R2) :=
          ⟨⟨rfl, hb0, hR2⟩, fun x hx => hsz x (List.mem_cons_of_mem _ hx), hpw1⟩
        obtain ⟨m1, R1, hrun, hfl1, hsub, hch, hs, hcov, hfr⟩ := ih m b fuel hflb hf2
        have hcsz : load64 m1 curr = load64 m curr :=
          load64_congr _ _ _ (fun x _ _ => hfr x (by omega))
        have hcnx : load64 m1 (curr + 8) = load64 m (curr + 8) :=
          load64_congr _ _ _ (fun x _ _ => hfr x (by omega))
        obtain ⟨hcl1, hsz1, hpw1b⟩ := hfl1
        refine ⟨m1, b :: R1, ?_, ⟨⟨rfl, hc0, ?_⟩, ?_, ?_⟩, ?_, ?_, ?_, ?_, ?_⟩
        · rw [hb1]
          simp only [coalesce_loop, ne_eq, hc0, not_false_eq_true, hb0, and_self, if_true, hadj,
            if_false]
          exact hrun
        · rw [hcnx, hb1]
          exact hcl1
        · intro x hx
          rcases List.mem_cons.mp hx with e | e
          · subst e
            rw [hcsz]
            exact hsz x (List.mem_cons_self _ _)
          · exact hsz1 x e
        · refine List.pairwise_cons.mpr ⟨?_, hpw1b⟩
          intro y hy
          rw [hcsz]
          rcases List.mem_cons.mp hy with e | e
          · subst e
            exact hcb
          · exact hpc y (List.mem_cons_of_mem _ (hsub y e))
        · intro y hy
          rcases List.mem_cons.mp hy with e | e
          · subst e
            exact List.mem_cons_self _ _
          · exact List.mem_cons_of_mem _ (hsub y e)
        · refine List.chain'_cons.mpr ⟨?_, hch⟩
          rw [hcsz]
          exact hadj
        · simp only [List.map_cons, List.sum_cons] at hs ⊢
          rw [hcsz, hs]
        · intro a
          rw [covers_cons, hcov a, covers_cons m curr, hcsz]
        · intro a ha
          exact hfr a (by omega)

theorem chunk_list_coalesce_spec (t : State) (L1 : List Nat)
    (h : FreeList t.mem t.head L1) (fuel : Nat) (hf : L1.length < fuel) :
    ∃ u L2, chunk_list_coalesce fuel t = .ok u ∧ FreeList u.mem u.head L2 ∧
      (∀ y ∈ L2, y ∈ L1) ∧
      L2.Chain' (fun x y => x + load64 u.mem x ≠ y) ∧
      (∀ a, Covers u.mem L2 a ↔ Covers t.mem L1 a) ∧
      (L2.map (load64 u.mem)).sum = (L1.map (load64 t.mem)).sum := by
  cases L1 with
  | nil =>
    have h0 : t.head = 0 := h.1
    refine ⟨t, [], ?_, h, fun y hy => hy, List.chain'_nil, fun a => Iff.rfl, rfl⟩
    simp only [chunk_list_coalesce, h0, true_or, if_true]
  | cons c R =>
    have hc : t.head = c := h.1.1
    by_cases hz : load64 t.mem (c + 8) = 0
    · have hR : R = [] := by
        cases R with
        | nil => rfl
        | cons b R =>
          have hb : BlockList t.mem (load64 t.mem (c + 8)) (b :: R) := h.1.2.2
          rw [hz] at hb
          exact absurd hb.1.symm hb.2.1
      subst hR
      refine ⟨t, [c], ?_, h, fun y hy => hy, List.chain'_singleton _, fun a => Iff.rfl, rfl⟩
      simp only [chunk_list_coalesce, hc, hz, or_true, if_true]
    · rw [hc] at h
      have hc0 : c ≠ 0 := h.1.2.1
      obtain ⟨m1, R1, hrun, hfl1, hsub, hch, hs, hcov, _⟩ :=
        coalesce_loop_spec R t.mem c fuel h (by
          simp only [List.length_cons] at hf
          omega)
      refine ⟨{ t with mem := m1 }, c :: R1, ?_, ?_, ?_, hch, hcov, hs⟩
      · simp only [chunk_list_coalesce, hc, hc0, hz, or_self, if_false, hrun]
      · show FreeList m1 t.head (c :: R1)
        rw [hc]
        exact hfl1
      · intro y hy
        rcases List.mem_cons.mp hy with e | e
        · subst e
          exact List.mem_cons_self _ _
        · exact List.mem_cons_of_mem _ (hsub y e)

/-- C21: on a free list `L` in address order (null-terminated, every chunk at
least `sizeof(chunk)` long and ending at or before each later chunk):
(a) `push_chunk` of a non-null chunk that overlaps no listed chunk, given enough
fuel for the walk, yields a free list in address order, strictly ascending, that
is a permutation of the old nodes plus the new one, with every size kept;
(b) `chunk_list_coalesce` on any free list in address order, given enough fuel,
yields a free list in address order, strictly ascending, made of nodes of the
old list, in which no node ends where its successor starts, covering exactly
the same bytes and with the same sum of sizes. -/
theorem push_chunk_then_coalesce (s : State) (L : List Nat) (ptr : Nat)
    (hL : FreeList s.mem s.head L) (hp0 : ptr ≠ 0) (hpsz : CHUNK_SIZE ≤ load64 s.mem ptr)
    (hpend : ptr + load64 s.mem ptr ≤ 18446744073709551616)
    (hnew : ∀ x ∈ L, x + load64 s.mem x ≤ ptr ∨ ptr + load64 s.mem ptr ≤ x) :
    (∃ fuel0, ∀ fuel, fuel0 ≤ fuel → ∃ t L1,
      push_chunk fuel s ptr = .ok t ∧ FreeList t.mem t.head L1 ∧
      L1.Pairwise (fun x y => x < y) ∧ L1.Perm (ptr :: L) ∧
      (∀ x ∈ L1, load64 t.mem x = load64 s.mem x)) ∧
    (∀ (t : State) (L1 : List Nat), FreeList t.mem t.head L1 →
      ∃ fuel0, ∀ fuel, fuel0 ≤ fuel → ∃ u L2,
        chunk_list_coalesce fuel t = .ok u ∧ FreeList u.mem u.head L2 ∧
        L2.Pairwise (fun x y => x < y) ∧ (∀ y ∈ L2, y ∈ L1) ∧
        L2.Chain' (fun x y => x + load64 u.mem x ≠ y) ∧
        (∀ a, Covers u.mem L2 a ↔ Covers t.mem L1 a) ∧
        (L2.map (load64 u.mem)).sum = (L1.map (load64 t.mem)).sum) := by
  refine ⟨⟨L.length + 1, fun fuel hf => ?_⟩, fun t L1 ht => ⟨L1.length + 1, fun fuel hf => ?_⟩⟩
  · obtain ⟨t, L1, L2, hrun, e, hfl, hsizes, _, _⟩ :=
      push_chunk_spec s L ptr hL hp0 hpsz hpend hnew fuel (by omega)
    subst e
    refine ⟨t, L1 ++ ptr :: L2, hrun, hfl, freeList_ascending _ _ _ hfl, List.perm_middle, ?_⟩
    intro x hx
    exact hsizes x ((List.perm_middle.mem_iff).mp hx)
  · obtain ⟨u, L2, hrun, hfl, hsub, hch, hcov, hs⟩ :=
      chunk_list_coalesce_spec t L1 ht fuel (by omega)
    exact ⟨u, L2, hrun, hfl, freeList_ascending _ _ _ hfl, hsub, hch, hcov, hs⟩

/-- C21 witness: the free list of a 32-byte chunk at 4096 and a 64-byte chunk at
4160, the 32-byte chunk at 4128 between them being pushed, and the list of the
three chunks, as the push leaves it, being coalesced. -/
theorem push_chunk_then_coalesce_witness :
    FreeList two_free_chunks.mem two_free_chunks.head [4096, 4160] ∧
    (∃ fuel0, ∀ fuel, fuel0 ≤ fuel → ∃ t L1,
      push_chunk fuel two_free_chunks 4128 = .ok t ∧ FreeList t.mem t.head L1 ∧
      L1.Pairwise (fun x y => x < y) ∧ L1.Perm (4128 :: [4096, 4160]) ∧
      (∀ x ∈ L1, load64 t.mem x = load64 two_free_chunks.mem x)) ∧
    FreeList three_free_chunks.mem three_free_chunks.head [4096, 4128, 4160] ∧
    (∃ fuel0, ∀ fuel, fuel0 ≤ fuel → ∃ u L2,
      chunk_list_coalesce fuel three_free_chunks = .ok u ∧ FreeList u.mem u.head L2 ∧
      L2.Pairwise (fun x y => x < y) ∧ (∀ y ∈ L2, y ∈ [4096, 4128, 4160]) ∧
      L2.Chain' (fun x y => x + load64 u.mem x ≠ y) ∧
      (∀ a, Covers u.mem L2 a ↔ Covers three_free_chunks.mem [4096, 4128, 4160] a) ∧
      (L2.map (load64 u.mem)).sum = ([4096, 4128, 4160].map (load64 three_free_chunks.mem)).sum) :=
  ⟨by decide!,
    (push_chunk_then_coalesce two_free_chunks [4096, 4160] 4128 (by decide!) (by decide)
      (by decide!) (by decide!) (by decide!)).1,
    by decide!,
    (push_chunk_then_coalesce two_free_chunks [4096, 4160] 4128 (by decide!) (by decide)
      (by decide!) (by decide!) (by decide!)).2 three_free_chunks [4096, 4128, 4160] (by decide!)⟩

end Hmalloc
